import Mathlib

/-! Rabin fingerprints: a shallow embedding of `Internal/rabin64.c`.

The embedding follows the default build of the source: `FINGERPRINT_USE_INTEGRAL_TYPE`
and `FINGERPRINT_LITTLE_ENDIAN` are not defined, so a `poly_t` is a pair of `int_32_t`
halves, the byte order is probed at run time by `poly_find_byte_order`, and both word
reducers are compiled in.

C values are mathematical integers (`Int`), and every conversion to a C type is written
out: `Host.word` for `word_t`, `Host.integer` for `integer_t`, `int_32` for `int_32_t`
and for `int`.  A pointer to bytes is the list of bytes readable from it; a read past the
end of that list is the fault `outOfBounds`.  A failed `assert` is the fault `assertion`.
-/

namespace Rabin64

/-! ## Platform -/

/-- Ways in which a run stops without a result: a failed `assert`, a read outside the
bytes that a pointer gives access to, and a loop of the embedding that was given too
little fuel. -/
inductive Fault where
  | assertion
  | outOfBounds
  | fuel
  deriving DecidableEq, Repr

/-- Modelled from the spec: `fingerprint_byte_t` is declared in `rabin64.h`; the source
requires 8-bit characters (`UCHAR_MAX` must be 255). -/
abbrev byte_t := Fin 256

/-- The host platform.  Modelled from the spec: `fingerprint_word_t` is declared in
`rabin64.h`; `wordBits` is the width of `word_t`, the unsigned integer of the native
width, and of `integer_t`, the signed integer of the width of a pointer
(`fingerprint_init` asserts that a pointer and an `integer_t` have the same size).
`sig0 .. sig3` give the memory layout of an `int_32_t`: the byte at offset `i` holds
bits `8 * sig i .. 8 * sig i + 7` of the value. -/
structure Host where
  wordBits : Nat
  sig0 : Fin 4
  sig1 : Fin 4
  sig2 : Fin 4
  sig3 : Fin 4
  deriving DecidableEq, Repr

/-- Twos-complement bit pattern of `x` in `n` bits. -/
def pattern (n : Nat) (x : Int) : Nat :=
  (x % ((2 ^ n : Nat) : Int)).toNat

/-- Signed value of an `n`-bit pattern. -/
def signed (n : Nat) (x : Nat) : Int :=
  if x % 2 ^ n < 2 ^ (n - 1) then ((x % 2 ^ n : Nat) : Int)
  else ((x % 2 ^ n : Nat) : Int) - ((2 ^ n : Nat) : Int)

/-- Conversion `(word_t) x`. -/
def Host.word (h : Host) (x : Int) : Nat :=
  pattern h.wordBits x

/-- Conversion of `x` to `integer_t`. -/
def Host.integer (h : Host) (x : Int) : Int :=
  signed h.wordBits (pattern h.wordBits x)

/-- Conversion of `x` to `int_32_t`; with the default `FINGERPRINT_INT_32_TYPE` this is
also the conversion to `int`. -/
def int_32 (x : Int) : Int :=
  signed 32 (pattern 32 x)

/-- Conversion of `x` to a character type (8 bits). -/
def to_byte (x : Nat) : byte_t :=
  ⟨x % 256, Nat.mod_lt x (by decide)⟩

/-- A little-endian host with 32-bit words. -/
def little32 : Host := ⟨32, 0, 1, 2, 3⟩

/-- A big-endian host with 32-bit words. -/
def big32 : Host := ⟨32, 3, 2, 1, 0⟩

/-- A little-endian host with 64-bit words. -/
def little64 : Host := ⟨64, 0, 1, 2, 3⟩

/-- A big-endian host with 64-bit words. -/
def big64 : Host := ⟨64, 3, 2, 1, 0⟩

/-- The host stores an `int_32_t` least significant byte first. -/
def Host.isLittle (h : Host) : Prop :=
  h.sig0 = 0 ∧ h.sig1 = 1 ∧ h.sig2 = 2 ∧ h.sig3 = 3

/-- The host stores an `int_32_t` most significant byte first. -/
def Host.isBig (h : Host) : Prop :=
  h.sig0 = 3 ∧ h.sig1 = 2 ∧ h.sig2 = 1 ∧ h.sig3 = 0

instance (h : Host) : Decidable h.isLittle :=
  inferInstanceAs (Decidable (h.sig0 = 0 ∧ h.sig1 = 1 ∧ h.sig2 = 2 ∧ h.sig3 = 3))

instance (h : Host) : Decidable h.isBig :=
  inferInstanceAs (Decidable (h.sig0 = 3 ∧ h.sig1 = 2 ∧ h.sig2 = 1 ∧ h.sig3 = 0))

/-- Hosts the source supports: words of at least 32 bits, and one of the two byte
orders that `poly_find_byte_order` recognises. -/
def Host.supported (h : Host) : Prop :=
  32 ≤ h.wordBits ∧ (h.isLittle ∨ h.isBig)

instance (h : Host) : Decidable h.supported :=
  inferInstanceAs (Decidable (32 ≤ h.wordBits ∧ (h.isLittle ∨ h.isBig)))

/-! ## Types of the source -/

/-- The type `struct poly_t { int_32_t array[2]; }` of the source. -/
structure poly_t where
  array0 : Int
  array1 : Int
  deriving DecidableEq, Repr

/-- The type `union int_bytes_t { int_32_t w; byte_t b[4]; }` of the source, kept as
its four bytes in memory order. -/
structure int_bytes_t where
  b0 : byte_t
  b1 : byte_t
  b2 : byte_t
  b3 : byte_t
  deriving DecidableEq, Repr

/-- The byte of the 32-bit pattern of `w` that holds bits `8 * k .. 8 * k + 7`. -/
def sig_byte (w : Int) (k : Fin 4) : byte_t :=
  to_byte (pattern 32 w >>> (8 * k.val))

/-- Writing member `w` of the union: the bytes of `w` in the memory order of the host. -/
def int_bytes_t.of_w (h : Host) (w : Int) : int_bytes_t :=
  ⟨sig_byte w h.sig0, sig_byte w h.sig1, sig_byte w h.sig2, sig_byte w h.sig3⟩

/-- Reading member `w` of the union. -/
def int_bytes_t.w (h : Host) (x : int_bytes_t) : Int :=
  int_32 (((x.b0.val <<< (8 * h.sig0.val)) ||| (x.b1.val <<< (8 * h.sig1.val)) |||
    (x.b2.val <<< (8 * h.sig2.val)) ||| (x.b3.val <<< (8 * h.sig3.val)) : Nat) : Int)

/-- Modelled from the spec: `fingerprint_t` is declared in `rabin64.h`; a fingerprint is
exactly 8 bytes, which `FINGERPRINT_BYTE` gives access to. -/
structure fingerprint_t where
  byte0 : byte_t
  byte1 : byte_t
  byte2 : byte_t
  byte3 : byte_t
  byte4 : byte_t
  byte5 : byte_t
  byte6 : byte_t
  byte7 : byte_t
  deriving DecidableEq, Repr

/-- Modelled from the spec: `FINGERPRINT_BYTE (fp)` of `rabin64.h`, the 8 bytes of a
fingerprint in order. -/
def FINGERPRINT_BYTE (fp : fingerprint_t) : List byte_t :=
  [fp.byte0, fp.byte1, fp.byte2, fp.byte3, fp.byte4, fp.byte5, fp.byte6, fp.byte7]

/-- Read of `FINGERPRINT_BYTE (fp)[i]`. -/
def fingerprint_t.get (fp : fingerprint_t) : Nat → byte_t
  | 0 => fp.byte0
  | 1 => fp.byte1
  | 2 => fp.byte2
  | 3 => fp.byte3
  | 4 => fp.byte4
  | 5 => fp.byte5
  | 6 => fp.byte6
  | _ => fp.byte7

/-- Write of `FINGERPRINT_BYTE (fp)[i]`. -/
def fingerprint_t.set (fp : fingerprint_t) (i : Nat) (v : byte_t) : fingerprint_t :=
  match i with
  | 0 => { fp with byte0 := v }
  | 1 => { fp with byte1 := v }
  | 2 => { fp with byte2 := v }
  | 3 => { fp with byte3 := v }
  | 4 => { fp with byte4 := v }
  | 5 => { fp with byte5 := v }
  | 6 => { fp with byte6 := v }
  | _ => { fp with byte7 := v }

/-- A pointer to bytes whose numeric value matters: `addr` is the value of the pointer
and `mem` the bytes readable from it on. -/
structure Ptr where
  addr : Nat
  mem : List byte_t
  deriving DecidableEq, Repr

/-- Pointer arithmetic `p + n` on a byte pointer. -/
def Ptr.add (p : Ptr) (n : Int) : Ptr :=
  ⟨p.addr + n.toNat, p.mem.drop n.toNat⟩

/-- The file-scope variables of the source. -/
structure Globals where
  poly_little_endian : Int
  poly_big_endian : Int
  poly_init_done : Int
  fingerprint_of_empty : fingerprint_t
  deriving DecidableEq, Repr

/-! ## Static functions and macros -/

/-- Function `mod` of the source: `x` and `y` are replaced by their negations when
negative, then the operator `%` of C (which truncates) is applied, and the sign of the
result follows `y`. -/
def mod (h : Host) (x y : Int) : Int :=
  let positive : Bool := decide (y > 0)
  let x := if x < 0 then h.integer (-x) else x
  let y := if y < 0 then h.integer (-y) else y
  if positive then h.integer (Int.tmod x y) else h.integer (-(Int.tmod x y))

/-- Macro `word_plus`. -/
def word_plus (h : Host) (x y : Int) : Nat :=
  (h.word x + h.word y) % 2 ^ h.wordBits

/-- Macro `word_times`. -/
def word_times (h : Host) (x y : Int) : Nat :=
  (h.word x * h.word y) % 2 ^ h.wordBits

/-- Macro `word_and`. -/
def word_and (h : Host) (x y : Int) : Nat :=
  h.word x &&& h.word y

/-- Macro `word_or`. -/
def word_or (h : Host) (x y : Int) : Nat :=
  h.word x ||| h.word y

/-- Macro `word_xor`. -/
def word_xor (h : Host) (x y : Int) : Nat :=
  h.word x ^^^ h.word y

/-- Macro `word_not`. -/
def word_not (h : Host) (x : Int) : Nat :=
  2 ^ h.wordBits - 1 - h.word x

/-- Macro `word_left_shift`; the shift count is used as it is (C leaves counts outside
`0 .. wordBits - 1` undefined). -/
def word_left_shift (h : Host) (x : Int) (n : Int) : Nat :=
  (h.word x <<< n.toNat) % 2 ^ h.wordBits

/-- Macro `word_right_shift`. -/
def word_right_shift (h : Host) (x : Int) (n : Int) : Nat :=
  h.word x >>> n.toNat

/-- Macro `word_extract`: `n` bits of `x` from bit `i` on. -/
def word_extract (h : Host) (x : Int) (i n : Int) : Nat :=
  (h.word x >>> i.toNat) &&& (2 ^ h.wordBits - 1 - (h.word (-1) <<< n.toNat) % 2 ^ h.wordBits)

/-- Macro `POLY_SIG_BITS`. -/
def POLY_SIG_BITS : Int := 0xffffffff

/-- Macro `POLY_HALF (t, i)`. -/
def POLY_HALF (t : poly_t) : Nat → Int
  | 0 => t.array0
  | _ => t.array1

/-- Macro `POLY_INIT (t0, t1)`. -/
def POLY_INIT (t0 t1 : Int) : poly_t :=
  ⟨t0, t1⟩

/-- Macro `POLY_FORM (t, t0, t1)`: both values are stored into `int_32_t` halves. -/
def POLY_FORM (t0 t1 : Int) : poly_t :=
  ⟨int_32 t0, int_32 t1⟩

/-- Constant `POLY_ONE`. -/
def POLY_ONE : poly_t :=
  POLY_INIT 0 (-0x7fffffff - 1)

/-- Table `poly64` of the source (its comment there: poly64(i) = i(x) * x^64 MOD P). -/
def poly64 : List poly_t :=
  [POLY_INIT 0 0,
   POLY_INIT 36728807 152935311,
   POLY_INIT 73457614 305870622,
   POLY_INIT 105951273 455519377,
   POLY_INIT 85802743 386180924,
   POLY_INIT 120410384 504970419,
   POLY_INIT 25026873 88051746,
   POLY_INIT 55414494 203557805,
   POLY_INIT 132578437 494634872,
   POLY_INIT 97948514 342236407,
   POLY_INIT 59122507 255897702,
   POLY_INIT 28724396 106769385,
   POLY_INIT 50053746 176103492,
   POLY_INIT 13348245 56802251,
   POLY_INIT 110828988 407115610,
   POLY_INIT 78344795 291081429,
   POLY_INIT 34699361 159762416,
   POLY_INIT 2168710 9985151,
   POLY_INIT 108111791 465498350,
   POLY_INIT 71419976 312699745,
   POLY_INIT 118245014 511795404,
   POLY_INIT 87828849 396163907,
   POLY_INIT 57448792 213538770,
   POLY_INIT 22869695 94882909,
   POLY_INIT 100107492 352206984,
   POLY_INIT 130542339 501472007,
   POLY_INIT 26696490 113604502,
   POLY_INIT 61289677 265874457,
   POLY_INIT 15383059 66774964,
   POLY_INIT 47896052 182942779,
   POLY_INIT 76178909 297914538,
   POLY_INIT 112855610 417090341,
   POLY_INIT 69398722 319524832,
   POLY_INIT 101883685 437654639,
   POLY_INIT 4337420 19970302,
   POLY_INIT 41042155 137175921,
   POLY_INIT 20958773 68102364,
   POLY_INIT 51356114 219329363,
   POLY_INIT 90116603 372514754,
   POLY_INIT 124747292 522814541,
   POLY_INIT 63179847 242223256,
   POLY_INIT 32793504 124621591,
   POLY_INIT 128242569 474693510,
   POLY_INIT 93633646 357999625,
   POLY_INIT 114897584 427077540,
   POLY_INIT 82402647 275330091,
   POLY_INIT 45739390 189765818,
   POLY_INIT 9011865 38929205,
   POLY_INIT 104040611 445532176,
   POLY_INIT 67364676 328455071,
   POLY_INIT 39016301 146112270,
   POLY_INIT 6502538 27845761,
   POLY_INIT 53392980 227209004,
   POLY_INIT 18799027 77034659,
   POLY_INIT 122579354 531748914,
   POLY_INIT 92145277 380388285,
   POLY_INIT 30766118 133549928,
   POLY_INIT 65346497 250107111,
   POLY_INIT 95792104 365885558,
   POLY_INIT 126206991 483615737,
   POLY_INIT 80235217 284256340,
   POLY_INIT 116925750 434959323,
   POLY_INIT 11048223 46817098,
   POLY_INIT 43580152 198689989,
   POLY_INIT 93937903 358995648,
   POLY_INIT 128519944 477646159,
   POLY_INIT 33144609 123658718,
   POLY_INIT 63557830 239303249,
   POLY_INIT 8674840 39940604,
   POLY_INIT 45363711 192735859,
   POLY_INIT 82084310 274351842,
   POLY_INIT 114617905 424140141,
   POLY_INIT 41917546 136204728,
   POLY_INIT 5239693 17025591,
   POLY_INIT 102712228 438658726,
   POLY_INIT 70200387 322501929,
   POLY_INIT 123904669 521860740,
   POLY_INIT 89312634 369585419,
   POLY_INIT 50494803 220316058,
   POLY_INIT 20058804 71064085,
   POLY_INIT 126359694 484446512,
   POLY_INIT 95975273 368937663,
   POLY_INIT 65587008 249243182,
   POLY_INIT 30976167 130465185,
   POLY_INIT 43329145 199538188,
   POLY_INIT 10832286 49884547,
   POLY_INIT 116783543 434077970,
   POLY_INIT 80057936 281156253,
   POLY_INIT 7267339 26973768,
   POLY_INIT 39750636 143003079,
   POLY_INIT 68041669 329294166,
   POLY_INIT 104748066 448608985,
   POLY_INIT 91478780 379531636,
   POLY_INIT 121877787 528657147,
   POLY_INIT 18023730 77858410,
   POLY_INIT 52652757 230268389,
   POLY_INIT 29069357 107895072,
   POLY_INIT 59506634 259244719,
   POLY_INIT 98258915 341143102,
   POLY_INIT 132849668 491320753,
   POLY_INIT 78032602 292224540,
   POLY_INIT 110543165 410477971,
   POLY_INIT 13005076 55691522,
   POLY_INIT 49684211 172774029,
   POLY_INIT 106785960 454418008,
   POLY_INIT 74253135 302532055,
   POLY_INIT 37598054 154069318,
   POLY_INIT 908417 3371721,
   POLY_INIT 54547039 202471780,
   POLY_INIT 24133048 84730603,
   POLY_INIT 119573905 506089082,
   POLY_INIT 84992630 389535221,
   POLY_INIT 61532236 267099856,
   POLY_INIT 26904491 116786527,
   POLY_INIT 130692994 500214222,
   POLY_INIT 100292709 348992065,
   POLY_INIT 112711355 418331116,
   POLY_INIT 76003676 301113955,
   POLY_INIT 47647093 181669618,
   POLY_INIT 15165074 63542653,
   POLY_INIT 72094921 311433640,
   POLY_INIT 108821294 462258727,
   POLY_INIT 2935559 11218614,
   POLY_INIT 35431648 162968889,
   POLY_INIT 22096446 93634196,
   POLY_INIT 56706521 210314523,
   POLY_INIT 87160304 397379978,
   POLY_INIT 117545495 514986501,
   POLY_INIT 116277429 431580288,
   POLY_INIT 81669970 279248655,
   POLY_INIT 42901371 193090462,
   POLY_INIT 12513436 44025873,
   POLY_INIT 66289218 247317436,
   POLY_INIT 29561253 127948851,
   POLY_INIT 127115660 478606498,
   POLY_INIT 94621291 362508077,
   POLY_INIT 17349680 79881208,
   POLY_INIT 54055895 232749175,
   POLY_INIT 90727422 385471718,
   POLY_INIT 123210777 535056233,
   POLY_INIT 68518599 331760836,
   POLY_INIT 103148832 450617163,
   POLY_INIT 7691529 33387482,
   POLY_INIT 38089454 148957269,
   POLY_INIT 83835092 272409456,
   POLY_INIT 114251571 421607679,
   POLY_INIT 10479386 34051182,
   POLY_INIT 45058301 186257377,
   POLY_INIT 31589923 121111628,
   POLY_INIT 64121284 237346755,
   POLY_INIT 92461549 352531282,
   POLY_INIT 129152522 471771357,
   POLY_INIT 52020305 222766088,
   POLY_INIT 19508150 73056135,
   POLY_INIT 125377439 528225046,
   POLY_INIT 88700024 375490713,
   POLY_INIT 100989606 440632116,
   POLY_INIT 70554945 324933819,
   POLY_INIT 40117608 142128170,
   POLY_INIT 5524111 23408549,
   POLY_INIT 46968951 179497824,
   POLY_INIT 16572304 61829359,
   POLY_INIT 111964089 411688062,
   POLY_INIT 77332574 294930417,
   POLY_INIT 131174016 498486364,
   POLY_INIT 98689383 346806227,
   POLY_INIT 61952334 260930370,
   POLY_INIT 25247401 110158029,
   POLY_INIT 86658290 399076376,
   POLY_INIT 119153429 517273495,
   POLY_INIT 21664572 99769094,
   POLY_INIT 58391771 217038985,
   POLY_INIT 3633669 13486884,
   POLY_INIT 34020834 164647083,
   POLY_INIT 72854987 318176314,
   POLY_INIT 107463212 468412341,
   POLY_INIT 14534678 53947536,
   POLY_INIT 49129457 170571551,
   POLY_INIT 79501272 286006158,
   POLY_INIT 109934655 403800065,
   POLY_INIT 96532193 338922412,
   POLY_INIT 133208326 489558051,
   POLY_INIT 27273519 101235890,
   POLY_INIT 59786952 253044541,
   POLY_INIT 121320595 508341224,
   POLY_INIT 84630388 391196775,
   POLY_INIT 56355677 209165558,
   POLY_INIT 23823546 90834809,
   POLY_INIT 36047460 155716820,
   POLY_INIT 1467779 5609307,
   POLY_INIT 105305514 460536778,
   POLY_INIT 74889805 309239877,
   POLY_INIT 58138714 215790144,
   POLY_INIT 21450685 96545231,
   POLY_INIT 119013268 518489438,
   POLY_INIT 86478963 402267857,
   POLY_INIT 107617965 467146108,
   POLY_INIT 73036106 314937075,
   POLY_INIT 34259299 165880418,
   POLY_INIT 3845764 16693741,
   POLY_INIT 76668127 296170808,
   POLY_INIT 111260472 414887607,
   POLY_INIT 15794961 60555814,
   POLY_INIT 46230774 176265641,
   POLY_INIT 26010152 111383044,
   POLY_INIT 62688719 264112523,
   POLY_INIT 99368422 345548058,
   POLY_INIT 131879425 495271573,
   POLY_INIT 23484475 89748912,
   POLY_INIT 55982044 205844031,
   POLY_INIT 84314101 392315566,
   POLY_INIT 121038866 511695137,
   POLY_INIT 75196108 308138636,
   POLY_INIT 105580843 457197827,
   POLY_INIT 1816834 6743442,
   POLY_INIT 36427493 159088157,
   POLY_INIT 109094078 404943560,
   POLY_INIT 78695257 289368391,
   POLY_INIT 48266096 169461206,
   POLY_INIT 13636759 50617945,
   POLY_INIT 60660297 254170612,
   POLY_INIT 28177838 104582779,
   POLY_INIT 134038919 488465130,
   POLY_INIT 97331808 335608165,
   POLY_INIT 123064472 534199712,
   POLY_INIT 90554239 382379567,
   POLY_INIT 53808982 233573054,
   POLY_INIT 17129649 82940209,
   POLY_INIT 38334063 148085404,
   POLY_INIT 7897480 30277907,
   POLY_INIT 103297441 451456386,
   POLY_INIT 68705862 334837261,
   POLY_INIT 11742237 44874456,
   POLY_INIT 42157050 196157783,
   POLY_INIT 80999379 278367686,
   POLY_INIT 115579956 428480073,
   POLY_INIT 95294186 363339236,
   POLY_INIT 127827213 481658475,
   POLY_INIT 30330148 127085306,
   POLY_INIT 67019459 244232565,
   POLY_INIT 88385785 374536784,
   POLY_INIT 125093662 525296095,
   POLY_INIT 19167031 74042702,
   POLY_INIT 51648720 225728193,
   POLY_INIT 5871118 22437228,
   POLY_INIT 40499689 139183843,
   POLY_INIT 70863296 325937778,
   POLY_INIT 101262887 443609597,
   POLY_INIT 44192892 187268392,
   POLY_INIT 9583515 37021351,
   POLY_INIT 113413042 420629046,
   POLY_INIT 83027029 269472185,
   POLY_INIT 129985163 472766996,
   POLY_INIT 93259116 355484059,
   POLY_INIT 64992581 236383498,
   POLY_INIT 32496290 118191749]

/-- Table `poly72` of the source (its comment there: poly72(i) = i(x) * x^72 MOD P). -/
def poly72 : List poly_t :=
  [POLY_INIT 0 0,
   POLY_INIT (-1961202135) 335293334,
   POLY_INIT 468213049 344628781,
   POLY_INIT (-1863175408) 125220283,
   POLY_INIT 973880089 443020634,
   POLY_INIT (-1323936464) 161210060,
   POLY_INIT 568616480 250440567,
   POLY_INIT (-1426192375) 487669985,
   POLY_INIT 2042951513 129835956,
   POLY_INIT (-220292752) 339806242,
   POLY_INIT 1647094368 322420121,
   POLY_INIT (-382286775) 13342223,
   POLY_INIT 1137232960 500881134,
   POLY_INIT (-925719959) 237436280,
   POLY_INIT 1478529401 156256451,
   POLY_INIT (-751108272) 447505237,
   POLY_INIT (-209064270) 259671912,
   POLY_INIT 2022932635 478571774,
   POLY_INIT (-396250229) 468769093,
   POLY_INIT 1669062050 135066323,
   POLY_INIT (-913975893) 354267698,
   POLY_INIT 1117764482 115448228,
   POLY_INIT (-764573550) 26684447,
   POLY_INIT 1501030075 309004169,
   POLY_INIT (-1974658581) 147285212,
   POLY_INIT 22509506 456871754,
   POLY_INIT (-1851439918) 474872561,
   POLY_INIT 448735995 263311719,
   POLY_INIT (-1337908494) 312512902,
   POLY_INIT 995839195 22854160,
   POLY_INIT (-1414955061) 103419819,
   POLY_INIT 548606434 366355517,
   POLY_INIT (-418128540) 519343825,
   POLY_INIT 1812575053 218670407,
   POLY_INIT (-50626467) 176034044,
   POLY_INIT 2011295348 427965290,
   POLY_INIT (-585111939) 76774283,
   POLY_INIT 1443203156 393170973,
   POLY_INIT (-956843196) 270132646,
   POLY_INIT 1307432301 65392176,
   POLY_INIT (-1630066115) 424258917,
   POLY_INIT 365773844 179668723,
   POLY_INIT (-2059438332) 230896456,
   POLY_INIT 237312301 507451614,
   POLY_INIT (-1529147100) 53368895,
   POLY_INIT 801210125 282227625,
   POLY_INIT (-1087157219) 396674578,
   POLY_INIT 875110964 72936836,
   POLY_INIT 345650134 294570425,
   POLY_INIT (-1618977281) 41083439,
   POLY_INIT 259157743 84170644,
   POLY_INIT (-2073558842) 385383426,
   POLY_INIT 781584591 199834851,
   POLY_INIT (-1517525274) 404035445,
   POLY_INIT 897471990 526623438,
   POLY_INIT (-1100727329) 211781976,
   POLY_INIT 1834927247 372501005,
   POLY_INIT (-431707482) 97501595,
   POLY_INIT 1991678390 45708320,
   POLY_INIT (-38996065) 289759158,
   POLY_INIT 1465057174 206839639,
   POLY_INIT (-599223873) 531117249,
   POLY_INIT 1287299759 417235322,
   POLY_INIT (-945763194) 186821356,
   POLY_INIT (-1006945373) 245093539,
   POLY_INIT 1222727050 493354805,
   POLY_INIT (-669817190) 437340814,
   POLY_INIT 1393100979 166551832,
   POLY_INIT (-101252934) 352068089,
   POLY_INIT 1928162963 117443183,
   POLY_INIT (-501260925) 7782356,
   POLY_INIT 1761948586 327849026,
   POLY_INIT (-1170223878) 153548567,
   POLY_INIT 824550099 450550913,
   POLY_INIT (-1579707965) 497838394,
   POLY_INIT 718143466 240140972,
   POLY_INIT (-2144077853) 323027533,
   POLY_INIT 187275722 12397019,
   POLY_INIT (-1680102694) 130784352,
   POLY_INIT 281134323 339195894,
   POLY_INIT 812832017 31560651,
   POLY_INIT (-1150764232) 303937629,
   POLY_INIT 731547688 359337446,
   POLY_INIT (-1602165247) 110569072,
   POLY_INIT 176090632 461792913,
   POLY_INIT (-2124120031) 142232839,
   POLY_INIT 295088945 252508348,
   POLY_INIT (-1702044392) 485544746,
   POLY_INIT 1236673096 106737791,
   POLY_INIT (-1028895647) 362847209,
   POLY_INIT 1381924721 316026450,
   POLY_INIT (-649850536) 19531204,
   POLY_INIT 1941576017 473646373,
   POLY_INIT (-123701384) 264728243,
   POLY_INIT 1750221928 145873672,
   POLY_INIT (-481809855) 458092702,
   POLY_INIT 619243207 275733106,
   POLY_INIT (-1343059730) 59994596,
   POLY_INIT 1057012734 82166879,
   POLY_INIT (-1273309737) 387575753,
   POLY_INIT 518315486 168341288,
   POLY_INIT (-1778469897) 435455166,
   POLY_INIT 84705511 511848709,
   POLY_INIT (-1911099698) 226368147,
   POLY_INIT 1563169182 399669702,
   POLY_INIT (-701071433) 70144592,
   POLY_INIT 1187269799 56158187,
   POLY_INIT (-841080178) 279235709,
   POLY_INIT 1730161287 230001820,
   POLY_INIT (-331725650) 508143370,
   POLY_INIT 2093512638 423563953,
   POLY_INIT (-137225833) 180566311,
   POLY_INIT (-681506699) 521477402,
   POLY_INIT 1551591004 216610444,
   POLY_INIT (-863414964) 195003191,
   POLY_INIT 1200831333 409184417,
   POLY_INIT (-311610516) 91416640,
   POLY_INIT 1719098693 378454998,
   POLY_INIT (-159027627) 301495917,
   POLY_INIT 2107572348 33840635,
   POLY_INIT (-1364852948) 413679278,
   POLY_INIT 633311493 190059832,
   POLY_INIT (-1253203435) 203595907,
   POLY_INIT 1045941308 534678293,
   POLY_INIT (-1800813515) 47172596,
   POLY_INIT 531868188 288612450,
   POLY_INIT (-1891526388) 373642713,
   POLY_INIT 73135909 96042575,
   POLY_INIT (-2013890746) 490187079,
   POLY_INIT 216799599 248218321,
   POLY_INIT (-1675744641) 163395434,
   POLY_INIT 386155606 440474876,
   POLY_INIT (-1107669921) 122706973,
   POLY_INIT 920658550 346847115,
   POLY_INIT (-1508765338) 333103664,
   POLY_INIT 755531599 2550182,
   POLY_INIT (-30244833) 445287155,
   POLY_INIT 1965616694 158769509,
   POLY_INIT (-438641370) 234886366,
   POLY_INIT 1858122511 503070536,
   POLY_INIT (-1002521850) 15564713,
   POLY_INIT 1327813935 319902783,
   POLY_INIT (-539564481) 342352260,
   POLY_INIT 1422690326 127650322,
   POLY_INIT 1954519540 307097135,
   POLY_INIT (-10094627) 28427705,
   POLY_INIT 1872217293 113733634,
   POLY_INIT (-460477724) 356211604,
   POLY_INIT 1316201197 136977269,
   POLY_INIT (-982922044) 467022051,
   POLY_INIT 1436286932 480281944,
   POLY_INIT (-561933827) 257732302,
   POLY_INIT 230387373 368102811,
   POLY_INIT (-2036268924) 101508621,
   POLY_INIT 374551444 24794038,
   POLY_INIT (-1656136259) 310802464,
   POLY_INIT 934761908 261568705,
   POLY_INIT (-1129497699) 476779351,
   POLY_INIT 744425613 454928108,
   POLY_INIT (-1488623964) 148999546,
   POLY_INIT 1625664034 63121302,
   POLY_INIT (-335559669) 272567296,
   POLY_INIT 2064512795 390707643,
   POLY_INIT (-266888910) 79008301,
   POLY_INIT 1525256507 430232268,
   POLY_INIT (-772538606) 173603162,
   POLY_INIT 1090636802 221138145,
   POLY_INIT (-904158677) 517105527,
   POLY_INIT 421617019 75367458,
   POLY_INIT (-1841613998) 394407860,
   POLY_INIT 46727234 284465679,
   POLY_INIT (-1982632341) 50901401,
   POLY_INIT 590177890 505016696,
   POLY_INIT (-1472788405) 233167598,
   POLY_INIT 952449883 177434453,
   POLY_INIT (-1277209230) 426722499,
   POLY_INIT (-1821621104) 213475582,
   POLY_INIT 410397369 524634984,
   POLY_INIT (-2004608599) 406060755,
   POLY_INIT 60716928 198169925,
   POLY_INIT (-1453293687) 383686052,
   POLY_INIT 578425248 86162994,
   POLY_INIT (-1299701072) 39062409,
   POLY_INIT 965889177 296230943,
   POLY_INIT (-358042679) 184828746,
   POLY_INIT 1639112160 418932956,
   POLY_INIT (-247402768) 529456487,
   POLY_INIT 2052751577 208860913,
   POLY_INIT (-794523440) 291747344,
   POLY_INIT 1539237625 44014982,
   POLY_INIT (-884156951) 99166269,
   POLY_INIT 1079425984 370475947,
   POLY_INIT 1141722341 330071524,
   POLY_INIT (-820567348) 5265010,
   POLY_INIT 1608847836 119989193,
   POLY_INIT (-721453067) 349882463,
   POLY_INIT 2114025468 164333758,
   POLY_INIT (-182773291) 439853864,
   POLY_INIT 1709779653 490804883,
   POLY_INIT (-286046996) 247282949,
   POLY_INIT 1036630972 336682576,
   POLY_INIT (-1227631211) 133002694,
   POLY_INIT 639755909 10207357,
   POLY_INIT (-1388607316) 325577707,
   POLY_INIT 130384037 242658058,
   POLY_INIT (-1931481460) 495616156,
   POLY_INIT 472767900 452736295,
   POLY_INIT (-1757957195) 151002801,
   POLY_INIT (-1216044457) 483801740,
   POLY_INIT 1017039998 254415130,
   POLY_INIT (-1402142866) 140289185,
   POLY_INIT 662081863 463507255,
   POLY_INIT (-1920427698) 112316374,
   POLY_INIT 110294887 357426240,
   POLY_INIT (-1772043145) 305877499,
   POLY_INIT 494578270 29850221,
   POLY_INIT (-834644722) 460003640,
   POLY_INIT 1163541287 144126638,
   POLY_INIT (-710408137) 266438421,
   POLY_INIT 1588749854 471706755,
   POLY_INIT (-196317673) 17624162,
   POLY_INIT 2136342590 317769716,
   POLY_INIT (-274451666) 361132623,
   POLY_INIT 1690197255 108681689,
   POLY_INIT (-1558277759) 223933237,
   POLY_INIT 671416232 514119843,
   POLY_INIT (-1191785288) 433220888,
   POLY_INIT 871146129 170804878,
   POLY_INIT (-1726829928) 390006383,
   POLY_INIT 302564529 79900153,
   POLY_INIT (-2097481823) 62232642,
   POLY_INIT 165714312 273265620,
   POLY_INIT (-623221032) 182833281,
   POLY_INIT 1371539697 421133079,
   POLY_INIT (-1053672479) 510611116,
   POLY_INIT 1244157384 227763514,
   POLY_INIT (-522822207) 276964827,
   POLY_INIT 1808544744 58592845,
   POLY_INIT (-79822600) 67681270,
   POLY_INIT 1881435857 401903712,
   POLY_INIT 1352105779 35828829,
   POLY_INIT (-611512038) 299802571,
   POLY_INIT 1266622986 380119664,
   POLY_INIT (-1067103197) 89391590,
   POLY_INIT 1788560426 407191815,
   POLY_INIT (-511628797) 196700817,
   POLY_INIT 1903368467 214949674,
   POLY_INIT (-93751494) 523498684,
   POLY_INIT 693340266 94345193,
   POLY_INIT (-1572215229) 375635071,
   POLY_INIT 851170643 286591428,
   POLY_INIT (-1180583046) 48833106,
   POLY_INIT 325038963 536371891,
   POLY_INIT (-1740251814) 201607461,
   POLY_INIT 146271818 192085150,
   POLY_INIT (-2085781405) 412014344]

/-- Table `poly80` of the source (its comment there: poly80(i) = i(x) * X^80 MOD P). -/
def poly80 : List poly_t :=
  [POLY_INIT 0 0,
   POLY_INIT (-1753253426) 125726524,
   POLY_INIT 788460444 251453049,
   POLY_INIT (-1182692782) 159560005,
   POLY_INIT 1576920888 502906098,
   POLY_INIT (-897409290) 445109198,
   POLY_INIT 1929581732 319120011,
   POLY_INIT (-461607574) 343608759,
   POLY_INIT (-1238937829) 142717156,
   POLY_INIT 559429333 268427224,
   POLY_INIT (-1730560889) 108883613,
   POLY_INIT 262587721 16974241,
   POLY_INIT (-337991645) 360188950,
   POLY_INIT 2091241965 302408490,
   POLY_INIT (-987472961) 461689455,
   POLY_INIT 1381704305 486194515,
   POLY_INIT 1817091638 285434313,
   POLY_INIT (-80615432) 377294581,
   POLY_INIT 1118858666 536854448,
   POLY_INIT (-707849116) 411160716,
   POLY_INIT 833845518 217767227,
   POLY_INIT (-1496579904) 193245703,
   POLY_INIT 525175442 33948482,
   POLY_INIT (-2009926820) 91778174,
   POLY_INIT (-630599379) 428003629,
   POLY_INIT 1293330659 519880209,
   POLY_INIT (-191421775) 394137428,
   POLY_INIT 1676172159 268460136,
   POLY_INIT (-2020329963) 75197919,
   POLY_INIT 283856859 50660067,
   POLY_INIT (-1452620407) 176665510,
   POLY_INIT 1041611847 234478746,
   POLY_INIT (-717112057) 292817554,
   POLY_INIT 1111409865 369780142,
   POLY_INIT (-71348581) 529061099,
   POLY_INIT 1824536405 418823127,
   POLY_INIT (-2000922049) 210613856,
   POLY_INIT 532882417 200530268,
   POLY_INIT (-1505580637) 40986649,
   POLY_INIT 826134637 84870949,
   POLY_INIT 1667691036 435534454,
   POLY_INIT (-199652398) 512480586,
   POLY_INIT 1301807488 386491407,
   POLY_INIT (-622364594) 276237107,
   POLY_INIT 1050350884 67896964,
   POLY_INIT (-1444647702) 57829816,
   POLY_INIT 275113656 183556349,
   POLY_INIT (-2028298378) 227456961,
   POLY_INIT (-1190190287) 7826267,
   POLY_INIT 779115263 118031463,
   POLY_INIT (-1745760083) 244036898,
   POLY_INIT 9349475 167107102,
   POLY_INIT (-453852151) 495900585,
   POLY_INIT 1938668999 451983509,
   POLY_INIT (-905169003) 326240720,
   POLY_INIT 1567837787 336357100,
   POLY_INIT 254307370 150395839,
   POLY_INIT (-1739123228) 260617347,
   POLY_INIT 567713718 101320134,
   POLY_INIT (-1230379400) 24406778,
   POLY_INIT 1389726482 353331021,
   POLY_INIT (-978652452) 309397617,
   POLY_INIT 2083223694 468957492,
   POLY_INIT (-346816192) 479057416,
   POLY_INIT (-1486881947) 295361573,
   POLY_INIT 807436971 384086809,
   POLY_INIT (-1985935111) 526778972,
   POLY_INIT 517894455 404254048,
   POLY_INIT (-90039203) 207839447,
   POLY_INIT 1843226003 186453995,
   POLY_INIT (-732106815) 44023470,
   POLY_INIT 1126405647 98685330,
   POLY_INIT 293123198 421227713,
   POLY_INIT (-2046308944) 509936637,
   POLY_INIT 1065764834 401060536,
   POLY_INIT (-1460060628) 278519172,
   POLY_INIT 1283806022 81973299,
   POLY_INIT (-604362104) 60604175,
   POLY_INIT 1652269274 169741898,
   POLY_INIT (-184231660) 224420214,
   POLY_INIT (-888052397) 10075628,
   POLY_INIT 1550720157 132633296,
   POLY_INIT (-437283121) 241525653,
   POLY_INIT 1922100993 152767657,
   POLY_INIT (-1762885013) 492831006,
   POLY_INIT 26475429 438201890,
   POLY_INIT (-1206750729) 329047911,
   POLY_INIT 795674681 350400603,
   POLY_INIT 2100701768 135793928,
   POLY_INIT (-364293242) 258368052,
   POLY_INIT 1405671892 115659633,
   POLY_INIT (-994598886) 26917965,
   POLY_INIT 550227312 367112698,
   POLY_INIT (-1212894018) 312467142,
   POLY_INIT 238370540 454913923,
   POLY_INIT (-1723185374) 476250303,
   POLY_INIT 1914586722 15652535,
   POLY_INIT (-446611540) 126925195,
   POLY_INIT 1558230526 236062926,
   POLY_INIT (-878719952) 158099442,
   POLY_INIT 803447130 488073797,
   POLY_INIT (-1197680492) 443090297,
   POLY_INIT 18698950 334214204,
   POLY_INIT (-1771951352) 345365248,
   POLY_INIT (-1002894983) 141518419,
   POLY_INIT 1397125303 252774767,
   POLY_INIT (-355992859) 110344234,
   POLY_INIT 2109244203 32364310,
   POLY_INIT (-1715147199) 362207905,
   POLY_INIT 247175055 317240733,
   POLY_INIT (-1220928035) 459932888,
   POLY_INIT 541418515 471100388,
   POLY_INIT 508614740 300791678,
   POLY_INIT (-1993367142) 378787906,
   POLY_INIT 816720840 521234695,
   POLY_INIT (-1479454202) 409929275,
   POLY_INIT 1135427436 202640268,
   POLY_INIT (-724416862) 191521968,
   POLY_INIT 1834208496 48813557,
   POLY_INIT (-97733314) 93764297,
   POLY_INIT (-1468557489) 426510234,
   POLY_INIT 1057549953 504522918,
   POLY_INIT (-2037816109) 395368931,
   POLY_INIT 301341981 284079839,
   POLY_INIT (-175476617) 76921704,
   POLY_INIT 1660225977 65786964,
   POLY_INIT (-613121045) 174679313,
   POLY_INIT 1275853349 219613741,
   POLY_INIT 1130592161 273117515,
   POLY_INIT (-736358801) 389619319,
   POLY_INIT 1839039549 515616562,
   POLY_INIT (-85787149) 432390158,
   POLY_INIT 513708185 230608313,
   POLY_INIT (-1981683369) 180396677,
   POLY_INIT 811623173 54662080,
   POLY_INIT (-1491133749) 71073020,
   POLY_INIT (-180078406) 415678895,
   POLY_INIT 1648050548 532197011,
   POLY_INIT (-608515290) 372907990,
   POLY_INIT 1288024808 289698026,
   POLY_INIT (-1464213630) 88046941,
   POLY_INIT 1069983308 37818977,
   POLY_INIT (-2042156002) 197370660,
   POLY_INIT 288904656 213765144,
   POLY_INIT 791538071 21237890,
   POLY_INIT (-1202548647) 104497086,
   POLY_INIT 30611979 263769851,
   POLY_INIT (-1767087163) 147235271,
   POLY_INIT 1926237871 482192496,
   POLY_INIT (-441485471) 465814348,
   POLY_INIT 1546583347 306278921,
   POLY_INIT (-883849987) 356457781,
   POLY_INIT (-1727355252) 163946598,
   POLY_INIT 242605890 247189338,
   POLY_INIT (-1208724208) 121208351,
   POLY_INIT 545991902 4657443,
   POLY_INIT (-990428748) 339483796,
   POLY_INIT 1401436282 323122088,
   POLY_INIT (-368463320) 448840429,
   POLY_INIT 2104937446 499035601,
   POLY_INIT (-1776104794) 20151257,
   POLY_INIT 22917992 105714917,
   POLY_INIT (-1193526982) 265266592,
   POLY_INIT 799228148 145869468,
   POLY_INIT (-874566242) 483051307,
   POLY_INIT 1554011216 464824343,
   POLY_INIT (-450765310) 305535314,
   POLY_INIT 1918805964 357070446,
   POLY_INIT 537232829 162712381,
   POLY_INIT (-1216676749) 248292353,
   POLY_INIT 251360801 122557764,
   POLY_INIT (-1719398417) 3177080,
   POLY_INIT 2113430149 340490191,
   POLY_INIT (-360244405) 322246899,
   POLY_INIT 1392939289 448244150,
   POLY_INIT (-998643497) 499762826,
   POLY_INIT (-93563760) 271587856,
   POLY_INIT 1829973342 391017772,
   POLY_INIT (-728586484) 516736105,
   POLY_INIT 1139662530 431139669,
   POLY_INIT (-1483623512) 231319266,
   POLY_INIT 820955750 179816926,
   POLY_INIT (-1989197772) 53835931,
   POLY_INIT 504379898 72030119,
   POLY_INIT 1279990667 414296820,
   POLY_INIT (-617323963) 533710280,
   POLY_INIT 1656088599 374174861,
   POLY_INIT (-171273767) 288562097,
   POLY_INIT 297204915 88610310,
   POLY_INIT (-2033613443) 37124410,
   POLY_INIT 1061687087 196397183,
   POLY_INIT (-1472760095) 214607683,
   POLY_INIT (-465793852) 31305070,
   POLY_INIT 1933833482 111395410,
   POLY_INIT (-893223080) 253850391,
   POLY_INIT 1572669078 140450859,
   POLY_INIT (-1178506244) 472125852,
   POLY_INIT 784208434 458915488,
   POLY_INIT (-1757439904) 316198885,
   POLY_INIT 4252078 363241689,
   POLY_INIT 1377551327 157031818,
   POLY_INIT (-983254511) 237138614,
   POLY_INIT 2095394883 127976435,
   POLY_INIT (-342210163) 14593231,
   POLY_INIT 266740967 346399096,
   POLY_INIT (-1734779607) 333172292,
   POLY_INIT 555276155 442072833,
   POLY_INIT (-1234719051) 489099325,
   POLY_INIT (-2005789966) 283036839,
   POLY_INIT 520973116 396403611,
   POLY_INIT (-1500716690) 505549534,
   POLY_INIT 838047904 425491938,
   POLY_INIT (-711985718) 220688469,
   POLY_INIT 1123060740 173612905,
   POLY_INIT (-76478890) 64728620,
   POLY_INIT 1812889496 77971728,
   POLY_INIT 1045781993 408910915,
   POLY_INIT (-1456856025) 522261375,
   POLY_INIT 279686773 379822650,
   POLY_INIT (-2016094277) 299748614,
   POLY_INIT 1672002257 94814385,
   POLY_INIT (-187186401) 47755149,
   POLY_INIT 1297500493 190455496,
   POLY_INIT (-634834813) 203715060,
   POLY_INIT 830288323 279554044,
   POLY_INIT (-1509799923) 400017600,
   POLY_INIT 528728671 508918149,
   POLY_INIT (-1996702831) 422254265,
   POLY_INIT 1820382971 223353614,
   POLY_INIT (-67129547) 170816562,
   POLY_INIT 1115563367 61654391,
   POLY_INIT (-721331031) 80915019,
   POLY_INIT (-2024112424) 405280536,
   POLY_INIT 270862102 525760548,
   POLY_INIT (-1448833724) 383043937,
   POLY_INIT 1054602378 296396381,
   POLY_INIT (-626550304) 97627114,
   POLY_INIT 1306058798 45073622,
   POLY_INIT (-195466628) 187528595,
   POLY_INIT 1663439794 206772911,
   POLY_INIT 1563668469 27969077,
   POLY_INIT (-900934085) 114600201,
   POLY_INIT 1942838377 257300556,
   POLY_INIT (-458087001) 136869744,
   POLY_INIT 13519053 475232967,
   POLY_INIT (-1749995261) 455939579,
   POLY_INIT 774945617 313500862,
   POLY_INIT (-1185955169) 366070658,
   POLY_INIT (-350953234) 153843409,
   POLY_INIT 2087426336 240458221,
   POLY_INIT (-974515342) 131573928,
   POLY_INIT 1385523900 11126676,
   POLY_INIT (-1226242090) 349358627,
   POLY_INIT 563510808 330081567,
   POLY_INIT (-1743260598) 439227482,
   POLY_INIT 258510212 491813734]

/-- Table `poly88` of the source (its comment there: poly80(i) = i(x) * X^80 MOD P). -/
def poly88 : List poly_t :=
  [POLY_INIT 0 0,
   POLY_INIT 964379295 346020725,
   POLY_INIT 2133460053 441286634,
   POLY_INIT 1179731658 248685727,
   POLY_INIT (-209155647) 132658900,
   POLY_INIT (-889992354) 326626721,
   POLY_INIT (-1935503980) 497371454,
   POLY_INIT (-1244016885) 154833483,
   POLY_INIT (-418311294) 265317801,
   POLY_INIT (-563457763) 458208988,
   POLY_INIT (-1740957737) 362615363,
   POLY_INIT (-1589619384) 16959798,
   POLY_INIT 345610819 137911165,
   POLY_INIT 769841372 480739336,
   POLY_INIT 1806933526 309666967,
   POLY_INIT 1388895369 116064226,
   POLY_INIT (-836622588) 530635603,
   POLY_INIT (-145136229) 188678182,
   POLY_INIT (-1324866735) 99460281,
   POLY_INIT (-2005704242) 292716492,
   POLY_INIT 1034596037 407432583,
   POLY_INIT 80866394 215430898,
   POLY_INIT 1115728528 33919597,
   POLY_INIT 2080106511 379210008,
   POLY_INIT 691221638 275822330,
   POLY_INIT 273184281 82800015,
   POLY_INIT 1444491475 171821328,
   POLY_INIT 1868722764 513938021,
   POLY_INIT (-625230521) 395870254,
   POLY_INIT (-473890856) 50813787,
   POLY_INIT (-1517176558) 232128452,
   POLY_INIT (-1662321779) 424289457,
   POLY_INIT (-1852256413) 204701607,
   POLY_INIT (-1461481988) 413967570,
   POLY_INIT (-290272458) 377356365,
   POLY_INIT (-674657879) 48356152,
   POLY_INIT 1645233826 198920563,
   POLY_INIT 1533740093 524587526,
   POLY_INIT 490357495 295057049,
   POLY_INIT 608239720 84536812,
   POLY_INIT 1988746465 65212942,
   POLY_INIT 1341300350 394054011,
   POLY_INIT 161732788 430861796,
   POLY_INIT 819501611 221361809,
   POLY_INIT (-2063510240) 67839194,
   POLY_INIT (-1132849217) 278200239,
   POLY_INIT (-97824395) 507927344,
   POLY_INIT (-1018162198) 182026309,
   POLY_INIT 1606084711 328443124,
   POLY_INIT 1723968248 118259585,
   POLY_INIT 546368562 165600030,
   POLY_INIT 434876077 490799211,
   POLY_INIT (-1405984346) 343642656,
   POLY_INIT (-1790368967) 14960981,
   POLY_INIT (-753375757) 238480842,
   POLY_INIT (-362600596) 447297215,
   POLY_INIT (-1196688411) 474204509,
   POLY_INIT (-2117027462) 148640296,
   POLY_INIT (-947781712) 101627575,
   POLY_INIT (-17122001) 311520706,
   POLY_INIT 1260614180 464256905,
   POLY_INIT 1918382267 255075580,
   POLY_INIT 873035377 31883363,
   POLY_INIT 225588462 360274710,
   POLY_INIT 590454470 409403215,
   POLY_INIT 441113689 217654330,
   POLY_INIT 1545312915 36405413,
   POLY_INIT 1700845580 380918736,
   POLY_INIT (-793176313) 529451419,
   POLY_INIT (-373140072) 185668334,
   POLY_INIT (-1349315758) 96712305,
   POLY_INIT (-1763159603) 291269892,
   POLY_INIT (-1004499644) 397841126,
   POLY_INIT (-44314661) 53037459,
   POLY_INIT (-1156937455) 234614028,
   POLY_INIT (-2106471538) 425997945,
   POLY_INIT 933758085 274637874,
   POLY_INIT 248727066 79789895,
   POLY_INIT 1216479440 169073624,
   POLY_INIT 1912160847 512491693,
   POLY_INIT (-317474366) 130425884,
   POLY_INIT (-731317411) 324665193,
   POLY_INIT (-1841709673) 495672310,
   POLY_INIT (-1421672696) 152338563,
   POLY_INIT 513486851 3019464,
   POLY_INIT 669020828 347195837,
   POLY_INIT 1639003222 442723618,
   POLY_INIT 1489663689 251442775,
   POLY_INIT 167946816 135678389,
   POLY_INIT 863627487 478778048,
   POLY_INIT 1965600277 307967583,
   POLY_INIT 1280568458 113569066,
   POLY_INIT (-108387455) 268336993,
   POLY_INIT (-1057922786) 459383828,
   POLY_INIT (-2036324396) 364052619,
   POLY_INIT (-1076140725) 19717118,
   POLY_INIT (-1297526363) 341147880,
   POLY_INIT (-1949166790) 13261725,
   POLY_INIT (-847030800) 236519170,
   POLY_INIT (-185067665) 445064311,
   POLY_INIT 1092737124 331200060,
   POLY_INIT 2019203835 119696713,
   POLY_INIT 1040964657 166775254,
   POLY_INIT 124821166 493818531,
   POLY_INIT 1438138919 461761857,
   POLY_INIT 1824719032 253376052,
   POLY_INIT 714229362 29921963,
   POLY_INIT 334038253 358042078,
   POLY_INIT (-1506751514) 476961685,
   POLY_INIT (-1622439559) 150077664,
   POLY_INIT (-652554317) 102802559,
   POLY_INIT (-530477780) 314539786,
   POLY_INIT 2089514657 200629179,
   POLY_INIT 1173369918 527073486,
   POLY_INIT 60912372 297280593,
   POLY_INIT 987377771 86507300,
   POLY_INIT (-1895563424) 203255151,
   POLY_INIT (-1233601025) 411219482,
   POLY_INIT (-265684171) 374346373,
   POLY_INIT (-917325398) 47172080,
   POLY_INIT (-1684380381) 69547538,
   POLY_INIT (-1562302532) 280685927,
   POLY_INIT (-458202762) 510151160,
   POLY_INIT (-573889559) 183997069,
   POLY_INIT 1746070754 63766726,
   POLY_INIT 1365880445 391306163,
   POLY_INIT 389605559 427851564,
   POLY_INIT 776186408 220177497,
   POLY_INIT 1270856935 62863262,
   POLY_INIT 1925512824 388033771,
   POLY_INIT 882227378 435308660,
   POLY_INIT 233765421 225284865,
   POLY_INIT (-1204341466) 72810826,
   POLY_INIT (-2125695047) 281598527,
   POLY_INIT (-954388109) 505052832,
   POLY_INIT (-26840084) 176530901,
   POLY_INIT (-1397837979) 208624183,
   POLY_INIT (-1781142022) 418414914,
   POLY_INIT (-746280144) 371336669,
   POLY_INIT (-352327249) 46005928,
   POLY_INIT 1596335780 193424611,
   POLY_INIT 1717396539 521713558,
   POLY_INIT 537666289 298455817,
   POLY_INIT 427253870 89507964,
   POLY_INIT (-2053268509) 471854285,
   POLY_INIT (-1125721732) 142620600,
   POLY_INIT (-88629322) 106074919,
   POLY_INIT (-1009984215) 315443282,
   POLY_INIT 1981092386 469228057,
   POLY_INIT 1332629693 258474348,
   POLY_INIT 155129463 29009395,
   POLY_INIT 809784552 354778758,
   POLY_INIT 1653377121 332366180,
   POLY_INIT 1542966014 122706449,
   POLY_INIT 497454132 159579790,
   POLY_INIT 618516139 488449531,
   POLY_INIT (-1862008416) 338147248,
   POLY_INIT (-1468054721) 12086469,
   POLY_INIT (-298973707) 241879130,
   POLY_INIT (-682277014) 452268847,
   POLY_INIT (-634948732) 260851769,
   POLY_INIT (-480497381) 454267724,
   POLY_INIT (-1525844015) 364984275,
   POLY_INIT (-1669974706) 22998182,
   POLY_INIT 699398725 140803821,
   POLY_INIT 282376410 486253976,
   POLY_INIT 1451621904 304677127,
   POLY_INIT 1878965391 112646770,
   POLY_INIT 1026973702 6038928,
   POLY_INIT 72163993 348389093,
   POLY_INIT 1109156947 437344890,
   POLY_INIT 2070357708 244220175,
   POLY_INIT (-826349113) 129241924,
   POLY_INIT (-138040488) 321636401,
   POLY_INIT (-1315639918) 502885550,
   POLY_INIT (-1997558003) 157726683,
   POLY_INIT 335893632 271356778,
   POLY_INIT 763237919 78858271,
   POLY_INIT 1798262997 174189696,
   POLY_INIT 1381241418 519976949,
   POLY_INIT (-410133183) 398763454,
   POLY_INIT (-554262562) 56327883,
   POLY_INIT (-1733830380) 227138132,
   POLY_INIT (-1579377781) 420872481,
   POLY_INIT (-216774910) 536673987,
   POLY_INIT (-898693731) 191047094,
   POLY_INIT (-1942076585) 95519017,
   POLY_INIT (-1253768760) 288250460,
   POLY_INIT 10276547 404015127,
   POLY_INIT 971476060 210441058,
   POLY_INIT 2142685846 39434237,
   POLY_INIT 1187874825 382102664,
   POLY_INIT 1754145313 467257553,
   POLY_INIT 1375035582 256250788,
   POLY_INIT 396633716 26523451,
   POLY_INIT 786392299 353070158,
   POLY_INIT (-1694061600) 473038341,
   POLY_INIT (-1568806529) 145630576,
   POLY_INIT (-466833483) 108823023,
   POLY_INIT (-581440214) 316889754,
   POLY_INIT (-1885392477) 336176504,
   POLY_INIT (-1226542276) 9862669,
   POLY_INIT (-256559626) 239393426,
   POLY_INIT (-909215895) 450560487,
   POLY_INIT 2081929314 333550508,
   POLY_INIT 1164770045 125716697,
   POLY_INIT 54377527 162327622,
   POLY_INIT 977731240 489895731,
   POLY_INIT (-1498675931) 75043714,
   POLY_INIT (-1613281350) 283560183,
   POLY_INIT (-645529232) 506752104,
   POLY_INIT (-520272913) 179025693,
   POLY_INIT 1428458724 59843926,
   POLY_INIT 1818218107 386858531,
   POLY_INIT 705595569 433871548,
   POLY_INIT 326486574 222527945,
   POLY_INIT 1102911143 195657259,
   POLY_INIT 2026263608 523674974,
   POLY_INIT 1050088178 300155329,
   POLY_INIT 132927597 92002996,
   POLY_INIT (-1305108634) 205605119,
   POLY_INIT (-1957765639) 417239946,
   POLY_INIT (-853566669) 369899285,
   POLY_INIT (-194717268) 43248736,
   POLY_INIT (-115937982) 401258358,
   POLY_INIT (-1066553379) 58027011,
   POLY_INIT (-2042828521) 229099676,
   POLY_INIT (-1085822072) 423105513,
   POLY_INIT 178152579 268599714,
   POLY_INIT 870655516 77421271,
   POLY_INIT 1974755542 173014600,
   POLY_INIT 1288643145 516957501,
   POLY_INIT 503840448 406510303,
   POLY_INIT 662486111 212140458,
   POLY_INIT 1630403221 41395509,
   POLY_INIT 1482078218 384335424,
   POLY_INIT (-309364991) 533916683,
   POLY_INIT (-722192994) 189609854,
   POLY_INIT (-1834650796) 94344161,
   POLY_INIT (-1411501621) 285231252,
   POLY_INIT 926206534 139095077,
   POLY_INIT 240093401 483768144,
   POLY_INIT 1209978387 302453711,
   POLY_INIT 1902480524 110676154,
   POLY_INIT (-994294905) 262298353,
   POLY_INIT (-37289704) 457015684,
   POLY_INIT (-1147779118) 367994139,
   POLY_INIT (-2098395827) 24182382,
   POLY_INIT (-802825788) 127533452,
   POLY_INIT (-379675813) 319150841,
   POLY_INIT (-1357914735) 500661862,
   POLY_INIT (-1770742002) 155755795,
   POLY_INIT 598560773 7485272,
   POLY_INIT 450237082 351136813,
   POLY_INIT 1552372816 440354994,
   POLY_INIT 1711019727 245404615]
/-- Entry `i` of a reduction table. -/
def entry (table : List poly_t) (i : byte_t) : poly_t :=
  table.getD i.val (POLY_INIT 0 0)

/-- Function `poly_find_byte_order`: compares the bytes of `0x12345678` as the host lays
them out with the two orders it knows, and records the answer in the file-scope
variables. -/
def poly_find_byte_order (h : Host) (g : Globals) : Except Fault Globals :=
  let i : Int := 0x12345678
  let x : int_bytes_t := int_bytes_t.of_w h i
  let a0 : Nat := word_extract h i 0 8
  let a1 : Nat := word_extract h i 8 8
  let a2 : Nat := word_extract h i 16 8
  let a3 : Nat := word_extract h i 24 8
  if a0 = x.b0.val ∧ a1 = x.b1.val ∧ a2 = x.b2.val ∧ a3 = x.b3.val then
    .ok { g with poly_little_endian := 1, poly_init_done := 1 }
  else if a0 = x.b3.val ∧ a1 = x.b2.val ∧ a2 = x.b1.val ∧ a3 = x.b0.val then
    .ok { g with poly_big_endian := 1, poly_init_done := 1 }
  else
    .error Fault.assertion

/-- Function `poly_fix_32`: the sign-extended bottom 32 bits of the word `x`.  The test
`sizeof (word_t) == sizeof (int_32_t)` is `wordBits = 32`. -/
def poly_fix_32 (h : Host) (x : Nat) : Int :=
  if h.wordBits = 32 then
    int_32 x
  else
    let sign : Int := h.integer 0x80000000
    let sign_extend : Int := h.integer (word_left_shift h (word_not h 0) 31)
    if word_and h x sign = 0 then
      int_32 (word_and h x POLY_SIG_BITS)
    else
      int_32 (word_or h sign_extend (word_and h x POLY_SIG_BITS))

/-- The loop of `poly_extend_words_le`; `ip` is the list of bytes still readable, and
each turn reads one `int_32_t` from it. -/
def poly_extend_words_le_loop (h : Host) :
    Nat → Int → Int → List byte_t → Int → Except Fault (Int × Int)
  | 0, p0, p1, _, len => if len > 0 then .error Fault.fuel else .ok (p0, p1)
  | fuel + 1, p0, p1, ip, len =>
    if len > 0 then
      match ip with
      | m0 :: m1 :: m2 :: m3 :: rest =>
        let tmp : int_bytes_t := int_bytes_t.of_w h (int_32 p0)
        let star_ip : Int := int_bytes_t.w h ⟨m0, m1, m2, m3⟩
        let q0 : Int := h.integer
          (word_xor h p1
            (word_xor h (word_xor h (POLY_HALF (entry poly88 tmp.b0) 0)
                                    (POLY_HALF (entry poly80 tmp.b1) 0))
                        (word_xor h (POLY_HALF (entry poly72 tmp.b2) 0)
                                    (POLY_HALF (entry poly64 tmp.b3) 0))))
        let q1 : Int := h.integer
          (word_xor h star_ip
            (word_xor h (word_xor h (POLY_HALF (entry poly88 tmp.b0) 1)
                                    (POLY_HALF (entry poly80 tmp.b1) 1))
                        (word_xor h (POLY_HALF (entry poly72 tmp.b2) 1)
                                    (POLY_HALF (entry poly64 tmp.b3) 1))))
        poly_extend_words_le_loop h fuel q0 q1 rest (len - 4)
      | _ => .error Fault.outOfBounds
    else .ok (p0, p1)

/-- Function `poly_extend_words_le`.  The loop takes 4 off `len` each turn, so
`len.toNat` turns are always enough. -/
def poly_extend_words_le (h : Host) (p : poly_t) (source : List byte_t) (len : Int) :
    Except Fault poly_t :=
  let p0 : Int := h.integer (POLY_HALF p 0)
  let p1 : Int := h.integer (POLY_HALF p 1)
  (poly_extend_words_le_loop h len.toNat p0 p1 source len).map
    fun r => POLY_FORM r.1 r.2

/-- The loop of `poly_extend_words_be`; here `p0` and `p1` are `int_32_t`. -/
def poly_extend_words_be_loop (h : Host) :
    Nat → Int → Int → List byte_t → Int → Except Fault (Int × Int)
  | 0, p0, p1, _, len => if len > 0 then .error Fault.fuel else .ok (p0, p1)
  | fuel + 1, p0, p1, ip, len =>
    if len > 0 then
      match ip with
      | m0 :: m1 :: m2 :: m3 :: rest =>
        let y : int_bytes_t := int_bytes_t.of_w h (int_bytes_t.w h ⟨m0, m1, m2, m3⟩)
        let x : int_bytes_t := ⟨y.b3, y.b2, y.b1, y.b0⟩
        let tmp : int_bytes_t := int_bytes_t.of_w h p0
        let q0 : Int := int_32
          (word_xor h p1
            (word_xor h (word_xor h (POLY_HALF (entry poly88 tmp.b3) 0)
                                    (POLY_HALF (entry poly80 tmp.b2) 0))
                        (word_xor h (POLY_HALF (entry poly72 tmp.b1) 0)
                                    (POLY_HALF (entry poly64 tmp.b0) 0))))
        let q1 : Int := int_32
          (word_xor h (int_bytes_t.w h x)
            (word_xor h (word_xor h (POLY_HALF (entry poly88 tmp.b3) 1)
                                    (POLY_HALF (entry poly80 tmp.b2) 1))
                        (word_xor h (POLY_HALF (entry poly72 tmp.b1) 1)
                                    (POLY_HALF (entry poly64 tmp.b0) 1))))
        poly_extend_words_be_loop h fuel q0 q1 rest (len - 4)
      | _ => .error Fault.outOfBounds
    else .ok (p0, p1)

/-- Function `poly_extend_words_be`. -/
def poly_extend_words_be (h : Host) (p : poly_t) (source : List byte_t) (len : Int) :
    Except Fault poly_t :=
  let p0 : Int := int_32 (POLY_HALF p 0)
  let p1 : Int := int_32 (POLY_HALF p 1)
  (poly_extend_words_be_loop h len.toNat p0 p1 source len).map
    fun r => POLY_FORM r.1 r.2

/-- Read of `cp[i]`. -/
def read_byte (cp : List byte_t) (i : Nat) : Except Fault byte_t :=
  match cp.get? i with
  | some b => .ok b
  | none => .error Fault.outOfBounds

/-- The `switch (len)` of `poly_extend_bytes`, which fills `tmp[0 .. 3]`. -/
def poly_extend_bytes_tmp (h : Host) (t1_n : Int) (cp : List byte_t) (len : Int) :
    Except Fault (List byte_t) :=
  if len = 1 then do
    let c0 ← read_byte cp 0
    pure [to_byte (word_extract h t1_n 0 8), to_byte (word_extract h t1_n 8 8),
          to_byte (word_extract h t1_n 16 8), c0]
  else if len = 2 then do
    let c0 ← read_byte cp 0
    let c1 ← read_byte cp 1
    pure [to_byte (word_extract h t1_n 0 8), to_byte (word_extract h t1_n 8 8), c0, c1]
  else if len = 3 then do
    let c0 ← read_byte cp 0
    let c1 ← read_byte cp 1
    let c2 ← read_byte cp 2
    pure [to_byte (word_extract h t1_n 0 8), c0, c1, c2]
  else
    .error Fault.assertion

/-- Function `poly_extend_bytes`; it reads `poly_little_endian` from the globals. -/
def poly_extend_bytes (h : Host) (g : Globals) (t : poly_t) (addr : List byte_t)
    (len : Int) : Except Fault poly_t :=
  let cp := addr
  let n_bits : Int := h.integer (8 * len)
  let x_bits : Int := h.integer (32 - n_bits)
  let t0 : Int := h.integer (word_and h (POLY_HALF t 0) POLY_SIG_BITS)
  let t0_x : Int := h.integer (word_left_shift h t0 x_bits)
  let t0_n : Int := h.integer (word_right_shift h t0 n_bits)
  let t1 : Int := h.integer (word_and h (POLY_HALF t 1) POLY_SIG_BITS)
  let t1_x : Int := h.integer (word_left_shift h t1 x_bits)
  let t1_n : Int := h.integer (word_right_shift h t1 n_bits)
  let result : poly_t :=
    ⟨poly_fix_32 h (h.word t0_x), poly_fix_32 h (h.word (word_xor h t0_n t1_x))⟩
  match poly_extend_bytes_tmp h t1_n cp len with
  | .error e => .error e
  | .ok tmp =>
    if g.poly_little_endian ≠ 0 then
      poly_extend_words_le h result tmp 4
    else
      poly_extend_words_be h result tmp 4

/-- First part of `poly_compute_mod` ("Word align the source pointer"): when at least 4
bytes remain and the address is not a multiple of 4, the leading bytes up to the next
multiple go through `poly_extend_bytes`.  The result is the new `result`, `addr` and
`len`. -/
def poly_compute_mod_align (h : Host) (g : Globals) (result : poly_t) (addr : Ptr)
    (len : Int) : Except Fault (poly_t × Ptr × Int) :=
  let j : Int := mod h (h.integer (h.word addr.addr)) 4
  if len ≥ 4 ∧ j ≠ 0 then do
    let j : Int := h.integer (4 - j)
    let result ← poly_extend_bytes h g result addr.mem (int_32 j)
    pure (result, addr.add j, h.integer (len - j))
  else
    pure (result, addr, len)

/-- Second part of `poly_compute_mod` ("Compute the bulk of the result a word at a
time"). -/
def poly_compute_mod_bulk (h : Host) (g : Globals) (result : poly_t) (addr : Ptr)
    (len : Int) : Except Fault (poly_t × Ptr × Int) :=
  if len ≥ 4 then do
    let j : Int := mod h (h.integer (h.word len)) 4
    let k : Int := h.integer (len - j)
    let result ←
      (if g.poly_little_endian ≠ 0 then
        poly_extend_words_le h result addr.mem (int_32 k)
      else
        poly_extend_words_be h result addr.mem (int_32 k))
    pure (result, addr.add k, j)
  else
    pure (result, addr, len)

/-- Third part of `poly_compute_mod` ("Finish up the last few bytes"). -/
def poly_compute_mod_finish (h : Host) (g : Globals) (result : poly_t) (addr : Ptr)
    (len : Int) : Except Fault poly_t :=
  if len > 0 then
    poly_extend_bytes h g result addr.mem (int_32 len)
  else
    pure result

/-- Function `poly_compute_mod`: the probe of the byte order if it has not run, then
the three parts above.  The source documents it so: the `len` bytes at `addr` define a
polynomial `A(x)`, and the result is `(INIT * x ^ (8 * LEN) + A(x)) % P`. -/
def poly_compute_mod (h : Host) (g : Globals) (init : poly_t) (addr : Ptr) (len : Int) :
    Except Fault (Globals × poly_t) := do
  let g ← (if g.poly_init_done = 0 then poly_find_byte_order h g else pure g)
  let (result, addr, len) ← poly_compute_mod_align h g init addr len
  let (result, addr, len) ← poly_compute_mod_bulk h g result addr len
  let result ← poly_compute_mod_finish h g result addr len
  pure (g, result)

/-- Function `poly_to_bytes`: the bytes are generated in little-endian order. -/
def poly_to_bytes (h : Host) (t : poly_t) : fingerprint_t :=
  { byte0 := to_byte (word_extract h (POLY_HALF t 0) 0 8)
    byte1 := to_byte (word_extract h (POLY_HALF t 0) 8 8)
    byte2 := to_byte (word_extract h (POLY_HALF t 0) 16 8)
    byte3 := to_byte (word_extract h (POLY_HALF t 0) 24 8)
    byte4 := to_byte (word_extract h (POLY_HALF t 1) 0 8)
    byte5 := to_byte (word_extract h (POLY_HALF t 1) 8 8)
    byte6 := to_byte (word_extract h (POLY_HALF t 1) 16 8)
    byte7 := to_byte (word_extract h (POLY_HALF t 1) 24 8) }

/-- Function `poly_from_bytes`: the bytes are taken to be in little-endian order. -/
def poly_from_bytes (h : Host) (b : fingerprint_t) : poly_t :=
  { array0 := poly_fix_32 h
      (word_or h (word_or h b.byte0.val (word_left_shift h b.byte1.val 8))
                 (word_or h (word_left_shift h b.byte2.val 16)
                            (word_left_shift h b.byte3.val 24)))
    array1 := poly_fix_32 h
      (word_or h (word_or h b.byte4.val (word_left_shift h b.byte5.val 8))
                 (word_or h (word_left_shift h b.byte6.val 16)
                            (word_left_shift h b.byte7.val 24))) }

/-! ## The fingerprint module -/

/-- Macro `FINGERPRINT_A`. -/
def FINGERPRINT_A : Int := 0xff208489

/-- Macro `FINGERPRINT_B`. -/
def FINGERPRINT_B : Int := 0xf4872e10

/-- Macro `FINGERPRINT_C`. -/
def FINGERPRINT_C : Int := 0x402d619b

/-- Macro `FINGERPRINT_D`. -/
def FINGERPRINT_D : Int := 0x0bf359a7

/-- Constant `fingerprint_zero`, which C initialises to zero bytes. -/
def fingerprint_zero : fingerprint_t :=
  ⟨0, 0, 0, 0, 0, 0, 0, 0⟩

/-- The file-scope variables as the program starts: all zero. -/
def Globals.initial : Globals :=
  ⟨0, 0, 0, fingerprint_zero⟩

/-- Table `fingerprint_perm`. -/
def fingerprint_perm : List byte_t :=
  [55, 254, 252, 251, 250, 248, 240, 245,
   246, 238, 237, 244, 7, 189, 214, 236,
   235, 20, 33, 8, 227, 14, 233, 178,
   172, 60, 229, 133, 152, 19, 210, 203,
   221, 208, 76, 18, 13, 199, 113, 62,
   40, 190, 213, 194, 43, 181, 21, 15,
   201, 162, 90, 186, 71, 117, 107, 70,
   191, 5, 173, 44, 39, 12, 174, 183,
   99, 11, 176, 163, 161, 72, 86, 105,
   2, 83, 42, 52, 179, 135, 103, 110,
   151, 58, 108, 96, 166, 25, 115, 66,
   142, 10, 141, 48, 104, 34, 159, 120,
   22, 140, 64, 82, 78, 68, 207, 125,
   123, 150, 144, 138, 128, 139, 136, 114,
   119, 53, 148, 185, 41, 124, 216, 143,
   49, 92, 98, 51, 112, 73, 50, 63,
   16, 46, 158, 126, 206, 122, 94, 132,
   88, 184, 28, 84, 127, 156, 167, 223,
   118, 89, 116, 17, 111, 121, 109, 77,
   146, 61, 224, 101, 81, 218, 97, 188,
   243, 155, 57, 102, 54, 129, 93, 192,
   153, 106, 36, 145, 79, 31, 137, 26,
   67, 85, 175, 80, 168, 65, 91, 1,
   147, 149, 6, 29, 37, 69, 182, 165,
   4, 74, 55, 47, 171, 169, 75, 134,
   193, 195, 198, 131, 38, 180, 56, 196,
   23, 154, 177, 200, 205, 27, 209, 95,
   204, 160, 3, 30, 157, 32, 9, 212,
   211, 45, 202, 170, 0, 219, 187, 87,
   35, 100, 217, 232, 164, 228, 220, 197,
   231, 215, 226, 130, 225, 234, 241, 239,
   59, 230, 247, 24, 249, 242, 222, 253]

/-- Function `fingerprint_init`.  Its assertions compare sizes of types, which hold in
this embedding (`int_32_t` has 32 bits, a `poly_t` two of them, a fingerprint 8 bytes,
a pointer `wordBits` bits); the statement that remains stores the bytes of `POLY_ONE`. -/
def fingerprint_init (h : Host) (g : Globals) : Globals :=
  { g with fingerprint_of_empty := poly_to_bytes h POLY_ONE }

/-- Function `fingerprint_from_buffer`; `size` is an `int`. -/
def fingerprint_from_buffer (h : Host) (g : Globals) (buffer : Ptr) (size : Int) :
    Except Fault (Globals × fingerprint_t) := do
  let (g, poly) ← poly_compute_mod h g POLY_ONE buffer (h.integer size)
  pure (g, poly_to_bytes h poly)

/-- Library function `strlen`: the number of bytes before the first zero byte. -/
def strlen : List byte_t → Except Fault Nat
  | [] => .error Fault.outOfBounds
  | b :: rest => if b = 0 then .ok 0 else (strlen rest).map (· + 1)

/-- Function `fingerprint_from_text`; the result of `strlen` is converted to `int`. -/
def fingerprint_from_text (h : Host) (g : Globals) (text : Ptr) :
    Except Fault (Globals × fingerprint_t) := do
  let n ← strlen text.mem
  fingerprint_from_buffer h g text (int_32 n)

/-- The loop `for (i = 0; i < 8; ++i)` of `fingerprint_combine`: each byte of `res` is
replaced by the entry of `fingerprint_perm` at that byte. -/
def fingerprint_combine_loop (res : fingerprint_t) : fingerprint_t :=
  (List.range 8).foldl
    (fun res i => res.set i (fingerprint_perm.getD (res.get i).val 0)) res

/-- Function `fingerprint_combine`; `buf` is the address of its local array `buf`, which
holds the bytes of `fp1` followed by those of `fp2`. -/
def fingerprint_combine (h : Host) (g : Globals) (buf : Nat) (fp1 fp2 : fingerprint_t) :
    Except Fault (Globals × fingerprint_t) := do
  let (g, poly1) ← poly_compute_mod h g POLY_ONE
    ⟨buf, FINGERPRINT_BYTE fp1 ++ FINGERPRINT_BYTE fp2⟩ 16
  let poly2 : poly_t :=
    { array0 := poly_fix_32 h
        (word_plus h (word_times h (POLY_HALF poly1 0) FINGERPRINT_A)
                     (word_times h (POLY_HALF poly1 1) FINGERPRINT_B))
      array1 := poly_fix_32 h
        (word_plus h (word_times h (POLY_HALF poly1 0) FINGERPRINT_C)
                     (word_times h (POLY_HALF poly1 1) FINGERPRINT_D)) }
  let res : fingerprint_t := poly_to_bytes h poly2
  pure (g, fingerprint_combine_loop res)

/-- Function `fingerprint_from_chars`. -/
def fingerprint_from_chars (h : Host) (g : Globals) (text : Ptr) (fp : fingerprint_t) :
    Except Fault (Globals × fingerprint_t) := do
  let len ← strlen text.mem
  let n : Int := h.integer len
  if n = 0 then
    pure (g, fp)
  else do
    let init : poly_t := poly_from_bytes h fp
    let (g, poly) ← poly_compute_mod h g init text n
    pure (g, poly_to_bytes h poly)

/-- Library function `memcmp` on two blocks of the same length: the sign of the
difference at the first place where the blocks differ, 0 when there is none. -/
def memcmp : List byte_t → List byte_t → Int
  | a :: as, b :: bs => if a.val < b.val then -1 else if a.val > b.val then 1 else memcmp as bs
  | _, _ => 0

/-- Function `fingerprint_equal`. -/
def fingerprint_equal (fp1 fp2 : fingerprint_t) : Int :=
  if memcmp (FINGERPRINT_BYTE fp1) (FINGERPRINT_BYTE fp2) = 0 then 1 else 0

/-- Function `fingerprint_equal_f`. -/
def fingerprint_equal_f (fp1 fp2 : fingerprint_t) : Int :=
  fingerprint_equal fp1 fp2

/-- Function `fingerprint_hash`. -/
def fingerprint_hash (h : Host) (fp : fingerprint_t) : Nat :=
  let x : poly_t := poly_from_bytes h fp
  word_xor h (POLY_HALF x 0) (POLY_HALF x 1)

/-! ## Reference arithmetic modulo P

A remainder is read as the 64-bit number `low | high << 32`, in which bit `i` is the
coefficient of `x ^ (63 - i)`.  The reference below is bit-serial: it multiplies by `x`,
reduces modulo `P`, and adds one coefficient at a time. -/

/-- The 64-bit number `low | high << 32` of a remainder, the halves taken as 32-bit
patterns. -/
def poly_t.value (t : poly_t) : Nat :=
  pattern 32 t.array0 ||| (pattern 32 t.array1 <<< 32)

/-- The remainder whose 64-bit number is `v`. -/
def poly_t.of_value (v : Nat) : poly_t :=
  ⟨signed 32 (v % 2 ^ 32), signed 32 ((v >>> 32) % 2 ^ 32)⟩

/-- The 64-bit number of `P - x ^ 64`: the modulus is `P = x ^ 64 + ` the polynomial
that `poly64[128]` encodes (index 128 is the byte whose polynomial is 1). -/
def P_low : Nat :=
  (entry poly64 128).value

/-- Multiplication by `x` modulo `P`: every coefficient moves to the next higher power,
which is the next lower bit, and the coefficient of `x ^ 63` (bit 0), now that of
`x ^ 64`, is replaced by `P - x ^ 64`. -/
def times_x (s : Nat) : Nat :=
  (s >>> 1) ^^^ (if s % 2 = 1 then P_low else 0)

/-- Multiplication by `x ^ k` modulo `P`, one factor `x` at a time. -/
def times_x_pow : Nat → Nat → Nat
  | 0, s => s
  | k + 1, s => times_x_pow k (times_x s)

/-- One step of the reference: `s * x + c` modulo `P`; the coefficient of `x ^ 0` is
bit 63. -/
def push_bit (s : Nat) (c : Bool) : Nat :=
  times_x s ^^^ (if c then 2 ^ 63 else 0)

/-- Eight steps of the reference, with the bits of `b` from the least significant on:
in a run of bytes the least significant bit of a byte is its highest power of `x`. -/
def push_byte (s : Nat) (b : byte_t) : Nat :=
  (List.range 8).foldl (fun s j => push_bit s (b.val.testBit j)) s

/-- The reference for `poly_compute_mod`: `(init * x ^ (8 * len) + A(x)) mod P`, where
bit `j` of byte `m` of the input is the coefficient of `x ^ (8 * (len - m) - 1 - j)` of
`A`, computed by a bit-serial schema of Horner. -/
def reference_mod (init : Nat) (bytes : List byte_t) : Nat :=
  bytes.foldl push_byte init

/-- The polynomial of a byte, `b(x)`, in which bit `j` of `b` is the coefficient of
`x ^ (7 - j)`, as a 64-bit number. -/
def byte_poly (b : byte_t) : Nat :=
  b.val <<< 56

/-- Little-endian number of four bytes. -/
def pack (a b c d : byte_t) : Nat :=
  a.val <<< 0 ||| b.val <<< 8 ||| c.val <<< 16 ||| d.val <<< 24

/-- The 64-bit number of the two variables `p0` and `p1` of a word reducer, each taken
as a 32-bit pattern. -/
def state_value (p0 p1 : Int) : Nat :=
  pattern 32 p0 ||| (pattern 32 p1 <<< 32)

/-- The canonical 8 bytes of a 64-bit number: least significant byte first. -/
def bytes_of_value (v : Nat) : fingerprint_t :=
  ⟨to_byte v, to_byte (v >>> 8), to_byte (v >>> 16), to_byte (v >>> 24),
   to_byte (v >>> 32), to_byte (v >>> 40), to_byte (v >>> 48), to_byte (v >>> 56)⟩

/-- The mixing transform of `fingerprint_combine` on the 64-bit number of a remainder:
`lo * A + hi * B` and `lo * C + hi * D`, both modulo `2 ^ 32`. -/
def mix_value (v : Nat) : Nat :=
  ((v % 2 ^ 32 * 0xff208489 + (v >>> 32) % 2 ^ 32 * 0xf4872e10) % 2 ^ 32) |||
    (((v % 2 ^ 32 * 0x402d619b + (v >>> 32) % 2 ^ 32 * 0x0bf359a7) % 2 ^ 32) <<< 32)

/-- Both halves of a remainder are values of `int_32_t`. -/
def poly_t.valid (t : poly_t) : Prop :=
  int_32 t.array0 = t.array0 ∧ int_32 t.array1 = t.array1

instance (t : poly_t) : Decidable t.valid :=
  inferInstanceAs (Decidable (int_32 t.array0 = t.array0 ∧ int_32 t.array1 = t.array1))

/-- The file-scope variables once the probe of the byte order has run on a host that
it recognises. -/
def Globals.probed (g : Globals) (h : Host) : Globals :=
  if g.poly_init_done = 0 then
    if h.isLittle then { g with poly_little_endian := 1, poly_init_done := 1 }
    else { g with poly_big_endian := 1, poly_init_done := 1 }
  else g

/-- The file-scope variables agree with the host: `poly_little_endian` is set exactly
when the probe has run and found a little-endian host.  The variables are static, and
only `poly_find_byte_order` writes them, so every state the program reaches is of this
kind. -/
def Globals.consistent (g : Globals) (h : Host) : Prop :=
  g.poly_little_endian ≠ 0 ↔ (h.isLittle ∧ g.poly_init_done ≠ 0)

instance (g : Globals) (h : Host) : Decidable (g.consistent h) :=
  inferInstanceAs (Decidable (g.poly_little_endian ≠ 0 ↔ (h.isLittle ∧ g.poly_init_done ≠ 0)))

/-- The bytes of a text of the tests, one per character. -/
def text_bytes (s : String) : List byte_t :=
  s.toList.map fun c => to_byte c.toNat

/-- First sentence of the unit test of the source. -/
def good_men : List byte_t :=
  text_bytes "Now is the time for all good men to come to the aid of their country."

/-- Second sentence of the unit test of the source. -/
def quick_fox : List byte_t :=
  text_bytes "The quick brown fox jumped over the lazy dog."

deriving instance DecidableEq for Except

/-! ## The spec of `combine` -/

/-- The canonical 8 bytes of a pair of 32-bit halves: the four bytes of `lo` least
significant first, then the four bytes of `hi` least significant first. -/
def canonical_bytes (lo hi : Nat) : fingerprint_t :=
  ⟨to_byte lo, to_byte (lo >>> 8), to_byte (lo >>> 16), to_byte (lo >>> 24),
   to_byte hi, to_byte (hi >>> 8), to_byte (hi >>> 16), to_byte (hi >>> 24)⟩

/-- The image of a fingerprint under `fingerprint_perm`, byte by byte. -/
def perm_image (fp : fingerprint_t) : fingerprint_t :=
  ⟨fingerprint_perm.getD fp.byte0.val 0, fingerprint_perm.getD fp.byte1.val 0,
   fingerprint_perm.getD fp.byte2.val 0, fingerprint_perm.getD fp.byte3.val 0,
   fingerprint_perm.getD fp.byte4.val 0, fingerprint_perm.getD fp.byte5.val 0,
   fingerprint_perm.getD fp.byte6.val 0, fingerprint_perm.getD fp.byte7.val 0⟩

/-- What the spec says `combine` makes of the intermediate remainder `(lo, hi)`: the
mixing transform modulo `2 ^ 32`, the canonical bytes, and the permutation of each
byte. -/
def combine_of_remainder (p : poly_t) : fingerprint_t :=
  perm_image (canonical_bytes
    ((pattern 32 p.array0 * 0xff208489 + pattern 32 p.array1 * 0xf4872e10) % 2 ^ 32)
    ((pattern 32 p.array0 * 0x402d619b + pattern 32 p.array1 * 0x0bf359a7) % 2 ^ 32))

/-! ## Polynomials over GF(2)

A polynomial over GF(2) is kept as the natural number whose bit `d` is the coefficient
of `x ^ d`. -/

/-- The polynomial that the 64-bit number of a remainder encodes: bit `i` of the number
is the coefficient of `x ^ (63 - i)`. -/
def poly_of_value (v : Nat) : Nat :=
  (List.range 64).foldl (fun acc i => if v.testBit i then acc ||| 2 ^ (63 - i) else acc) 0

/-- The modulus `P = x ^ 64 + ` the polynomial that `poly64[128]` encodes. -/
def modulus : Nat :=
  2 ^ 64 ||| poly_of_value P_low

/-- Number of binary digits of `a`, counted with `fuel` halvings at most. -/
def bit_length_aux : Nat → Nat → Nat
  | 0, _ => 0
  | fuel + 1, a => if a = 0 then 0 else bit_length_aux fuel (a / 2) + 1

/-- Number of binary digits of `a`: one more than the degree of the polynomial, 0 for the
zero polynomial.  A number has at most as many digits as its value, so the fuel is
enough. -/
def bit_length (a : Nat) : Nat :=
  bit_length_aux a a

/-- Degree of a polynomial over GF(2) that is not zero. -/
def gf2_degree (a : Nat) : Nat :=
  bit_length a - 1

/-- Product of two polynomials over GF(2): the sum of `b * x ^ i` over the powers
`x ^ i` of `a`. -/
def gf2_mul (a b : Nat) : Nat :=
  (List.range (bit_length a)).foldl
    (fun acc i => if a.testBit i then acc ^^^ (b <<< i) else acc) 0

/-- Irreducibility over GF(2): the polynomial is neither 0 nor the unit 1, and in every
way of writing it as a product one factor is the unit 1. -/
def gf2_irreducible (p : Nat) : Prop :=
  1 < p ∧ ∀ a b : Nat, gf2_mul a b = p → a = 1 ∨ b = 1

/-! ## Arithmetic modulo a polynomial over GF(2) -/

/-- Long division of the polynomial `a` by `m` over GF(2), for `m` of degree `d`: the
shifts `m * x ^ (k - 1)`, ..., `m * x ^ 0` are tried from the highest on, and each is
added when the coefficient of `x ^ (shift + d)` of `a` is set, which clears it. -/
def gf2_mod_aux (d : Nat) : Nat → Nat → Nat → Nat
  | 0, a, _ => a
  | k + 1, a, m => gf2_mod_aux d k (if a.testBit (k + d) then a ^^^ (m <<< k) else a) m

/-- Remainder of the polynomial `a` modulo `m` over GF(2): the shifts of `m` run from
`degree a - degree m` down to 0. -/
def gf2_mod (a m : Nat) : Nat :=
  gf2_mod_aux (bit_length m - 1) (bit_length a + 1 - bit_length m) a m

/-- The polynomial `r ^ (2 ^ k)` modulo `m`, by `k` squarings. -/
def gf2_frobenius (m : Nat) : Nat → Nat → Nat
  | 0, r => r
  | k + 1, r => gf2_frobenius m k (gf2_mod (gf2_mul r r) m)

/-- The cofactor of `x ^ 3` in the modulus: `P = x ^ 3 * Q`. -/
def modulus_cofactor : Nat :=
  modulus >>> 3

/-! ## The spec of the word reducer and of `mod` -/

/-- The low half of entry `b` of a table, as a 32-bit pattern. -/
def entry_low (table : List poly_t) (b : byte_t) : Nat :=
  pattern 32 (entry table b).array0

/-- The high half of entry `b` of a table, as a 32-bit pattern. -/
def entry_high (table : List poly_t) (b : byte_t) : Nat :=
  pattern 32 (entry table b).array1

/-- The step of the word reducer in the words of the spec, on the 32-bit patterns of the
two halves: `(low, high)` and the input word `w` give `(high xor T88[b0].low xor
T80[b1].low xor T72[b2].low xor T64[b3].low, w xor T88[b0].high xor T80[b1].high xor
T72[b2].high xor T64[b3].high)`, with `b0 .. b3` the bytes of `low` from the least to
the most significant. -/
def spec_word_step (s : Nat × Nat) (w : Nat) : Nat × Nat :=
  let low := s.1
  let high := s.2
  let b0 := to_byte low
  let b1 := to_byte (low >>> 8)
  let b2 := to_byte (low >>> 16)
  let b3 := to_byte (low >>> 24)
  (high ^^^ entry_low poly88 b0 ^^^ entry_low poly80 b1 ^^^ entry_low poly72 b2 ^^^
      entry_low poly64 b3,
   w ^^^ entry_high poly88 b0 ^^^ entry_high poly80 b1 ^^^ entry_high poly72 b2 ^^^
      entry_high poly64 b3)

/-- The little-endian 32-bit words of a byte sequence, in order; bytes after the last
complete group of four are left out. -/
def le_words : List byte_t → List Nat
  | a :: b :: c :: d :: rest => pack a b c d :: le_words rest
  | _ => []

/-- The remainder whose halves have the given 32-bit patterns. -/
def poly_t.of_halves (s : Nat × Nat) : poly_t :=
  ⟨signed 32 s.1, signed 32 s.2⟩

/-- The `count` least significant bytes of `high >>> n`, least significant first. -/
def carried_bytes (high n count : Nat) : List byte_t :=
  (List.range count).map fun i => to_byte ((high >>> n) >>> (8 * i))

/-- The Modula-3 `MOD` operation in the words of the spec: `x - y * floor (x / y)`. -/
def spec_mod (x y : Int) : Int :=
  x - y * Int.fdiv x y

/-- The result of `n` successive calls of `poly_extend_bytes` with `len = 1`, each on the
next byte of the buffer at `addr`. -/
def extend_byte_by_byte (h : Host) (g : Globals) : poly_t → List byte_t → Nat → Except Fault poly_t
  | p, _, 0 => .ok p
  | p, addr, n + 1 =>
    (poly_extend_bytes h g p addr 1).bind fun q => extend_byte_by_byte h g q (addr.drop 1) n

/-- Table `T` is linear over GF(2) in its index: the entry at `a xor b` has as halves the
xor of the 32-bit patterns of the halves of the entries at `a` and at `b`. -/
def table_linear (T : List poly_t) : Prop :=
  ∀ a b : byte_t, entry T (to_byte (a.val ^^^ b.val)) =
    poly_t.of_halves (entry_low T a ^^^ entry_low T b, entry_high T a ^^^ entry_high T b)

instance (T : List poly_t) : Decidable (table_linear T) :=
  inferInstanceAs (Decidable (∀ a b : byte_t, entry T (to_byte (a.val ^^^ b.val)) =
    poly_t.of_halves (entry_low T a ^^^ entry_low T b, entry_high T a ^^^ entry_high T b)))

/-! ## Helpers for the algebraic claims -/

/-- The mixing assignment of `fingerprint_combine`: `poly2` from `poly1`. -/
def fingerprint_mix (h : Host) (poly1 : poly_t) : poly_t :=
  { array0 := poly_fix_32 h
      (word_plus h (word_times h (POLY_HALF poly1 0) FINGERPRINT_A)
                   (word_times h (POLY_HALF poly1 1) FINGERPRINT_B))
    array1 := poly_fix_32 h
      (word_plus h (word_times h (POLY_HALF poly1 0) FINGERPRINT_C)
                   (word_times h (POLY_HALF poly1 1) FINGERPRINT_D)) }

/-- The inverse of `mix_value`: the matrix inverse of `(A B; C D)` modulo `2 ^ 32` is
`(0xa85e5689 0xbec98910; 0xbd16a52b 0x2b50fa47)`. -/
def unmix_value (m : Nat) : Nat :=
  ((m % 2 ^ 32 * 0xa85e5689 + (m >>> 32) % 2 ^ 32 * 0xbec98910) % 2 ^ 32) |||
    (((m % 2 ^ 32 * 0xbd16a52b + (m >>> 32) % 2 ^ 32 * 0x2b50fa47) % 2 ^ 32) <<< 32)

/-- Bytewise xor of two byte sequences of the same length. -/
def xor_bytes (a b : List byte_t) : List byte_t :=
  List.zipWith (fun x y => to_byte (x.val ^^^ y.val)) a b

/-- Bytewise xor of two fingerprints. -/
def fingerprint_xor (x y : fingerprint_t) : fingerprint_t :=
  ⟨to_byte (x.byte0.val ^^^ y.byte0.val), to_byte (x.byte1.val ^^^ y.byte1.val),
   to_byte (x.byte2.val ^^^ y.byte2.val), to_byte (x.byte3.val ^^^ y.byte3.val),
   to_byte (x.byte4.val ^^^ y.byte4.val), to_byte (x.byte5.val ^^^ y.byte5.val),
   to_byte (x.byte6.val ^^^ y.byte6.val), to_byte (x.byte7.val ^^^ y.byte7.val)⟩

/-- The little-endian number of a byte sequence: the first byte is the least
significant. -/
def le_number : List byte_t → Nat
  | [] => 0
  | b :: bs => b.val + 256 * le_number bs

/-! ## Lemmas -/

theorem pattern_lt (n : Nat) (x : Int) : pattern n x < 2 ^ n := by
  unfold pattern
  have h : (0 : Int) < ((2 ^ n : Nat) : Int) := by positivity
  have h1 := Int.emod_nonneg x (ne_of_gt h)
  have h2 := Int.emod_lt_of_pos x h
  omega

theorem pattern_natCast (n m : Nat) : pattern n (m : Int) = m % 2 ^ n := by
  unfold pattern
  norm_cast

theorem pattern_signed (n m : Nat) : pattern n (signed n m) = m % 2 ^ n := by
  unfold signed
  split
  · rw [pattern_natCast]; simp
  · unfold pattern
    rw [Int.sub_emod, Int.emod_self]
    simp only [sub_zero, Int.emod_emod_of_dvd, dvd_refl]
    norm_cast
    simp

theorem pattern_pattern (n k : Nat) (x : Int) (hk : k ≤ n) :
    pattern n x % 2 ^ k = pattern k x := by
  unfold pattern
  have h : (0 : Int) < ((2 ^ n : Nat) : Int) := by positivity
  have h1 := Int.emod_nonneg x (ne_of_gt h)
  apply Int.ofNat.inj
  simp only [Int.ofNat_eq_coe, Int.natCast_mod]
  rw [Int.toNat_of_nonneg h1, Int.toNat_of_nonneg (Int.emod_nonneg x (by positivity))]
  apply Int.emod_emod_of_dvd
  exact_mod_cast pow_dvd_pow 2 hk


theorem xor_mod_two_pow (a b n : Nat) : (a ^^^ b) % 2 ^ n = a % 2 ^ n ^^^ b % 2 ^ n := by
  apply Nat.eq_of_testBit_eq
  intro i
  simp only [Nat.testBit_mod_two_pow, Nat.testBit_xor]
  cases decide (i < n) <;> simp

theorem shiftRight_xor (a b n : Nat) : (a ^^^ b) >>> n = a >>> n ^^^ b >>> n := by
  apply Nat.eq_of_testBit_eq
  intro i
  simp only [Nat.testBit_shiftRight, Nat.testBit_xor]

theorem shiftLeft_xor (a b n : Nat) : (a ^^^ b) <<< n = a <<< n ^^^ b <<< n := by
  apply Nat.eq_of_testBit_eq
  intro i
  simp only [Nat.testBit_shiftLeft, Nat.testBit_xor]
  cases decide (i ≥ n) <;> simp

theorem times_x_xor (a b : Nat) : times_x (a ^^^ b) = times_x a ^^^ times_x b := by
  unfold times_x
  rw [shiftRight_xor]
  have hx : (a ^^^ b) % 2 = (a % 2) ^^^ (b % 2) := xor_mod_two_pow a b 1
  rcases Nat.mod_two_eq_zero_or_one a with ha | ha <;>
  rcases Nat.mod_two_eq_zero_or_one b with hb | hb <;>
  · rw [hx, ha, hb]
    apply Nat.eq_of_testBit_eq
    intro i
    simp only [Nat.testBit_xor, Nat.testBit_shiftRight]
    cases a.testBit (1 + i) <;> cases b.testBit (1 + i) <;> cases P_low.testBit i <;> simp

theorem times_x_pow_xor (k a b : Nat) :
    times_x_pow k (a ^^^ b) = times_x_pow k a ^^^ times_x_pow k b := by
  induction k generalizing a b with
  | zero => rfl
  | succ k ih => simp only [times_x_pow, times_x_xor, ih]

theorem times_x_pow_add (m n s : Nat) :
    times_x_pow (m + n) s = times_x_pow n (times_x_pow m s) := by
  induction m generalizing s with
  | zero => simp [times_x_pow]
  | succ m ih =>
    have : m + 1 + n = (m + n) + 1 := by omega
    rw [this]
    simp only [times_x_pow, ih]

theorem times_x_zero : times_x 0 = 0 := by
  simp [times_x]

theorem times_x_pow_zero (k : Nat) : times_x_pow k 0 = 0 := by
  induction k with
  | zero => rfl
  | succ k ih => simp only [times_x_pow, times_x_zero, ih]

theorem times_x_pow_shiftLeft (k r m : Nat) : times_x_pow k (m <<< (k + r)) = m <<< r := by
  induction k generalizing r with
  | zero => simp [times_x_pow]
  | succ k ih =>
    have h0 : (m <<< (k + 1 + r)) % 2 = 0 := by
      rw [Nat.shiftLeft_eq]
      have : k + 1 + r = (k + r) + 1 := by omega
      rw [this, pow_succ, ← Nat.mul_assoc, Nat.mul_mod_left]
    have h1 : times_x (m <<< (k + 1 + r)) = m <<< (k + r) := by
      unfold times_x
      rw [h0]
      simp only [Nat.zero_ne_one, if_false, Nat.xor_zero]
      apply Nat.eq_of_testBit_eq
      intro i
      simp only [Nat.testBit_shiftRight, Nat.testBit_shiftLeft]
      have : 1 + i - (k + 1 + r) = i - (k + r) := by omega
      rw [this]
      congr 1
      simp only [ge_iff_le, decide_eq_decide]
      omega
    simp only [times_x_pow, h1, ih]

theorem push_bit_xor (a s : Nat) (c : Bool) : push_bit (a ^^^ s) c = times_x a ^^^ push_bit s c := by
  simp only [push_bit, times_x_xor, Nat.xor_assoc]

theorem push_byte_xor (a s : Nat) (b : byte_t) :
    push_byte (a ^^^ s) b = times_x_pow 8 a ^^^ push_byte s b := by
  simp only [push_byte, List.range, List.range.loop, List.foldl, push_bit_xor, times_x_pow]

set_option maxRecDepth 100000 in
theorem push_byte_zero : ∀ b : byte_t, push_byte 0 b = b.val <<< 56 := by
  decide!

theorem push_byte_eq (s : Nat) (b : byte_t) :
    push_byte s b = times_x_pow 8 s ^^^ (b.val <<< 56) := by
  have h := push_byte_xor s 0 b
  rw [Nat.xor_zero, push_byte_zero] at h
  exact h


/-! tables -/
set_option maxRecDepth 100000 in
theorem poly64_spec : ∀ b : byte_t, (entry poly64 b).value = times_x_pow 64 (byte_poly b) := by
  decide!
set_option maxRecDepth 100000 in
theorem poly72_spec : ∀ b : byte_t, (entry poly72 b).value = times_x_pow 72 (byte_poly b) := by
  decide!
set_option maxRecDepth 100000 in
theorem poly80_spec : ∀ b : byte_t, (entry poly80 b).value = times_x_pow 80 (byte_poly b) := by
  decide!
set_option maxRecDepth 100000 in
theorem poly88_spec : ∀ b : byte_t, (entry poly88 b).value = times_x_pow 88 (byte_poly b) := by
  decide!

theorem poly88_step (b : byte_t) : (entry poly88 b).value = times_x_pow 32 b.val := by
  rw [poly88_spec, byte_poly, show 88 = 56 + 32 from rfl, times_x_pow_add]
  have := times_x_pow_shiftLeft 56 0 b.val
  simp only [Nat.add_zero, Nat.shiftLeft_zero] at this
  rw [this]

theorem poly80_step (b : byte_t) : (entry poly80 b).value = times_x_pow 32 (b.val <<< 8) := by
  rw [poly80_spec, byte_poly, show 80 = 48 + 32 from rfl, times_x_pow_add]
  rw [times_x_pow_shiftLeft 48 8 b.val]

theorem poly72_step (b : byte_t) : (entry poly72 b).value = times_x_pow 32 (b.val <<< 16) := by
  rw [poly72_spec, byte_poly, show 72 = 40 + 32 from rfl, times_x_pow_add]
  rw [times_x_pow_shiftLeft 40 16 b.val]

theorem poly64_step (b : byte_t) : (entry poly64 b).value = times_x_pow 32 (b.val <<< 24) := by
  rw [poly64_spec, byte_poly, show 64 = 32 + 32 from rfl, times_x_pow_add]
  rw [times_x_pow_shiftLeft 32 24 b.val]

theorem testBit_eq_false_of_lt {x n i : Nat} (hx : x < 2 ^ n) (hi : n ≤ i) :
    x.testBit i = false :=
  Nat.testBit_lt_two_pow (lt_of_lt_of_le hx (Nat.pow_le_pow_right (by decide) hi))

theorem split_bytes (lo hi : Nat) (hlo : lo < 2 ^ 32) :
    lo ||| hi <<< 32 =
      (lo % 256) ^^^ (((lo >>> 8) % 256) <<< 8) ^^^ (((lo >>> 16) % 256) <<< 16) ^^^
        (((lo >>> 24) % 256) <<< 24) ^^^ (hi <<< 32) := by
  apply Nat.eq_of_testBit_eq
  intro i
  have e : (256 : Nat) = 2 ^ 8 := rfl
  simp only [e, Nat.testBit_or, Nat.testBit_xor, Nat.testBit_shiftLeft, Nat.testBit_shiftRight,
    Nat.testBit_mod_two_pow]
  by_cases h32 : 32 ≤ i
  · have := testBit_eq_false_of_lt hlo h32
    have h1 : ¬ i < 8 := by omega
    have h2 : ¬ i - 8 < 8 := by omega
    have h3 : ¬ i - 16 < 8 := by omega
    have h4 : ¬ i - 24 < 8 := by omega
    simp [this, h1, h2, h3, h4, h32]
  · by_cases h24 : 24 ≤ i
    · have h1 : ¬ i < 8 := by omega
      have h2 : ¬ i - 8 < 8 := by omega
      have h3 : ¬ i - 16 < 8 := by omega
      have h4 : i - 24 < 8 := by omega
      have h5 : 24 + (i - 24) = i := by omega
      simp [h1, h2, h3, h4, h32, h24, h5]
    · by_cases h16 : 16 ≤ i
      · have h1 : ¬ i < 8 := by omega
        have h2 : ¬ i - 8 < 8 := by omega
        have h3 : i - 16 < 8 := by omega
        have h5 : 16 + (i - 16) = i := by omega
        simp [h1, h2, h3, h32, h24, h16, h5]
      · by_cases h8 : 8 ≤ i
        · have h1 : ¬ i < 8 := by omega
          have h2 : i - 8 < 8 := by omega
          have h5 : 8 + (i - 8) = i := by omega
          simp [h1, h2, h32, h24, h16, h8, h5]
        · have h1 : i < 8 := by omega
          simp [h1, h32, h24, h16, h8]

theorem join_halves (hi w a0 a1 b0 b1 c0 c1 d0 d1 : Nat)
    (hhi : hi < 2 ^ 32)
    (ha : a0 < 2 ^ 32) (hb : b0 < 2 ^ 32) (hc : c0 < 2 ^ 32) (hd : d0 < 2 ^ 32) :
    (hi ^^^ ((a0 ^^^ b0) ^^^ (c0 ^^^ d0))) ||| ((w ^^^ ((a1 ^^^ b1) ^^^ (c1 ^^^ d1))) <<< 32) =
      (a0 ||| a1 <<< 32) ^^^ (b0 ||| b1 <<< 32) ^^^ (c0 ||| c1 <<< 32) ^^^ (d0 ||| d1 <<< 32)
        ^^^ hi ^^^ (w <<< 32) := by
  apply Nat.eq_of_testBit_eq
  intro i
  simp only [Nat.testBit_or, Nat.testBit_xor, Nat.testBit_shiftLeft]
  by_cases h32 : 32 ≤ i
  · simp only [testBit_eq_false_of_lt hhi h32, testBit_eq_false_of_lt ha h32,
      testBit_eq_false_of_lt hb h32, testBit_eq_false_of_lt hc h32,
      testBit_eq_false_of_lt hd h32, ge_iff_le, h32, decide_True, Bool.true_and,
      Bool.false_or, Bool.false_xor, Bool.xor_false]
    cases w.testBit (i - 32) <;> cases a1.testBit (i - 32) <;> cases b1.testBit (i - 32) <;>
      cases c1.testBit (i - 32) <;> cases d1.testBit (i - 32) <;> rfl
  · simp only [ge_iff_le, h32, decide_False, Bool.false_and, Bool.or_false, Bool.xor_false]
    cases hi.testBit i <;> cases a0.testBit i <;> cases b0.testBit i <;>
      cases c0.testBit i <;> cases d0.testBit i <;> rfl

/-- One step of the word reducers on 32-bit patterns. -/
theorem word_step_value (lo hi w : Nat) (hlo : lo < 2 ^ 32) (hhi : hi < 2 ^ 32) :
    (hi ^^^ ((pattern 32 (entry poly88 (to_byte lo)).array0 ^^^
              pattern 32 (entry poly80 (to_byte (lo >>> 8))).array0) ^^^
             (pattern 32 (entry poly72 (to_byte (lo >>> 16))).array0 ^^^
              pattern 32 (entry poly64 (to_byte (lo >>> 24))).array0))) |||
      ((w ^^^ ((pattern 32 (entry poly88 (to_byte lo)).array1 ^^^
              pattern 32 (entry poly80 (to_byte (lo >>> 8))).array1) ^^^
             (pattern 32 (entry poly72 (to_byte (lo >>> 16))).array1 ^^^
              pattern 32 (entry poly64 (to_byte (lo >>> 24))).array1))) <<< 32) =
    times_x_pow 32 (lo ||| hi <<< 32) ^^^ (w <<< 32) := by
  rw [split_bytes lo hi hlo]
  simp only [times_x_pow_xor]
  have h88 := poly88_step (to_byte lo)
  have h80 := poly80_step (to_byte (lo >>> 8))
  have h72 := poly72_step (to_byte (lo >>> 16))
  have h64 := poly64_step (to_byte (lo >>> 24))
  simp only [to_byte] at h88 h80 h72 h64 ⊢
  rw [← h88, ← h80, ← h72, ← h64]
  have hh := times_x_pow_shiftLeft 32 0 hi
  simp only [Nat.add_zero, Nat.shiftLeft_zero] at hh
  rw [hh]
  simp only [poly_t.value]
  exact join_halves hi w _ _ _ _ _ _ _ _ hhi (pattern_lt _ _) (pattern_lt _ _)
    (pattern_lt _ _) (pattern_lt _ _)

theorem byte_testBit (b : byte_t) {i : Nat} (hi : 8 ≤ i) : b.val.testBit i = false :=
  testBit_eq_false_of_lt (show b.val < 2 ^ 8 from b.isLt) hi

theorem pack_testBit (a b c d : byte_t) (i : Nat) :
    (pack a b c d).testBit i =
      if i < 8 then a.val.testBit i
      else if i < 16 then b.val.testBit (i - 8)
      else if i < 24 then c.val.testBit (i - 16)
      else d.val.testBit (i - 24) := by
  simp only [pack, Nat.testBit_or, Nat.testBit_shiftLeft, Nat.shiftLeft_zero]
  by_cases h8 : i < 8
  · have h1 : ¬ 8 ≤ i := by omega
    have h2 : ¬ 16 ≤ i := by omega
    have h3 : ¬ 24 ≤ i := by omega
    simp [h8, h1, h2, h3]
  · by_cases h16 : i < 16
    · have h1 : 8 ≤ i := by omega
      have h2 : ¬ 16 ≤ i := by omega
      have h3 : ¬ 24 ≤ i := by omega
      simp [h8, h16, h1, h2, h3, byte_testBit a h1]
    · by_cases h24 : i < 24
      · have h1 : 8 ≤ i := by omega
        have h2 : 16 ≤ i := by omega
        have h3 : ¬ 24 ≤ i := by omega
        have h4 : 8 ≤ i - 8 := by omega
        simp [h8, h16, h24, h1, h2, h3, byte_testBit a h1, byte_testBit b h4]
      · have h1 : 8 ≤ i := by omega
        have h2 : 16 ≤ i := by omega
        have h3 : 24 ≤ i := by omega
        have h4 : 8 ≤ i - 8 := by omega
        have h5 : 8 ≤ i - 16 := by omega
        simp [h8, h16, h24, h1, h2, h3, byte_testBit a h1, byte_testBit b h4, byte_testBit c h5]

theorem pack_lt (a b c d : byte_t) : pack a b c d < 2 ^ 32 := by
  apply Nat.lt_pow_two_of_testBit
  intro i hi
  rw [pack_testBit]
  have h1 : ¬ i < 8 := by omega
  have h2 : ¬ i < 16 := by omega
  have h3 : ¬ i < 24 := by omega
  simp only [h1, h2, h3, if_false]
  exact byte_testBit d (by omega)

theorem to_byte_pack0 (a b c d : byte_t) : to_byte (pack a b c d) = a := by
  apply Fin.ext
  show pack a b c d % 2 ^ 8 = a.val
  apply Nat.eq_of_testBit_eq
  intro i
  rw [Nat.testBit_mod_two_pow, pack_testBit]
  by_cases h : i < 8
  · simp [h]
  · simp [h, byte_testBit a (by omega : 8 ≤ i)]

theorem to_byte_pack1 (a b c d : byte_t) : to_byte (pack a b c d >>> 8) = b := by
  apply Fin.ext
  show (pack a b c d >>> 8) % 2 ^ 8 = b.val
  apply Nat.eq_of_testBit_eq
  intro i
  rw [Nat.testBit_mod_two_pow, Nat.testBit_shiftRight, pack_testBit]
  by_cases h : i < 8
  · have h1 : ¬ 8 + i < 8 := by omega
    have h2 : 8 + i < 16 := by omega
    simp [h, h1, h2]
  · simp [h, byte_testBit b (by omega : 8 ≤ i)]

theorem to_byte_pack2 (a b c d : byte_t) : to_byte (pack a b c d >>> 16) = c := by
  apply Fin.ext
  show (pack a b c d >>> 16) % 2 ^ 8 = c.val
  apply Nat.eq_of_testBit_eq
  intro i
  rw [Nat.testBit_mod_two_pow, Nat.testBit_shiftRight, pack_testBit]
  by_cases h : i < 8
  · have h1 : ¬ 16 + i < 8 := by omega
    have h2 : ¬ 16 + i < 16 := by omega
    have h3 : 16 + i < 24 := by omega
    simp [h, h1, h2, h3]
  · simp [h, byte_testBit c (by omega : 8 ≤ i)]

theorem to_byte_pack3 (a b c d : byte_t) : to_byte (pack a b c d >>> 24) = d := by
  apply Fin.ext
  show (pack a b c d >>> 24) % 2 ^ 8 = d.val
  apply Nat.eq_of_testBit_eq
  intro i
  rw [Nat.testBit_mod_two_pow, Nat.testBit_shiftRight, pack_testBit]
  by_cases h : i < 8
  · have h1 : ¬ 24 + i < 8 := by omega
    have h2 : ¬ 24 + i < 16 := by omega
    have h3 : ¬ 24 + i < 24 := by omega
    simp [h, h1, h2, h3]
  · simp [h, byte_testBit d (by omega : 8 ≤ i)]

theorem pack_be (a b c d : byte_t) :
    a.val <<< 24 ||| b.val <<< 16 ||| c.val <<< 8 ||| d.val <<< 0 = pack d c b a := by
  apply Nat.eq_of_testBit_eq
  intro i
  simp only [pack, Nat.testBit_or]
  cases (a.val <<< 24).testBit i <;> cases (b.val <<< 16).testBit i <;>
    cases (c.val <<< 8).testBit i <;> cases (d.val <<< 0).testBit i <;> rfl

theorem times_x_pow_8_8 (s : Nat) : times_x_pow 8 (times_x_pow 8 s) = times_x_pow 16 s :=
  (times_x_pow_add 8 8 s).symm

theorem times_x_pow_16_8 (s : Nat) : times_x_pow 8 (times_x_pow 16 s) = times_x_pow 24 s :=
  (times_x_pow_add 16 8 s).symm

theorem times_x_pow_24_8 (s : Nat) : times_x_pow 8 (times_x_pow 24 s) = times_x_pow 32 s :=
  (times_x_pow_add 24 8 s).symm

theorem times_x_pow_8_shift56 (m : Nat) : times_x_pow 8 (m <<< 56) = m <<< 48 :=
  times_x_pow_shiftLeft 8 48 m

theorem times_x_pow_8_shift48 (m : Nat) : times_x_pow 8 (m <<< 48) = m <<< 40 :=
  times_x_pow_shiftLeft 8 40 m

theorem times_x_pow_8_shift40 (m : Nat) : times_x_pow 8 (m <<< 40) = m <<< 32 :=
  times_x_pow_shiftLeft 8 32 m

theorem xor_pack_shift (a b c d : byte_t) :
    a.val <<< 32 ^^^ (b.val <<< 40 ^^^ (c.val <<< 48 ^^^ d.val <<< 56)) =
      pack a b c d <<< 32 := by
  apply Nat.eq_of_testBit_eq
  intro i
  simp only [Nat.testBit_xor, Nat.testBit_shiftLeft, pack_testBit]
  by_cases h32 : 32 ≤ i
  · by_cases h40 : 40 ≤ i
    · by_cases h48 : 48 ≤ i
      · by_cases h56 : 56 ≤ i
        · have e1 : ¬ i - 32 < 8 := by omega
          have e2 : ¬ i - 32 < 16 := by omega
          have e3 : ¬ i - 32 < 24 := by omega
          have e4 : i - 32 - 24 = i - 56 := by omega
          simp [h32, h40, h48, h56, e1, e2, e3, e4, byte_testBit a (by omega : 8 ≤ i - 32),
            byte_testBit b (by omega : 8 ≤ i - 40), byte_testBit c (by omega : 8 ≤ i - 48)]
        · have e1 : ¬ i - 32 < 8 := by omega
          have e2 : ¬ i - 32 < 16 := by omega
          have e3 : i - 32 < 24 := by omega
          have e4 : i - 32 - 16 = i - 48 := by omega
          simp [h32, h40, h48, h56, e1, e2, e3, e4, byte_testBit a (by omega : 8 ≤ i - 32),
            byte_testBit b (by omega : 8 ≤ i - 40)]
      · have e1 : ¬ i - 32 < 8 := by omega
        have e2 : i - 32 < 16 := by omega
        have e4 : i - 32 - 8 = i - 40 := by omega
        have h56 : ¬ 56 ≤ i := by omega
        simp [h32, h40, h48, h56, e1, e2, e4, byte_testBit a (by omega : 8 ≤ i - 32)]
    · have e1 : i - 32 < 8 := by omega
      have h48 : ¬ 48 ≤ i := by omega
      have h56 : ¬ 56 ≤ i := by omega
      simp [h32, h40, h48, h56, e1]
  · have h40 : ¬ 40 ≤ i := by omega
    have h48 : ¬ 48 ≤ i := by omega
    have h56 : ¬ 56 ≤ i := by omega
    simp [h32, h40, h48, h56]

theorem reference_mod_four (s : Nat) (a b c d : byte_t) :
    reference_mod s [a, b, c, d] = times_x_pow 32 s ^^^ (pack a b c d <<< 32) := by
  simp only [reference_mod, List.foldl, push_byte_eq, times_x_pow_xor, times_x_pow_8_8,
    times_x_pow_16_8, times_x_pow_24_8, times_x_pow_8_shift56, times_x_pow_8_shift48,
    times_x_pow_8_shift40, Nat.xor_assoc]
  rw [xor_pack_shift]

theorem reference_mod_one (s : Nat) (a : byte_t) :
    reference_mod s [a] = times_x_pow 8 s ^^^ (a.val <<< 56) := by
  simp only [reference_mod, List.foldl, push_byte_eq]

theorem reference_mod_two (s : Nat) (a b : byte_t) :
    reference_mod s [a, b] = times_x_pow 16 s ^^^ (a.val <<< 48 ^^^ b.val <<< 56) := by
  simp only [reference_mod, List.foldl, push_byte_eq, times_x_pow_xor, times_x_pow_8_8,
    times_x_pow_8_shift56, Nat.xor_assoc]

theorem reference_mod_three (s : Nat) (a b c : byte_t) :
    reference_mod s [a, b, c] =
      times_x_pow 24 s ^^^ (a.val <<< 40 ^^^ (b.val <<< 48 ^^^ c.val <<< 56)) := by
  simp only [reference_mod, List.foldl, push_byte_eq, times_x_pow_xor, times_x_pow_8_8,
    times_x_pow_16_8, times_x_pow_8_shift56, times_x_pow_8_shift48, Nat.xor_assoc]

theorem reference_mod_append (s : Nat) (xs ys : List byte_t) :
    reference_mod s (xs ++ ys) = reference_mod (reference_mod s xs) ys := by
  simp only [reference_mod, List.foldl_append]

theorem word_lt (h : Host) (x : Int) : h.word x < 2 ^ h.wordBits :=
  pattern_lt _ _

theorem word_natCast (h : Host) (n : Nat) : h.word (n : Int) = n % 2 ^ h.wordBits :=
  pattern_natCast _ _

theorem word_integer (h : Host) (x : Int) : h.word (h.integer x) = h.word x := by
  unfold Host.word Host.integer
  rw [pattern_signed, Nat.mod_eq_of_lt (pattern_lt _ _)]

theorem word_mod32 (h : Host) (hW : 32 ≤ h.wordBits) (x : Int) :
    h.word x % 2 ^ 32 = pattern 32 x :=
  pattern_pattern _ _ _ hW

theorem pattern32_integer (h : Host) (hW : 32 ≤ h.wordBits) (x : Int) :
    pattern 32 (h.integer x) = pattern 32 x := by
  rw [← word_mod32 h hW, word_integer, word_mod32 h hW]

theorem pattern32_int_32 (x : Int) : pattern 32 (int_32 x) = pattern 32 x := by
  unfold int_32
  rw [pattern_signed, Nat.mod_eq_of_lt (pattern_lt _ _)]

theorem pattern32_natCast (n : Nat) : pattern 32 (n : Int) = n % 2 ^ 32 :=
  pattern_natCast _ _

theorem pattern32_word_xor (h : Host) (hW : 32 ≤ h.wordBits) (x y : Int) :
    pattern 32 ((word_xor h x y : Nat) : Int) = pattern 32 x ^^^ pattern 32 y := by
  rw [pattern32_natCast, word_xor, xor_mod_two_pow, word_mod32 h hW, word_mod32 h hW]

theorem of_value_state (q0 q1 : Int) :
    poly_t.of_value (state_value q0 q1) = POLY_FORM q0 q1 := by
  have h0 : state_value q0 q1 % 2 ^ 32 = pattern 32 q0 := by
    apply Nat.eq_of_testBit_eq
    intro i
    simp only [state_value, Nat.testBit_mod_two_pow, Nat.testBit_or, Nat.testBit_shiftLeft]
    by_cases hi : i < 32
    · have : ¬ 32 ≤ i := by omega
      simp [hi, this]
    · simp [hi, testBit_eq_false_of_lt (pattern_lt 32 q0) (by omega : 32 ≤ i)]
  have h1 : (state_value q0 q1 >>> 32) % 2 ^ 32 = pattern 32 q1 := by
    apply Nat.eq_of_testBit_eq
    intro i
    simp only [state_value, Nat.testBit_mod_two_pow, Nat.testBit_or, Nat.testBit_shiftLeft,
      Nat.testBit_shiftRight]
    by_cases hi : i < 32
    · simp [hi, testBit_eq_false_of_lt (pattern_lt 32 q0) (by omega : 32 ≤ 32 + i)]
    · simp [hi, testBit_eq_false_of_lt (pattern_lt 32 q1) (by omega : 32 ≤ i)]
  simp only [poly_t.of_value, POLY_FORM, int_32, h0, h1]

theorem state_value_lt (q0 q1 : Int) : state_value q0 q1 < 2 ^ 64 := by
  apply Nat.lt_pow_two_of_testBit
  intro i hi
  simp only [state_value, Nat.testBit_or, Nat.testBit_shiftLeft]
  simp [testBit_eq_false_of_lt (pattern_lt 32 q0) (by omega : 32 ≤ i),
    testBit_eq_false_of_lt (pattern_lt 32 q1) (by omega : 32 ≤ i - 32)]

theorem fin4_val_two : ((2 : Fin 4) : Nat) = 2 := rfl
theorem fin4_val_three : ((3 : Fin 4) : Nat) = 3 := rfl

theorem le_loop_step (h : Host) (hW : 32 ≤ h.wordBits) (hL : h.isLittle) (fuel : Nat)
    (p0 p1 : Int) (m0 m1 m2 m3 : byte_t) (rest : List byte_t) (len : Int) (hlen : 0 < len) :
    ∃ q0 q1, poly_extend_words_le_loop h (fuel + 1) p0 p1 (m0 :: m1 :: m2 :: m3 :: rest) len =
        poly_extend_words_le_loop h fuel q0 q1 rest (len - 4) ∧
      state_value q0 q1 = reference_mod (state_value p0 p1) [m0, m1, m2, m3] := by
  obtain ⟨e0, e1, e2, e3⟩ := hL
  rw [poly_extend_words_le_loop]
  simp only [gt_iff_lt, hlen, if_true]
  refine ⟨_, _, rfl, ?_⟩
  · rw [reference_mod_four]
    simp only [state_value, pattern32_integer h hW, pattern32_word_xor h hW, POLY_HALF,
      int_bytes_t.of_w, int_bytes_t.w, sig_byte, pattern32_int_32, e0, e1, e2, e3,
      pattern32_natCast, Fin.val_zero, Fin.val_one, fin4_val_two, fin4_val_three,
      Nat.mul_zero, Nat.mul_one, Nat.shiftRight_zero]
    have hp : (m0.val <<< 0 ||| m1.val <<< 8 ||| m2.val <<< (8 * 2) ||| m3.val <<< (8 * 3)) % 2 ^ 32
        = pack m0 m1 m2 m3 := Nat.mod_eq_of_lt (pack_lt m0 m1 m2 m3)
    rw [hp]
    exact word_step_value (pattern 32 p0) (pattern 32 p1) (pack m0 m1 m2 m3)
      (pattern_lt _ _) (pattern_lt _ _)

theorem be_loop_step (h : Host) (hW : 32 ≤ h.wordBits) (hB : h.isBig) (fuel : Nat)
    (p0 p1 : Int) (m0 m1 m2 m3 : byte_t) (rest : List byte_t) (len : Int) (hlen : 0 < len) :
    ∃ q0 q1, poly_extend_words_be_loop h (fuel + 1) p0 p1 (m0 :: m1 :: m2 :: m3 :: rest) len =
        poly_extend_words_be_loop h fuel q0 q1 rest (len - 4) ∧
      state_value q0 q1 = reference_mod (state_value p0 p1) [m0, m1, m2, m3] := by
  obtain ⟨e0, e1, e2, e3⟩ := hB
  rw [poly_extend_words_be_loop]
  simp only [gt_iff_lt, hlen, if_true]
  refine ⟨_, _, rfl, ?_⟩
  · rw [reference_mod_four]
    simp only [state_value, pattern32_word_xor h hW, POLY_HALF,
      int_bytes_t.of_w, int_bytes_t.w, sig_byte, pattern32_int_32, e0, e1, e2, e3,
      pattern32_natCast, Fin.val_zero, Fin.val_one, fin4_val_two, fin4_val_three,
      Nat.mul_zero, Nat.mul_one, Nat.shiftRight_zero, Nat.reduceMul]
    have hX : (m0.val <<< 24 ||| m1.val <<< 16 ||| m2.val <<< 8 ||| m3.val <<< 0) % 2 ^ 32
        = pack m3 m2 m1 m0 := by
      rw [pack_be]
      exact Nat.mod_eq_of_lt (pack_lt _ _ _ _)
    rw [hX]
    have hY : (pack m3 m2 m1 m0).testBit 0 = (pack m3 m2 m1 m0).testBit 0 := rfl
    simp only [to_byte_pack0, to_byte_pack1, to_byte_pack2, to_byte_pack3]
    have hZ : (m3.val <<< 24 ||| m2.val <<< 16 ||| m1.val <<< 8 ||| m0.val <<< 0) % 2 ^ 32
        = pack m0 m1 m2 m3 := by
      rw [pack_be]
      exact Nat.mod_eq_of_lt (pack_lt _ _ _ _)
    rw [hZ]
    exact word_step_value (pattern 32 p0) (pattern 32 p1) (pack m0 m1 m2 m3)
      (pattern_lt _ _) (pattern_lt _ _)

theorem le_loop_ok (h : Host) (hW : 32 ≤ h.wordBits) (hL : h.isLittle) :
    ∀ (n fuel : Nat) (p0 p1 : Int) (ws rest : List byte_t), ws.length = 4 * n → n ≤ fuel →
      ∃ q0 q1, poly_extend_words_le_loop h fuel p0 p1 (ws ++ rest) (4 * (n : Int)) = .ok (q0, q1) ∧
        state_value q0 q1 = reference_mod (state_value p0 p1) ws := by
  intro n
  induction n with
  | zero =>
    intro fuel p0 p1 ws rest hws _
    have : ws = [] := List.length_eq_zero.mp (by omega)
    subst this
    refine ⟨p0, p1, ?_, rfl⟩
    cases fuel <;> simp [poly_extend_words_le_loop]
  | succ n ih =>
    intro fuel p0 p1 ws rest hws hfuel
    obtain ⟨fuel, rfl⟩ : ∃ f, fuel = f + 1 := ⟨fuel - 1, by omega⟩
    match ws, hws with
    | m0 :: m1 :: m2 :: m3 :: ws, hws =>
      have hlen : (0 : Int) < 4 * ((n + 1 : Nat) : Int) := by omega
      obtain ⟨q0, q1, hstep, hval⟩ :=
        le_loop_step h hW hL fuel p0 p1 m0 m1 m2 m3 (ws ++ rest) _ hlen
      have hl : ws.length = 4 * n := by simp only [List.length_cons] at hws; omega
      obtain ⟨r0, r1, hr, hrv⟩ := ih fuel q0 q1 ws rest hl (by omega)
      refine ⟨r0, r1, ?_, ?_⟩
      · simp only [List.cons_append]
        rw [hstep]
        have : 4 * ((n + 1 : Nat) : Int) - 4 = 4 * (n : Int) := by omega
        rw [this, hr]
      · rw [hrv, hval]
        exact (reference_mod_append _ [m0, m1, m2, m3] ws).symm

theorem be_loop_ok (h : Host) (hW : 32 ≤ h.wordBits) (hB : h.isBig) :
    ∀ (n fuel : Nat) (p0 p1 : Int) (ws rest : List byte_t), ws.length = 4 * n → n ≤ fuel →
      ∃ q0 q1, poly_extend_words_be_loop h fuel p0 p1 (ws ++ rest) (4 * (n : Int)) = .ok (q0, q1) ∧
        state_value q0 q1 = reference_mod (state_value p0 p1) ws := by
  intro n
  induction n with
  | zero =>
    intro fuel p0 p1 ws rest hws _
    have : ws = [] := List.length_eq_zero.mp (by omega)
    subst this
    refine ⟨p0, p1, ?_, rfl⟩
    cases fuel <;> simp [poly_extend_words_be_loop]
  | succ n ih =>
    intro fuel p0 p1 ws rest hws hfuel
    obtain ⟨fuel, rfl⟩ : ∃ f, fuel = f + 1 := ⟨fuel - 1, by omega⟩
    match ws, hws with
    | m0 :: m1 :: m2 :: m3 :: ws, hws =>
      have hlen : (0 : Int) < 4 * ((n + 1 : Nat) : Int) := by omega
      obtain ⟨q0, q1, hstep, hval⟩ :=
        be_loop_step h hW hB fuel p0 p1 m0 m1 m2 m3 (ws ++ rest) _ hlen
      have hl : ws.length = 4 * n := by simp only [List.length_cons] at hws; omega
      obtain ⟨r0, r1, hr, hrv⟩ := ih fuel q0 q1 ws rest hl (by omega)
      refine ⟨r0, r1, ?_, ?_⟩
      · simp only [List.cons_append]
        rw [hstep]
        have : 4 * ((n + 1 : Nat) : Int) - 4 = 4 * (n : Int) := by omega
        rw [this, hr]
      · rw [hrv, hval]
        exact (reference_mod_append _ [m0, m1, m2, m3] ws).symm

theorem value_eq_state (p : poly_t) : p.value = state_value p.array0 p.array1 := rfl

theorem words_le_ok (h : Host) (hW : 32 ≤ h.wordBits) (hL : h.isLittle) (p : poly_t)
    (ws rest : List byte_t) (n : Nat) (hws : ws.length = 4 * n) :
    poly_extend_words_le h p (ws ++ rest) (4 * (n : Int)) =
      .ok (poly_t.of_value (reference_mod p.value ws)) := by
  unfold poly_extend_words_le
  obtain ⟨q0, q1, hq, hv⟩ := le_loop_ok h hW hL n (4 * (n : Int)).toNat
    (h.integer (POLY_HALF p 0)) (h.integer (POLY_HALF p 1)) ws rest hws (by omega)
  simp only [hq, Except.map]
  rw [← of_value_state, hv]
  simp only [state_value, pattern32_integer h hW, POLY_HALF, poly_t.value]

theorem words_be_ok (h : Host) (hW : 32 ≤ h.wordBits) (hB : h.isBig) (p : poly_t)
    (ws rest : List byte_t) (n : Nat) (hws : ws.length = 4 * n) :
    poly_extend_words_be h p (ws ++ rest) (4 * (n : Int)) =
      .ok (poly_t.of_value (reference_mod p.value ws)) := by
  unfold poly_extend_words_be
  obtain ⟨q0, q1, hq, hv⟩ := be_loop_ok h hW hB n (4 * (n : Int)).toNat
    (int_32 (POLY_HALF p 0)) (int_32 (POLY_HALF p 1)) ws rest hws (by omega)
  simp only [hq, Except.map]
  rw [← of_value_state, hv]
  simp only [state_value, pattern32_int_32, POLY_HALF, poly_t.value]

theorem shifted_state (lo hi n x : Nat) (hlo : lo < 2 ^ 32)
    (hn : n + x = 32) :
    ((lo <<< x) % 2 ^ 32) ||| ((((lo >>> n) % 2 ^ 32) ^^^ ((hi <<< x) % 2 ^ 32)) <<< 32) =
      ((lo ||| hi <<< 32) ^^^ ((hi >>> n) <<< (n + 32))) <<< (x + 0) := by
  apply Nat.eq_of_testBit_eq
  intro i
  simp only [Nat.testBit_or, Nat.testBit_xor, Nat.testBit_shiftLeft, Nat.testBit_shiftRight,
    Nat.testBit_mod_two_pow, Nat.add_zero]
  by_cases h1 : i < x
  · have a1 : ¬ x ≤ i := by omega
    have a2 : ¬ 32 ≤ i := by omega
    simp [a1, a2]
  · by_cases h2 : i < 32
    · have a1 : x ≤ i := by omega
      have a2 : ¬ 32 ≤ i := by omega
      have a3 : ¬ 32 ≤ i - x := by omega
      have a4 : ¬ n + 32 ≤ i - x := by omega
      simp [a1, a2, a3, a4, h2]
    · by_cases h3 : i < 32 + x
      · have a1 : x ≤ i := by omega
        have a2 : 32 ≤ i := by omega
        have a3 : ¬ 32 ≤ i - x := by omega
        have a4 : ¬ n + 32 ≤ i - x := by omega
        have a5 : i - 32 < 32 := by omega
        have a6 : ¬ x ≤ i - 32 := by omega
        have a7 : n + (i - 32) = i - x := by omega
        simp [a1, a2, a3, a4, a5, a6, a7, h2]
      · by_cases h4 : i < 64
        · have a1 : x ≤ i := by omega
          have a2 : 32 ≤ i := by omega
          have a3 : 32 ≤ i - x := by omega
          have a4 : ¬ n + 32 ≤ i - x := by omega
          have a5 : i - 32 < 32 := by omega
          have a6 : x ≤ i - 32 := by omega
          have a7 : i - 32 - x = i - x - 32 := by omega
          have a8 := testBit_eq_false_of_lt hlo (by omega : 32 ≤ n + (i - 32))
          have a9 := testBit_eq_false_of_lt hlo a3
          simp [a1, a2, a3, a4, a5, a6, a7, a8, a9, h2]
        · have a1 : x ≤ i := by omega
          have a2 : 32 ≤ i := by omega
          have a3 : 32 ≤ i - x := by omega
          have a4 : n + 32 ≤ i - x := by omega
          have a5 : ¬ i - 32 < 32 := by omega
          have a9 := testBit_eq_false_of_lt hlo a3
          have a10 : n + (i - x - (n + 32)) = i - x - 32 := by omega
          simp [a1, a2, a3, a4, a5, a9, a10, h2]

theorem times_x_pow_shifted (lo hi n x : Nat) (hlo : lo < 2 ^ 32)
    (hn : n + x = 32) :
    times_x_pow 32
        (((lo <<< x) % 2 ^ 32) ||| ((((lo >>> n) % 2 ^ 32) ^^^ ((hi <<< x) % 2 ^ 32)) <<< 32)) =
      times_x_pow n (lo ||| hi <<< 32) ^^^ ((hi >>> n) <<< 32) := by
  rw [shifted_state lo hi n x hlo hn]
  have e : ∀ y, times_x_pow 32 y = times_x_pow n (times_x_pow x y) := by
    intro y
    have := times_x_pow_add x n y
    rwa [show x + n = 32 by omega] at this
  rw [e, times_x_pow_shiftLeft, Nat.shiftLeft_zero, times_x_pow_xor, times_x_pow_shiftLeft]

theorem to_byte_val (y : Nat) : (to_byte y).val = y % 2 ^ 8 := rfl

theorem pack_tmp_one (H : Nat) (hH : H < 2 ^ 24) (c0 : byte_t) :
    pack (to_byte H) (to_byte (H >>> 8)) (to_byte (H >>> 16)) c0 = H ^^^ (c0.val <<< 24) := by
  apply Nat.eq_of_testBit_eq
  intro i
  simp only [pack_testBit, to_byte_val, Nat.testBit_xor, Nat.testBit_shiftLeft,
    Nat.testBit_shiftRight, Nat.testBit_mod_two_pow]
  by_cases h8 : i < 8
  · have a1 : ¬ 24 ≤ i := by omega
    simp [h8, a1]
  · by_cases h16 : i < 16
    · have a1 : ¬ 24 ≤ i := by omega
      have a2 : i - 8 < 8 := by omega
      have a3 : 8 + (i - 8) = i := by omega
      simp [h8, h16, a1, a2, a3]
    · by_cases h24 : i < 24
      · have a1 : ¬ 24 ≤ i := by omega
        have a2 : i - 16 < 8 := by omega
        have a3 : 16 + (i - 16) = i := by omega
        simp [h8, h16, h24, a1, a2, a3]
      · have a1 : 24 ≤ i := by omega
        simp [h8, h16, h24, a1, testBit_eq_false_of_lt hH a1]

theorem pack_tmp_two (H : Nat) (hH : H < 2 ^ 16) (c0 c1 : byte_t) :
    pack (to_byte H) (to_byte (H >>> 8)) c0 c1 = H ^^^ (c0.val <<< 16 ^^^ c1.val <<< 24) := by
  apply Nat.eq_of_testBit_eq
  intro i
  simp only [pack_testBit, to_byte_val, Nat.testBit_xor, Nat.testBit_shiftLeft,
    Nat.testBit_shiftRight, Nat.testBit_mod_two_pow]
  by_cases h8 : i < 8
  · have a1 : ¬ 24 ≤ i := by omega
    have a2 : ¬ 16 ≤ i := by omega
    simp [h8, a1, a2]
  · by_cases h16 : i < 16
    · have a1 : ¬ 24 ≤ i := by omega
      have a2 : i - 8 < 8 := by omega
      have a3 : 8 + (i - 8) = i := by omega
      have a4 : ¬ 16 ≤ i := by omega
      simp [h8, h16, a1, a2, a3, a4]
    · by_cases h24 : i < 24
      · have a1 : ¬ 24 ≤ i := by omega
        have a4 : 16 ≤ i := by omega
        simp [h8, h16, h24, a1, a4, testBit_eq_false_of_lt hH a4]
      · have a1 : 24 ≤ i := by omega
        have a4 : 16 ≤ i := by omega
        simp [h8, h16, h24, a1, a4, testBit_eq_false_of_lt hH a4,
          byte_testBit c0 (by omega : 8 ≤ i - 16)]

theorem pack_tmp_three (H : Nat) (hH : H < 2 ^ 8) (c0 c1 c2 : byte_t) :
    pack (to_byte H) c0 c1 c2 =
      H ^^^ (c0.val <<< 8 ^^^ (c1.val <<< 16 ^^^ c2.val <<< 24)) := by
  apply Nat.eq_of_testBit_eq
  intro i
  simp only [pack_testBit, to_byte_val, Nat.testBit_xor, Nat.testBit_shiftLeft,
    Nat.testBit_shiftRight, Nat.testBit_mod_two_pow]
  by_cases h8 : i < 8
  · have a1 : ¬ 24 ≤ i := by omega
    have a2 : ¬ 16 ≤ i := by omega
    have a3 : ¬ 8 ≤ i := by omega
    simp [h8, a1, a2, a3]
  · by_cases h16 : i < 16
    · have a1 : ¬ 24 ≤ i := by omega
      have a3 : 8 ≤ i := by omega
      have a4 : ¬ 16 ≤ i := by omega
      simp [h8, h16, a1, a3, a4, testBit_eq_false_of_lt hH a3]
    · by_cases h24 : i < 24
      · have a1 : ¬ 24 ≤ i := by omega
        have a3 : 8 ≤ i := by omega
        have a4 : 16 ≤ i := by omega
        simp [h8, h16, h24, a1, a3, a4, testBit_eq_false_of_lt hH a3,
          byte_testBit c0 (by omega : 8 ≤ i - 8)]
      · have a1 : 24 ≤ i := by omega
        have a3 : 8 ≤ i := by omega
        have a4 : 16 ≤ i := by omega
        simp [h8, h16, h24, a1, a3, a4, testBit_eq_false_of_lt hH a3,
          byte_testBit c0 (by omega : 8 ≤ i - 8), byte_testBit c1 (by omega : 8 ≤ i - 16)]

theorem shiftRight_lt (hi n x : Nat) (hhi : hi < 2 ^ 32) (hn : n + x = 32) :
    hi >>> n < 2 ^ x := by
  rw [Nat.shiftRight_eq_div_pow]
  apply Nat.div_lt_of_lt_mul
  rw [← pow_add, hn]
  exact hhi

theorem xor_cancel_left (a b : Nat) : a ^^^ (a ^^^ b) = b := by
  rw [← Nat.xor_assoc, Nat.xor_self, Nat.zero_xor]

theorem shiftLeft_add_32 (c k : Nat) : (c <<< k) <<< 32 = c <<< (k + 32) := by
  rw [← Nat.shiftLeft_add]

/-- Nat-level content of `poly_extend_bytes` for one byte. -/
theorem extend_one_value (lo hi : Nat) (hlo : lo < 2 ^ 32) (hhi : hi < 2 ^ 32) (c0 : byte_t) :
    times_x_pow 32
        (((lo <<< 24) % 2 ^ 32) ||| ((((lo >>> 8) % 2 ^ 32) ^^^ ((hi <<< 24) % 2 ^ 32)) <<< 32))
      ^^^ (pack (to_byte (hi >>> 8)) (to_byte ((hi >>> 8) >>> 8)) (to_byte ((hi >>> 8) >>> 16)) c0
            <<< 32) =
    reference_mod (lo ||| hi <<< 32) [c0] := by
  rw [times_x_pow_shifted lo hi 8 24 hlo rfl, reference_mod_one,
    pack_tmp_one _ (shiftRight_lt hi 8 24 hhi rfl), shiftLeft_xor, Nat.xor_assoc,
    xor_cancel_left, shiftLeft_add_32]

theorem extend_two_value (lo hi : Nat) (hlo : lo < 2 ^ 32) (hhi : hi < 2 ^ 32)
    (c0 c1 : byte_t) :
    times_x_pow 32
        (((lo <<< 16) % 2 ^ 32) ||| ((((lo >>> 16) % 2 ^ 32) ^^^ ((hi <<< 16) % 2 ^ 32)) <<< 32))
      ^^^ (pack (to_byte (hi >>> 16)) (to_byte ((hi >>> 16) >>> 8)) c0 c1 <<< 32) =
    reference_mod (lo ||| hi <<< 32) [c0, c1] := by
  rw [times_x_pow_shifted lo hi 16 16 hlo rfl, reference_mod_two,
    pack_tmp_two _ (shiftRight_lt hi 16 16 hhi rfl), shiftLeft_xor, Nat.xor_assoc,
    xor_cancel_left, shiftLeft_xor, shiftLeft_add_32, shiftLeft_add_32]

theorem extend_three_value (lo hi : Nat) (hlo : lo < 2 ^ 32) (hhi : hi < 2 ^ 32)
    (c0 c1 c2 : byte_t) :
    times_x_pow 32
        (((lo <<< 8) % 2 ^ 32) ||| ((((lo >>> 24) % 2 ^ 32) ^^^ ((hi <<< 8) % 2 ^ 32)) <<< 32))
      ^^^ (pack (to_byte (hi >>> 24)) c0 c1 c2 <<< 32) =
    reference_mod (lo ||| hi <<< 32) [c0, c1, c2] := by
  rw [times_x_pow_shifted lo hi 24 8 hlo rfl, reference_mod_three,
    pack_tmp_three _ (shiftRight_lt hi 24 8 hhi rfl), shiftLeft_xor, Nat.xor_assoc,
    xor_cancel_left, shiftLeft_xor, shiftLeft_xor, shiftLeft_add_32, shiftLeft_add_32,
    shiftLeft_add_32]

theorem signed_pattern (n : Nat) (x : Int) (hn : 0 < n)
    (h1 : -((2 ^ (n - 1) : Nat) : Int) ≤ x) (h2 : x < ((2 ^ (n - 1) : Nat) : Int)) :
    signed n (pattern n x) = x := by
  have hp : (2 ^ n : Nat) = 2 * 2 ^ (n - 1) := by
    obtain ⟨k, rfl⟩ : ∃ k, n = k + 1 := ⟨n - 1, by omega⟩
    simp [pow_succ, Nat.mul_comm]
  unfold signed
  rw [Nat.mod_eq_of_lt (pattern_lt n x)]
  unfold pattern
  rw [hp]
  generalize 2 ^ (n - 1) = M at h1 h2
  by_cases hx : 0 ≤ x
  · have e : x % ((2 * M : Nat) : Int) = x := Int.emod_eq_of_lt hx (by omega)
    rw [e]
    have : x.toNat < M := by omega
    simp only [this, if_true]
    omega
  · have e : x % ((2 * M : Nat) : Int) = x + ((2 * M : Nat) : Int) := by
      rw [← Int.add_emod_self]
      exact Int.emod_eq_of_lt (by omega) (by omega)
    rw [e]
    have : ¬ (x + ((2 * M : Nat) : Int)).toNat < M := by omega
    simp only [this, if_false]
    omega

theorem pow31_le (h : Host) (hW : 32 ≤ h.wordBits) : 2 ^ 31 ≤ 2 ^ (h.wordBits - 1) :=
  Nat.pow_le_pow_right (by decide) (by omega)

theorem integer_of_small (h : Host) (hW : 32 ≤ h.wordBits) (v : Int)
    (h0 : -2147483648 ≤ v) (h1 : v < 2147483648) : h.integer v = v := by
  unfold Host.integer
  have := pow31_le h hW
  apply signed_pattern _ _ (by omega)
  · have : ((2 ^ 31 : Nat) : Int) ≤ ((2 ^ (h.wordBits - 1) : Nat) : Int) := by exact_mod_cast this
    norm_num at this ⊢
    omega
  · have : ((2 ^ 31 : Nat) : Int) ≤ ((2 ^ (h.wordBits - 1) : Nat) : Int) := by exact_mod_cast this
    norm_num at this ⊢
    omega

theorem int_32_of_small (v : Int) (h0 : -2147483648 ≤ v) (h1 : v < 2147483648) :
    int_32 v = v := by
  unfold int_32
  apply signed_pattern _ _ (by decide)
  · norm_num; omega
  · norm_num; omega

theorem word_of_small (h : Host) (hW : 32 ≤ h.wordBits) (n : Nat) (hn : n < 2 ^ 32) :
    h.word (n : Int) = n := by
  rw [word_natCast]
  exact Nat.mod_eq_of_lt (lt_of_lt_of_le hn (Nat.pow_le_pow_right (by decide) hW))

theorem mod_mod_32 (h : Host) (hW : 32 ≤ h.wordBits) (a : Nat) :
    a % 2 ^ h.wordBits % 2 ^ 32 = a % 2 ^ 32 :=
  Nat.mod_mod_of_dvd a (pow_dvd_pow 2 hW)

theorem word_and_sig (h : Host) (hW : 32 ≤ h.wordBits) (x : Int) :
    word_and h x POLY_SIG_BITS = pattern 32 x := by
  unfold word_and POLY_SIG_BITS
  have : h.word 0xffffffff = 2 ^ 32 - 1 := word_of_small h hW 0xffffffff (by decide)
  rw [this, Nat.and_pow_two_sub_one_eq_mod, word_mod32 h hW]

theorem word_extract_eight (h : Host) (hW : 32 ≤ h.wordBits) (x i : Int) :
    word_extract h x i 8 = (h.word x >>> i.toNat) % 2 ^ 8 := by
  unfold word_extract
  have hm : 2 ^ h.wordBits - 1 - (h.word (-1) <<< (8 : Int).toNat) % 2 ^ h.wordBits = 2 ^ 8 - 1 := by
    apply Nat.eq_of_testBit_eq
    intro j
    have hlt : (h.word (-1) <<< (8 : Int).toNat) % 2 ^ h.wordBits < 2 ^ h.wordBits :=
      Nat.mod_lt _ (by positivity)
    have e : 2 ^ h.wordBits - 1 - (h.word (-1) <<< (8 : Int).toNat) % 2 ^ h.wordBits =
        2 ^ h.wordBits - ((h.word (-1) <<< (8 : Int).toNat) % 2 ^ h.wordBits + 1) := by omega
    rw [e, Nat.testBit_two_pow_sub_succ hlt]
    have hw : h.word (-1) = 2 ^ h.wordBits - 1 := by
      have h1 : (1 : Int) ≤ ((2 ^ h.wordBits : Nat) : Int) := by
        exact_mod_cast Nat.one_le_two_pow
      unfold Host.word pattern
      have : (-1 : Int) % ((2 ^ h.wordBits : Nat) : Int) = ((2 ^ h.wordBits : Nat) : Int) - 1 := by
        rw [← Int.add_emod_self]
        exact Int.emod_eq_of_lt (by omega) (by omega)
      rw [this]
      omega
    rw [hw]
    simp only [Nat.testBit_mod_two_pow, Nat.testBit_shiftLeft, Nat.testBit_two_pow_sub_one]
    have e8 : (8 : Int).toNat = 8 := rfl
    rw [e8]
    by_cases hj : j < 8
    · have a1 : ¬ 8 ≤ j := by omega
      have a2 : j < h.wordBits := by omega
      simp [hj, a1, a2]
    · have a1 : 8 ≤ j := by omega
      by_cases hjw : j < h.wordBits
      · have a2 : j - 8 < h.wordBits := by omega
        simp [hj, a1, a2, hjw]
      · simp [hj, hjw]
  rw [hm, Nat.and_pow_two_sub_one_eq_mod]

theorem or_mod_two_pow (a b n : Nat) : (a ||| b) % 2 ^ n = a % 2 ^ n ||| b % 2 ^ n := by
  apply Nat.eq_of_testBit_eq
  intro i
  simp only [Nat.testBit_mod_two_pow, Nat.testBit_or]
  cases decide (i < n) <;> simp

theorem word_neg_one (h : Host) : h.word (-1) = 2 ^ h.wordBits - 1 := by
  have h1 : (1 : Int) ≤ ((2 ^ h.wordBits : Nat) : Int) := by
    exact_mod_cast Nat.one_le_two_pow
  unfold Host.word pattern
  have : (-1 : Int) % ((2 ^ h.wordBits : Nat) : Int) = ((2 ^ h.wordBits : Nat) : Int) - 1 := by
    rw [← Int.add_emod_self]
    exact Int.emod_eq_of_lt (by omega) (by omega)
  rw [this]
  omega

theorem word_zero (h : Host) : h.word 0 = 0 := by
  simp [Host.word, pattern]

theorem and_two_pow_31 (a : Nat) (ha : a &&& 2 ^ 31 ≠ 0) : a.testBit 31 = true := by
  by_contra hc
  apply ha
  apply Nat.eq_of_testBit_eq
  intro i
  simp only [Nat.testBit_and, Nat.testBit_two_pow, Nat.zero_testBit]
  by_cases hi : 31 = i
  · subst hi; simp [hc]
  · simp [hi]

theorem poly_fix_32_pattern (h : Host) (hW : 32 ≤ h.wordBits) (m : Nat) :
    pattern 32 (poly_fix_32 h m) = m % 2 ^ 32 := by
  unfold poly_fix_32
  split
  · rw [pattern32_int_32, pattern32_natCast]
  · rename_i hne
    simp only
    split
    · rw [pattern32_int_32, pattern32_natCast, word_and_sig h hW, pattern32_natCast,
        Nat.mod_mod]
    · rename_i hbit
      have hs : h.word (h.integer 0x80000000) = 2 ^ 31 := by
        rw [word_integer]
        exact word_of_small h hW (2 ^ 31) (by decide)
      have hb : m.testBit 31 = true := by
        unfold word_and at hbit
        rw [hs, word_natCast] at hbit
        have := and_two_pow_31 _ hbit
        rw [Nat.testBit_mod_two_pow] at this
        simp at this
        exact this.2
      rw [pattern32_int_32, pattern32_natCast, word_or, or_mod_two_pow, word_mod32 h hW,
        word_mod32 h hW, pattern32_integer h hW, pattern32_natCast, pattern32_natCast,
        word_and_sig h hW, pattern32_natCast, Nat.mod_mod, word_left_shift, mod_mod_32 h hW,
        word_not, word_zero, Nat.sub_zero, word_natCast,
        Nat.mod_eq_of_lt (Nat.sub_lt (by positivity) (by decide) : 2 ^ h.wordBits - 1 < 2 ^ h.wordBits)]
      apply Nat.eq_of_testBit_eq
      intro i
      have e31 : (31 : Int).toNat = 31 := rfl
      simp only [e31, Nat.testBit_or, Nat.testBit_mod_two_pow, Nat.testBit_shiftLeft,
        Nat.testBit_two_pow_sub_one]
      by_cases hi : i < 32
      · by_cases h31 : 31 ≤ i
        · have : i = 31 := by omega
          subst this
          simp [hb]
        · simp [hi, h31]
      · simp [hi]

theorem words_four (h : Host) (hs : h.supported) (g : Globals)
    (hg : g.poly_little_endian ≠ 0 ↔ h.isLittle) (p : poly_t) (a b c d : byte_t) :
    (if g.poly_little_endian ≠ 0 then poly_extend_words_le h p [a, b, c, d] 4
      else poly_extend_words_be h p [a, b, c, d] 4) =
      .ok (poly_t.of_value (reference_mod p.value [a, b, c, d])) := by
  obtain ⟨hW, hLB⟩ := hs
  by_cases hl : g.poly_little_endian ≠ 0
  · rw [if_pos hl]
    exact words_le_ok h hW (hg.mp hl) p [a, b, c, d] [] 1 rfl
  · rw [if_neg hl]
    have hB : h.isBig := by
      rcases hLB with hL | hB
      · exact absurd (hg.mpr hL) hl
      · exact hB
    exact words_be_ok h hW hB p [a, b, c, d] [] 1 rfl

theorem words_any (h : Host) (hs : h.supported) (g : Globals)
    (hg : g.poly_little_endian ≠ 0 ↔ h.isLittle) (p : poly_t) (ws rest : List byte_t)
    (n : Nat) (hws : ws.length = 4 * n) :
    (if g.poly_little_endian ≠ 0 then poly_extend_words_le h p (ws ++ rest) (4 * (n : Int))
      else poly_extend_words_be h p (ws ++ rest) (4 * (n : Int))) =
      .ok (poly_t.of_value (reference_mod p.value ws)) := by
  obtain ⟨hW, hLB⟩ := hs
  by_cases hl : g.poly_little_endian ≠ 0
  · rw [if_pos hl]
    exact words_le_ok h hW (hg.mp hl) p ws rest n hws
  · rw [if_neg hl]
    have hB : h.isBig := by
      rcases hLB with hL | hB
      · exact absurd (hg.mpr hL) hl
      · exact hB
    exact words_be_ok h hW hB p ws rest n hws

theorem word_pattern32 (h : Host) (hW : 32 ≤ h.wordBits) (a : Int) :
    h.word ((pattern 32 a : Nat) : Int) = pattern 32 a :=
  word_of_small h hW _ (pattern_lt 32 a)

theorem word_half (h : Host) (hW : 32 ≤ h.wordBits) (a : Int) :
    h.word (h.integer ((word_and h a POLY_SIG_BITS : Nat) : Int)) = pattern 32 a := by
  rw [word_integer, word_and_sig h hW, word_pattern32 h hW]

theorem word_shr (h : Host) (hW : 32 ≤ h.wordBits) (a : Int) (k : Nat) :
    h.word ((pattern 32 a >>> k : Nat) : Int) = pattern 32 a >>> k := by
  apply word_of_small h hW
  rw [Nat.shiftRight_eq_div_pow]
  exact lt_of_le_of_lt (Nat.div_le_self _ _) (pattern_lt 32 a)

theorem word_xor_mod32 (h : Host) (hW : 32 ≤ h.wordBits) (x y : Int) :
    word_xor h x y % 2 ^ 32 = pattern 32 x ^^^ pattern 32 y := by
  rw [word_xor, xor_mod_two_pow, word_mod32 h hW, word_mod32 h hW]

theorem shr_mod_word (h : Host) (hW : 32 ≤ h.wordBits) (a : Int) (k : Nat) :
    (pattern 32 a >>> k) % 2 ^ h.wordBits = pattern 32 a >>> k := by
  have := word_shr h hW a k
  rwa [word_natCast] at this

theorem to_byte_mod (y : Nat) : to_byte (y % 2 ^ 8) = to_byte y := by
  apply Fin.ext
  show y % 2 ^ 8 % 256 = y % 256
  exact Nat.mod_mod _ _

theorem value_of_value (v : Nat) (hv : v < 2 ^ 64) : (poly_t.of_value v).value = v := by
  simp only [poly_t.value, poly_t.of_value, pattern_signed, Nat.mod_mod]
  apply Nat.eq_of_testBit_eq
  intro i
  simp only [Nat.testBit_or, Nat.testBit_shiftLeft, Nat.testBit_shiftRight,
    Nat.testBit_mod_two_pow]
  by_cases hi : i < 32
  · have : ¬ 32 ≤ i := by omega
    simp [hi, this]
  · by_cases h64 : i < 64
    · have a1 : 32 ≤ i := by omega
      have a2 : i - 32 < 32 := by omega
      have a3 : 32 + (i - 32) = i := by omega
      simp [hi, a1, a2, a3]
    · have a1 : 32 ≤ i := by omega
      have a2 : ¬ i - 32 < 32 := by omega
      simp [hi, a1, a2, testBit_eq_false_of_lt hv (by omega : 64 ≤ i)]

theorem extend_bytes_one (h : Host) (hs : h.supported) (g : Globals)
    (hg : g.poly_little_endian ≠ 0 ↔ h.isLittle) (t : poly_t) (c0 : byte_t)
    (rest : List byte_t) :
    poly_extend_bytes h g t (c0 :: rest) 1 =
      .ok (poly_t.of_value (reference_mod t.value [c0])) := by
  have hW := hs.1
  have hn : h.integer (8 * 1) = 8 := integer_of_small h hW _ (by decide) (by decide)
  have hx : h.integer (32 - 8) = 24 := integer_of_small h hW _ (by decide) (by decide)
  have e0 : (0 : Int).toNat = 0 := rfl
  have e8 : (8 : Int).toNat = 8 := rfl
  have e16 : (16 : Int).toNat = 16 := rfl
  have e24 : (24 : Int).toNat = 24 := rfl
  unfold poly_extend_bytes
  simp only [hn, hx, poly_extend_bytes_tmp, read_byte, List.get?, if_true, bind, Except.bind,
    pure, Except.pure, words_four h hs g hg]
  rw [reference_mod_four]
  congr 2
  simp only [poly_t.value, poly_fix_32_pattern h hW, word_integer, word_natCast,
    word_left_shift, word_right_shift, word_half h hW, mod_mod_32 h hW, Nat.mod_mod,
    word_mod32 h hW, pattern32_word_xor h hW, pattern32_integer h hW, pattern32_natCast,
    word_extract_eight h hW, POLY_HALF, e0, e8, e16, e24, to_byte_mod, Nat.shiftRight_zero,
    word_xor_mod32 h hW, shr_mod_word h hW]
  exact extend_one_value _ _ (pattern_lt _ _) (pattern_lt _ _) c0

theorem extend_bytes_two (h : Host) (hs : h.supported) (g : Globals)
    (hg : g.poly_little_endian ≠ 0 ↔ h.isLittle) (t : poly_t) (c0 c1 : byte_t)
    (rest : List byte_t) :
    poly_extend_bytes h g t (c0 :: c1 :: rest) 2 =
      .ok (poly_t.of_value (reference_mod t.value [c0, c1])) := by
  have hW := hs.1
  have hn : h.integer (8 * 2) = 16 := integer_of_small h hW _ (by decide) (by decide)
  have hx : h.integer (32 - 16) = 16 := integer_of_small h hW _ (by decide) (by decide)
  have e0 : (0 : Int).toNat = 0 := rfl
  have e8 : (8 : Int).toNat = 8 := rfl
  have e16 : (16 : Int).toNat = 16 := rfl
  have e24 : (24 : Int).toNat = 24 := rfl
  have n21 : ¬ ((2 : Int) = 1) := by decide
  unfold poly_extend_bytes
  simp only [hn, hx, poly_extend_bytes_tmp, read_byte, List.get?, if_true, bind, Except.bind,
    pure, Except.pure, words_four h hs g hg, n21, if_false]
  rw [reference_mod_four]
  congr 2
  simp only [poly_t.value, poly_fix_32_pattern h hW, word_integer, word_natCast,
    word_left_shift, word_right_shift, word_half h hW, mod_mod_32 h hW, Nat.mod_mod,
    word_mod32 h hW, pattern32_word_xor h hW, pattern32_integer h hW, pattern32_natCast,
    word_extract_eight h hW, POLY_HALF, e0, e8, e16, e24, to_byte_mod, Nat.shiftRight_zero,
    word_xor_mod32 h hW, shr_mod_word h hW]
  exact extend_two_value _ _ (pattern_lt _ _) (pattern_lt _ _) c0 c1

theorem extend_bytes_three (h : Host) (hs : h.supported) (g : Globals)
    (hg : g.poly_little_endian ≠ 0 ↔ h.isLittle) (t : poly_t) (c0 c1 c2 : byte_t)
    (rest : List byte_t) :
    poly_extend_bytes h g t (c0 :: c1 :: c2 :: rest) 3 =
      .ok (poly_t.of_value (reference_mod t.value [c0, c1, c2])) := by
  have hW := hs.1
  have hn : h.integer (8 * 3) = 24 := integer_of_small h hW _ (by decide) (by decide)
  have hx : h.integer (32 - 24) = 8 := integer_of_small h hW _ (by decide) (by decide)
  have e0 : (0 : Int).toNat = 0 := rfl
  have e8 : (8 : Int).toNat = 8 := rfl
  have e16 : (16 : Int).toNat = 16 := rfl
  have e24 : (24 : Int).toNat = 24 := rfl
  have n31 : ¬ ((3 : Int) = 1) := by decide
  have n32 : ¬ ((3 : Int) = 2) := by decide
  unfold poly_extend_bytes
  simp only [hn, hx, poly_extend_bytes_tmp, read_byte, List.get?, if_true, bind, Except.bind,
    pure, Except.pure, words_four h hs g hg, n31, n32, if_false]
  rw [reference_mod_four]
  congr 2
  simp only [poly_t.value, poly_fix_32_pattern h hW, word_integer, word_natCast,
    word_left_shift, word_right_shift, word_half h hW, mod_mod_32 h hW, Nat.mod_mod,
    word_mod32 h hW, pattern32_word_xor h hW, pattern32_integer h hW, pattern32_natCast,
    word_extract_eight h hW, POLY_HALF, e0, e8, e16, e24, to_byte_mod, Nat.shiftRight_zero,
    word_xor_mod32 h hW, shr_mod_word h hW]
  exact extend_three_value _ _ (pattern_lt _ _) (pattern_lt _ _) c0 c1 c2

/-! probe -/

theorem little_not_big (h : Host) (hL : h.isLittle) : ¬ h.isBig := by
  intro hB
  have h1 := hL.1
  have h2 := hB.1
  rw [h1] at h2
  exact absurd h2 (by decide)

theorem find_byte_order_little (h : Host) (hW : 32 ≤ h.wordBits) (hL : h.isLittle)
    (g : Globals) :
    poly_find_byte_order h g = .ok { g with poly_little_endian := 1, poly_init_done := 1 } := by
  obtain ⟨e0, e1, e2, e3⟩ := hL
  have hw : h.word 0x12345678 = 0x12345678 := word_of_small h hW 0x12345678 (by decide)
  have hp : pattern 32 0x12345678 = 0x12345678 := by decide
  have t0 : (0 : Int).toNat = 0 := rfl
  have t8 : (8 : Int).toNat = 8 := rfl
  have t16 : (16 : Int).toNat = 16 := rfl
  have t24 : (24 : Int).toNat = 24 := rfl
  unfold poly_find_byte_order
  simp only [word_extract_eight h hW, hw, int_bytes_t.of_w, sig_byte, hp, e0, e1, e2, e3,
    t0, t8, t16, t24]
  rw [if_pos (by decide)]

theorem find_byte_order_big (h : Host) (hW : 32 ≤ h.wordBits) (hB : h.isBig)
    (g : Globals) :
    poly_find_byte_order h g = .ok { g with poly_big_endian := 1, poly_init_done := 1 } := by
  obtain ⟨e0, e1, e2, e3⟩ := hB
  have hw : h.word 0x12345678 = 0x12345678 := word_of_small h hW 0x12345678 (by decide)
  have hp : pattern 32 0x12345678 = 0x12345678 := by decide
  have t0 : (0 : Int).toNat = 0 := rfl
  have t8 : (8 : Int).toNat = 8 := rfl
  have t16 : (16 : Int).toNat = 16 := rfl
  have t24 : (24 : Int).toNat = 24 := rfl
  unfold poly_find_byte_order
  simp only [word_extract_eight h hW, hw, int_bytes_t.of_w, sig_byte, hp, e0, e1, e2, e3,
    t0, t8, t16, t24]
  rw [if_neg (by decide), if_pos (by decide)]

theorem probe_ok (h : Host) (hs : h.supported) (g : Globals) :
    (if g.poly_init_done = 0 then poly_find_byte_order h g else pure g) =
      .ok (g.probed h) := by
  unfold Globals.probed
  by_cases hd : g.poly_init_done = 0
  · rw [if_pos hd, if_pos hd]
    rcases hs.2 with hL | hB
    · rw [if_pos hL]
      exact find_byte_order_little h hs.1 hL g
    · rw [if_neg (fun hL => little_not_big h hL hB)]
      exact find_byte_order_big h hs.1 hB g
  · rw [if_neg hd, if_neg hd]
    rfl

theorem probed_flag (h : Host) (g : Globals) (hg : g.consistent h) :
    (g.probed h).poly_little_endian ≠ 0 ↔ h.isLittle := by
  unfold Globals.consistent at hg
  unfold Globals.probed
  by_cases hd : g.poly_init_done = 0
  · rw [if_pos hd]
    by_cases hL : h.isLittle
    · rw [if_pos hL]
      simp [hL]
    · rw [if_neg hL]
      simp only [hL, iff_false, not_not]
      by_contra hc
      exact (hg.mp hc).2 hd
  · rw [if_neg hd]
    constructor
    · intro hc; exact (hg.mp hc).1
    · intro hL; exact hg.mpr ⟨hL, hd⟩

theorem probed_consistent (h : Host) (g : Globals) (hg : g.consistent h) :
    (g.probed h).consistent h := by
  have hf := probed_flag h g hg
  unfold Globals.consistent
  rw [hf]
  constructor
  · intro hL
    refine ⟨hL, ?_⟩
    unfold Globals.probed
    by_cases hd : g.poly_init_done = 0
    · rw [if_pos hd, if_pos hL]; simp
    · rw [if_neg hd]; exact hd
  · intro hc; exact hc.1

theorem two_pow_pred (n : Nat) (hn : 0 < n) : 2 ^ n = 2 * 2 ^ (n - 1) := by
  obtain ⟨k, rfl⟩ : ∃ k, n = k + 1 := ⟨n - 1, by omega⟩
  simp [pow_succ, Nat.mul_comm]

theorem signed_range (n m : Nat) (hn : 0 < n) :
    -((2 ^ (n - 1) : Nat) : Int) ≤ signed n m ∧ signed n m < ((2 ^ (n - 1) : Nat) : Int) := by
  unfold signed
  have hlt : m % 2 ^ n < 2 ^ n := Nat.mod_lt _ (by positivity)
  rw [two_pow_pred n hn] at hlt ⊢
  generalize 2 ^ (n - 1) = M at hlt ⊢
  generalize m % (2 * M) = r at hlt ⊢
  split <;> constructor <;> omega

theorem mod_four_of_nonneg (h : Host) (hW : 32 ≤ h.wordBits) (x : Int) (h0 : 0 ≤ x)
    (h1 : x < 2147483648) : mod h x 4 = x % 4 := by
  unfold mod
  have hp : decide ((4 : Int) > 0) = true := by decide
  have hx : ¬ x < 0 := by omega
  have h4 : ¬ (4 : Int) < 0 := by decide
  simp only [hp, hx, h4, if_false, if_true]
  rw [Int.tmod_eq_emod h0 (by decide)]
  exact integer_of_small h hW _ (by omega) (by omega)

theorem mod_four_range (h : Host) (hW : 32 ≤ h.wordBits) (x : Int) :
    0 ≤ mod h (h.integer x) 4 ∧ mod h (h.integer x) 4 ≤ 3 := by
  have hr := signed_range h.wordBits (pattern h.wordBits x) (by omega)
  have hv : h.integer x = signed h.wordBits (pattern h.wordBits x) := rfl
  rw [← hv] at hr
  generalize h.integer x = v at hr
  have hM4 : ∃ q, 2 ^ (h.wordBits - 1) = 4 * q :=
    ⟨2 ^ (h.wordBits - 3), by
      have : h.wordBits - 1 = (h.wordBits - 3) + 2 := by omega
      rw [this, pow_add]; omega⟩
  obtain ⟨q, hq⟩ := hM4
  have hsmall : ∀ y : Int, 0 ≤ y → y < 4 → h.integer y = y :=
    fun y a b => integer_of_small h hW y (by omega) (by omega)
  unfold mod
  have hp : decide ((4 : Int) > 0) = true := by decide
  have h4 : ¬ (4 : Int) < 0 := by decide
  simp only [hp, h4, if_false, if_true]
  by_cases hx : v < 0
  · simp only [hx, if_true]
    by_cases hmin : v = -((2 ^ (h.wordBits - 1) : Nat) : Int)
    · have e : h.integer (-v) = -((4 * q : Nat) : Int) := by
        rw [hmin, neg_neg]
        unfold Host.integer
        rw [pattern_natCast, signed, Nat.mod_mod, two_pow_pred h.wordBits (by omega), hq]
        have : (4 * q) % (2 * (4 * q)) = 4 * q := Nat.mod_eq_of_lt (by omega)
        rw [this]
        have : ¬ 4 * q < 4 * q := by omega
        simp only [this, if_false]
        push_cast
        omega
      have : (-((4 * q : Nat) : Int)).tmod 4 = 0 := by
        push_cast
        exact Int.neg_mul_tmod_right 4 q
      rw [e, this, hsmall 0 (by decide) (by decide)]
      decide
    · have e : h.integer (-v) = -v := by
        unfold Host.integer
        apply signed_pattern _ _ (by omega)
        · omega
        · omega
      rw [e, Int.tmod_eq_emod (by omega) (by decide)]
      rw [hsmall _ (by omega) (by omega)]
      omega
  · simp only [hx, if_false]
    rw [Int.tmod_eq_emod (by omega) (by decide)]
    rw [hsmall _ (by omega) (by omega)]
    omega

theorem of_value_valid (v : Nat) : (poly_t.of_value v).valid := by
  unfold poly_t.valid poly_t.of_value int_32
  simp only [pattern_signed, Nat.mod_mod]
  exact ⟨trivial, trivial⟩

theorem of_value_of_valid (p : poly_t) (hp : p.valid) : poly_t.of_value p.value = p := by
  rw [value_eq_state, of_value_state]
  unfold POLY_FORM
  obtain ⟨h0, h1⟩ := hp
  rw [h0, h1]

theorem times_x_lt (s : Nat) (hs : s < 2 ^ 64) : times_x s < 2 ^ 64 := by
  unfold times_x
  apply Nat.xor_lt_two_pow
  · rw [Nat.shiftRight_eq_div_pow]
    exact lt_of_le_of_lt (Nat.div_le_self _ _) hs
  · split
    · decide
    · decide

theorem push_bit_lt (s : Nat) (c : Bool) (hs : s < 2 ^ 64) : push_bit s c < 2 ^ 64 := by
  unfold push_bit
  apply Nat.xor_lt_two_pow (times_x_lt s hs)
  cases c <;> decide

theorem push_byte_lt (s : Nat) (b : byte_t) (hs : s < 2 ^ 64) : push_byte s b < 2 ^ 64 := by
  unfold push_byte
  simp only [List.range, List.range.loop, List.foldl]
  repeat apply push_bit_lt
  exact hs

theorem reference_mod_lt (s : Nat) (bs : List byte_t) (hs : s < 2 ^ 64) :
    reference_mod s bs < 2 ^ 64 := by
  induction bs generalizing s with
  | nil => exact hs
  | cons b bs ih => exact ih _ (push_byte_lt s b hs)

theorem value_lt (p : poly_t) : p.value < 2 ^ 64 :=
  state_value_lt _ _

theorem value_reference (p : poly_t) (bs : List byte_t) :
    (poly_t.of_value (reference_mod p.value bs)).value = reference_mod p.value bs :=
  value_of_value _ (reference_mod_lt _ _ (value_lt p))

theorem ptr_add (a : Nat) (xs ys : List byte_t) (k : Int) (hk : k = xs.length) :
    Ptr.add ⟨a, xs ++ ys⟩ k = ⟨a + xs.length, ys⟩ := by
  subst hk
  simp [Ptr.add]

theorem align_ok (h : Host) (hs : h.supported) (g : Globals)
    (hg : g.poly_little_endian ≠ 0 ↔ h.isLittle) (r : poly_t) (hr : r.valid) (a : Nat)
    (s rest : List byte_t) (hlen : s.length < 2 ^ 31) :
    ∃ s1 s2 a1, s = s1 ++ s2 ∧
      poly_compute_mod_align h g r ⟨a, s ++ rest⟩ s.length =
        .ok (poly_t.of_value (reference_mod r.value s1), ⟨a1, s2 ++ rest⟩, (s2.length : Int)) := by
  have hW := hs.1
  unfold poly_compute_mod_align
  have hj := mod_four_range h hW (h.word a)
  simp only
  generalize mod h (h.integer (h.word a)) 4 = j at hj
  by_cases hc : (s.length : Int) ≥ 4 ∧ j ≠ 0
  · rw [if_pos hc]
    obtain ⟨hl, hj0⟩ := hc
    have hsm : ∀ y : Int, -2147483648 ≤ y → y < 2147483648 → h.integer y = y :=
      fun y a b => integer_of_small h hW y a b
    match s, hl, hlen with
    | c0 :: c1 :: c2 :: c3 :: s, hl, hlen =>
      simp only [List.length_cons] at hlen
      obtain rfl | rfl | rfl : j = 1 ∨ j = 2 ∨ j = 3 := by omega
      · refine ⟨[c0, c1, c2], c3 :: s, a + 3, rfl, ?_⟩
        have e1 : h.integer (4 - 1) = 3 := hsm _ (by decide) (by decide)
        have e2 : int_32 3 = 3 := by decide
        simp only [e1, e2, List.cons_append, bind, Except.bind, pure, Except.pure,
          extend_bytes_three h hs g hg]
        have e3 : h.integer (((c0 :: c1 :: c2 :: c3 :: s).length : Int) - 3) =
            ((c3 :: s).length : Int) := by
          rw [hsm _ (by simp only [List.length_cons]; omega)
            (by simp only [List.length_cons]; omega)]
          simp only [List.length_cons]; push_cast; omega
        rw [e3]
        have e4 := ptr_add a [c0, c1, c2] (c3 :: (s ++ rest)) 3 rfl
        simp only [List.cons_append, List.nil_append, List.length_cons, List.length_nil] at e4
        rw [e4]
      · refine ⟨[c0, c1], c2 :: c3 :: s, a + 2, rfl, ?_⟩
        have e1 : h.integer (4 - 2) = 2 := hsm _ (by decide) (by decide)
        have e2 : int_32 2 = 2 := by decide
        simp only [e1, e2, List.cons_append, bind, Except.bind, pure, Except.pure,
          extend_bytes_two h hs g hg]
        have e3 : h.integer (((c0 :: c1 :: c2 :: c3 :: s).length : Int) - 2) =
            ((c2 :: c3 :: s).length : Int) := by
          rw [hsm _ (by simp only [List.length_cons]; omega)
            (by simp only [List.length_cons]; omega)]
          simp only [List.length_cons]; push_cast; omega
        rw [e3]
        have e4 := ptr_add a [c0, c1] (c2 :: c3 :: (s ++ rest)) 2 rfl
        simp only [List.cons_append, List.nil_append, List.length_cons, List.length_nil] at e4
        rw [e4]
      · refine ⟨[c0], c1 :: c2 :: c3 :: s, a + 1, rfl, ?_⟩
        have e1 : h.integer (4 - 3) = 1 := hsm _ (by decide) (by decide)
        have e2 : int_32 1 = 1 := by decide
        simp only [e1, e2, List.cons_append, bind, Except.bind, pure, Except.pure,
          extend_bytes_one h hs g hg]
        have e3 : h.integer (((c0 :: c1 :: c2 :: c3 :: s).length : Int) - 1) =
            ((c1 :: c2 :: c3 :: s).length : Int) := by
          rw [hsm _ (by simp only [List.length_cons]; omega)
            (by simp only [List.length_cons]; omega)]
          simp only [List.length_cons]; push_cast; omega
        rw [e3]
        have e4 := ptr_add a [c0] (c1 :: c2 :: c3 :: (s ++ rest)) 1 rfl
        simp only [List.cons_append, List.nil_append, List.length_cons, List.length_nil] at e4
        rw [e4]
  · rw [if_neg hc]
    refine ⟨[], s, a, rfl, ?_⟩
    simp only [reference_mod, List.foldl, of_value_of_valid r hr]
    rfl

theorem bulk_ok (h : Host) (hs : h.supported) (g : Globals)
    (hg : g.poly_little_endian ≠ 0 ↔ h.isLittle) (r : poly_t) (hr : r.valid) (a : Nat)
    (s rest : List byte_t) (hlen : s.length < 2 ^ 31) :
    ∃ ws tl a1, s = ws ++ tl ∧ tl.length ≤ 3 ∧
      poly_compute_mod_bulk h g r ⟨a, s ++ rest⟩ s.length =
        .ok (poly_t.of_value (reference_mod r.value ws), ⟨a1, tl ++ rest⟩, (tl.length : Int)) := by
  have hW := hs.1
  unfold poly_compute_mod_bulk
  by_cases hc : (s.length : Int) ≥ 4
  · rw [if_pos hc]
    have hsm : ∀ y : Int, -2147483648 ≤ y → y < 2147483648 → h.integer y = y :=
      fun y a b => integer_of_small h hW y a b
    have hw : h.word (s.length : Int) = s.length := word_of_small h hW _ (by omega)
    have hm : mod h (h.integer ((h.word (s.length : Int) : Nat) : Int)) 4 =
        ((s.length % 4 : Nat) : Int) := by
      rw [hw, hsm _ (by omega) (by omega), mod_four_of_nonneg h hW _ (by omega) (by omega)]
      omega
    have hk : h.integer ((s.length : Int) - ((s.length % 4 : Nat) : Int)) =
        4 * ((s.length / 4 : Nat) : Int) := by
      rw [hsm _ (by omega) (by omega)]
      omega
    have hk32 : int_32 (4 * ((s.length / 4 : Nat) : Int)) = 4 * ((s.length / 4 : Nat) : Int) :=
      int_32_of_small _ (by omega) (by omega)
    refine ⟨s.take (4 * (s.length / 4)), s.drop (4 * (s.length / 4)), a + 4 * (s.length / 4),
      (List.take_append_drop _ _).symm, ?_, ?_⟩
    · rw [List.length_drop]; omega
    · simp only [hm, hk, hk32, bind, Except.bind, pure, Except.pure]
      have hsplit : s ++ rest =
          s.take (4 * (s.length / 4)) ++ (s.drop (4 * (s.length / 4)) ++ rest) := by
        rw [← List.append_assoc, List.take_append_drop]
      have hwl : (s.take (4 * (s.length / 4))).length = 4 * (s.length / 4) := by
        rw [List.length_take]; omega
      rw [hsplit, words_any h hs g hg r _ _ (s.length / 4) hwl]
      simp only
      have e4 := ptr_add a (s.take (4 * (s.length / 4))) (s.drop (4 * (s.length / 4)) ++ rest)
        (4 * ((s.length / 4 : Nat) : Int)) (by rw [hwl]; push_cast; rfl)
      rw [e4, hwl, List.length_drop]
      congr 3
      omega
  · rw [if_neg hc]
    refine ⟨[], s, a, rfl, by omega, ?_⟩
    simp only [reference_mod, List.foldl, of_value_of_valid r hr]
    rfl

theorem finish_ok (h : Host) (hs : h.supported) (g : Globals)
    (hg : g.poly_little_endian ≠ 0 ↔ h.isLittle) (r : poly_t) (hr : r.valid) (a : Nat)
    (s rest : List byte_t) (hlen : s.length ≤ 3) :
    poly_compute_mod_finish h g r ⟨a, s ++ rest⟩ s.length =
      .ok (poly_t.of_value (reference_mod r.value s)) := by
  unfold poly_compute_mod_finish
  match s, hlen with
  | [], _ =>
    simp only [List.length_nil, Nat.cast_zero, gt_iff_lt, lt_self_iff_false, if_false,
      reference_mod, List.foldl, of_value_of_valid r hr]
    rfl
  | [c0], _ =>
    have e2 : int_32 1 = 1 := by decide
    simp only [List.length_cons, List.length_nil, Nat.zero_add, Nat.cast_one, gt_iff_lt,
      zero_lt_one, if_true, e2, List.cons_append, List.nil_append,
      extend_bytes_one h hs g hg]
  | [c0, c1], _ =>
    have e2 : int_32 2 = 2 := by decide
    have e3 : (([c0, c1] : List byte_t).length : Int) = 2 := rfl
    have e4 : (2 : Int) > 0 := by decide
    simp only [e3, e4, if_true, e2, List.cons_append, List.nil_append,
      extend_bytes_two h hs g hg]
  | [c0, c1, c2], _ =>
    have e2 : int_32 3 = 3 := by decide
    have e3 : (([c0, c1, c2] : List byte_t).length : Int) = 3 := rfl
    have e4 : (3 : Int) > 0 := by decide
    simp only [e3, e4, if_true, e2, List.cons_append, List.nil_append,
      extend_bytes_three h hs g hg]

/-- Main lemma: on a supported host, `poly_compute_mod` returns, with the byte order
probed, the remainder that the bit-serial reference computes. -/
theorem compute_mod_ok (h : Host) (hs : h.supported) (g : Globals) (hg : g.consistent h)
    (init : poly_t) (hi : init.valid) (a : Nat) (s rest : List byte_t)
    (hlen : s.length < 2 ^ 31) :
    poly_compute_mod h g init ⟨a, s ++ rest⟩ s.length =
      .ok (g.probed h, poly_t.of_value (reference_mod init.value s)) := by
  have hf := probed_flag h g hg
  unfold poly_compute_mod
  rw [probe_ok h hs g]
  obtain ⟨s1, s2, a1, hs12, h1⟩ := align_ok h hs (g.probed h) hf init hi a s rest hlen
  have hl2 : s2.length < 2 ^ 31 := by
    have := congrArg List.length hs12
    rw [List.length_append] at this
    omega
  obtain ⟨ws, tl, a2, hs2, htl, h2⟩ :=
    bulk_ok h hs (g.probed h) hf (poly_t.of_value (reference_mod init.value s1))
      (of_value_valid _) a1 s2 rest hl2
  have h3 := finish_ok h hs (g.probed h) hf _ (of_value_valid
    (reference_mod (poly_t.of_value (reference_mod init.value s1)).value ws)) a2 tl rest htl
  simp only [bind, Except.bind, h1, h2, h3, pure, Except.pure]
  rw [value_reference, value_reference, ← reference_mod_append, ← reference_mod_append,
    ← hs2, ← hs12]

theorem to_byte_congr (x y : Nat) (hxy : ∀ i, i < 8 → x.testBit i = y.testBit i) :
    to_byte x = to_byte y := by
  apply Fin.ext
  show x % 2 ^ 8 = y % 2 ^ 8
  apply Nat.eq_of_testBit_eq
  intro i
  simp only [Nat.testBit_mod_two_pow]
  by_cases hi : i < 8
  · simp [hi, hxy i hi]
  · simp [hi]

theorem to_byte_extract (h : Host) (hW : 32 ≤ h.wordBits) (x : Int) (k : Nat)
    (hk : k + 8 ≤ 32) :
    to_byte (word_extract h x (k : Int) 8) = to_byte (pattern 32 x >>> k) := by
  rw [word_extract_eight h hW, to_byte_mod, Int.toNat_natCast]
  apply to_byte_congr
  intro i hi
  rw [Nat.testBit_shiftRight, Nat.testBit_shiftRight, ← word_mod32 h hW,
    Nat.testBit_mod_two_pow]
  have : k + i < 32 := by omega
  simp [this]

theorem to_byte_value_low (p : poly_t) (k : Nat) (hk : k + 8 ≤ 32) :
    to_byte (p.value >>> k) = to_byte (pattern 32 p.array0 >>> k) := by
  apply to_byte_congr
  intro i hi
  simp only [poly_t.value, Nat.testBit_shiftRight, Nat.testBit_or, Nat.testBit_shiftLeft]
  have : ¬ 32 ≤ k + i := by omega
  simp [this]

theorem to_byte_value_high (p : poly_t) (k : Nat) :
    to_byte (p.value >>> (32 + k)) = to_byte (pattern 32 p.array1 >>> k) := by
  apply to_byte_congr
  intro i hi
  simp only [poly_t.value, Nat.testBit_shiftRight, Nat.testBit_or, Nat.testBit_shiftLeft]
  have h1 : 32 ≤ 32 + k + i := by omega
  have h2 : 32 + k + i - 32 = k + i := by omega
  simp [h1, h2, testBit_eq_false_of_lt (pattern_lt 32 p.array0) h1]

theorem poly_to_bytes_eq (h : Host) (hW : 32 ≤ h.wordBits) (p : poly_t) :
    poly_to_bytes h p = bytes_of_value p.value := by
  have l0 := to_byte_value_low p 0 (by decide)
  have l8 := to_byte_value_low p 8 (by decide)
  have l16 := to_byte_value_low p 16 (by decide)
  have l24 := to_byte_value_low p 24 (by decide)
  have h0 := to_byte_value_high p 0
  have h8 := to_byte_value_high p 8
  have h16 := to_byte_value_high p 16
  have h24 := to_byte_value_high p 24
  have x0 := fun x => to_byte_extract h hW x 0 (by decide)
  have x8 := fun x => to_byte_extract h hW x 8 (by decide)
  have x16 := fun x => to_byte_extract h hW x 16 (by decide)
  have x24 := fun x => to_byte_extract h hW x 24 (by decide)
  simp only [Nat.shiftRight_zero, Nat.add_zero, Nat.reduceAdd, Nat.cast_ofNat,
    Nat.cast_zero] at l0 l8 l16 l24 h0 h8 h16 h24 x0 x8 x16 x24
  unfold poly_to_bytes bytes_of_value
  simp only [POLY_HALF, x0, x8, x16, x24, l0, l8, l16, l24, h0, h8, h16, h24,
    Nat.shiftRight_zero]

theorem int_32_idem (y : Int) : int_32 (int_32 y) = int_32 y := by
  unfold int_32
  rw [pattern_signed, Nat.mod_eq_of_lt (pattern_lt 32 y)]

theorem poly_fix_32_normal (h : Host) (m : Nat) :
    int_32 (poly_fix_32 h m) = poly_fix_32 h m := by
  unfold poly_fix_32
  split
  · exact int_32_idem _
  · simp only
    split <;> exact int_32_idem _

theorem from_bytes_valid (h : Host) (b : fingerprint_t) : (poly_from_bytes h b).valid :=
  ⟨poly_fix_32_normal h _, poly_fix_32_normal h _⟩

theorem word_byte (h : Host) (hW : 32 ≤ h.wordBits) (b : byte_t) :
    h.word ((b.val : Nat) : Int) = b.val :=
  word_of_small h hW _ (lt_trans b.isLt (by decide))

theorem or_four_mod (h : Host) (hW : 32 ≤ h.wordBits) (a b c d : byte_t) :
    word_or h (word_or h a.val (word_left_shift h b.val 8))
        (word_or h (word_left_shift h c.val 16) (word_left_shift h d.val 24)) % 2 ^ 32 =
      pack a b c d := by
  have e8 : (8 : Int).toNat = 8 := rfl
  have e16 : (16 : Int).toNat = 16 := rfl
  have e24 : (24 : Int).toNat = 24 := rfl
  simp only [word_or, word_left_shift, word_byte h hW, word_natCast, Nat.mod_mod, e8, e16, e24,
    or_mod_two_pow, mod_mod_32 h hW]
  rw [← or_mod_two_pow, ← or_mod_two_pow, ← or_mod_two_pow]
  have : (a.val ||| b.val <<< 8 ||| (c.val <<< 16 ||| d.val <<< 24)) = pack a b c d := by
    simp only [pack, Nat.shiftLeft_zero, Nat.or_assoc]
  rw [this]
  exact Nat.mod_eq_of_lt (pack_lt a b c d)

theorem from_bytes_value (h : Host) (hW : 32 ≤ h.wordBits) (b : fingerprint_t) :
    (poly_from_bytes h b).value =
      pack b.byte0 b.byte1 b.byte2 b.byte3 ||| pack b.byte4 b.byte5 b.byte6 b.byte7 <<< 32 := by
  simp only [poly_from_bytes, poly_t.value, poly_fix_32_pattern h hW, or_four_mod h hW]

theorem pack_bytes_low (v : Nat) :
    pack (to_byte v) (to_byte (v >>> 8)) (to_byte (v >>> 16)) (to_byte (v >>> 24)) =
      v % 2 ^ 32 := by
  apply Nat.eq_of_testBit_eq
  intro i
  simp only [pack_testBit, to_byte_val, Nat.testBit_mod_two_pow, Nat.testBit_shiftRight]
  by_cases h8 : i < 8
  · have : i < 32 := by omega
    simp [h8, this]
  · by_cases h16 : i < 16
    · have a1 : i < 32 := by omega
      have a2 : i - 8 < 8 := by omega
      have a3 : 8 + (i - 8) = i := by omega
      simp [h8, h16, a1, a2, a3]
    · by_cases h24 : i < 24
      · have a1 : i < 32 := by omega
        have a2 : i - 16 < 8 := by omega
        have a3 : 16 + (i - 16) = i := by omega
        simp [h8, h16, h24, a1, a2, a3]
      · by_cases h32 : i < 32
        · have a2 : i - 24 < 8 := by omega
          have a3 : 24 + (i - 24) = i := by omega
          simp [h8, h16, h24, h32, a2, a3]
        · have a2 : ¬ i - 24 < 8 := by omega
          simp [h8, h16, h24, h32, a2]

theorem from_bytes_of_value (h : Host) (hW : 32 ≤ h.wordBits) (v : Nat) (hv : v < 2 ^ 64) :
    poly_from_bytes h (bytes_of_value v) = poly_t.of_value v := by
  have hval : (poly_from_bytes h (bytes_of_value v)).value = v := by
    rw [from_bytes_value h hW]
    simp only [bytes_of_value]
    have hl := pack_bytes_low v
    have hh := pack_bytes_low (v >>> 32)
    simp only [Nat.shiftRight_add, ← Nat.shiftRight_add, Nat.reduceAdd] at hh
    rw [hl, hh]
    have := value_of_value v hv
    simp only [poly_t.value, poly_t.of_value, pattern_signed, Nat.mod_mod] at this
    exact this
  rw [← of_value_of_valid _ (from_bytes_valid h _), hval]

theorem strlen_ok (b rest : List byte_t) (hb : ∀ x ∈ b, x ≠ 0) :
    strlen (b ++ 0 :: rest) = .ok b.length := by
  induction b with
  | nil => simp [strlen]
  | cons c b ih =>
    have hc : c ≠ 0 := hb c (List.mem_cons_self _ _)
    have hb2 : ∀ x ∈ b, x ≠ 0 := fun x hx => hb x (List.mem_cons_of_mem _ hx)
    simp only [List.cons_append, strlen, hc, if_false, Except.map, List.length_cons]
    rw [show b.append (0 :: rest) = b ++ 0 :: rest from rfl, ih hb2]

theorem one_valid : POLY_ONE.valid := by decide

theorem from_buffer_ok (h : Host) (hs : h.supported) (g : Globals) (hg : g.consistent h)
    (a : Nat) (s rest : List byte_t) (hlen : s.length < 2 ^ 31) :
    fingerprint_from_buffer h g ⟨a, s ++ rest⟩ s.length =
      .ok (g.probed h, bytes_of_value (reference_mod POLY_ONE.value s)) := by
  unfold fingerprint_from_buffer
  rw [integer_of_small h hs.1 _ (by omega) (by omega),
    compute_mod_ok h hs g hg POLY_ONE one_valid a s rest hlen]
  simp only [bind, Except.bind, pure, Except.pure, poly_to_bytes_eq h hs.1, value_reference]

theorem from_text_ok (h : Host) (hs : h.supported) (g : Globals) (hg : g.consistent h)
    (a : Nat) (b rest : List byte_t) (hb : ∀ x ∈ b, x ≠ 0) (hlen : b.length < 2 ^ 31) :
    fingerprint_from_text h g ⟨a, b ++ 0 :: rest⟩ =
      .ok (g.probed h, bytes_of_value (reference_mod POLY_ONE.value b)) := by
  unfold fingerprint_from_text
  simp only [strlen_ok b rest hb, bind, Except.bind]
  rw [int_32_of_small _ (by omega) (by omega)]
  exact from_buffer_ok h hs g hg a b (0 :: rest) hlen

theorem from_chars_ok (h : Host) (hs : h.supported) (g : Globals) (hg : g.consistent h)
    (a : Nat) (b rest : List byte_t) (hb : ∀ x ∈ b, x ≠ 0) (hlen : b.length < 2 ^ 31)
    (hne : b ≠ []) (v : Nat) (hv : v < 2 ^ 64) :
    fingerprint_from_chars h g ⟨a, b ++ 0 :: rest⟩ (bytes_of_value v) =
      .ok (g.probed h, bytes_of_value (reference_mod v b)) := by
  unfold fingerprint_from_chars
  simp only [strlen_ok b rest hb, bind, Except.bind]
  rw [integer_of_small h hs.1 _ (by omega) (by omega)]
  have hn : ¬ ((b.length : Int) = 0) := by
    have : b.length ≠ 0 := fun h0 => hne (List.length_eq_zero.mp h0)
    omega
  rw [if_neg hn, from_bytes_of_value h hs.1 v hv,
    compute_mod_ok h hs g hg _ (of_value_valid v) a b (0 :: rest) hlen]
  simp only [pure, Except.pure, poly_to_bytes_eq h hs.1, value_reference,
    value_of_value v hv]
  rw [← value_of_value v hv, value_reference, value_of_value v hv]

theorem from_chars_empty (h : Host) (g : Globals) (a : Nat) (rest : List byte_t)
    (fp : fingerprint_t) :
    fingerprint_from_chars h g ⟨a, 0 :: rest⟩ fp = .ok (g, fp) := by
  unfold fingerprint_from_chars
  have : h.integer ((0 : Nat) : Int) = 0 := by
    simp [Host.integer, pattern, signed]
  simp only [strlen, if_true, bind, Except.bind, this, pure, Except.pure]

theorem word_lt_natCast (h : Host) (n : Nat) (hn : n < 2 ^ h.wordBits) : h.word (n : Int) = n := by
  rw [word_natCast]
  exact Nat.mod_eq_of_lt hn

theorem word_plus_times (h : Host) (hW : 32 ≤ h.wordBits) (x y A B : Int) :
    word_plus h (word_times h x A) (word_times h y B) % 2 ^ 32 =
      (pattern 32 x * pattern 32 A + pattern 32 y * pattern 32 B) % 2 ^ 32 := by
  unfold word_plus word_times
  rw [word_natCast, word_natCast, Nat.mod_mod, Nat.mod_mod, mod_mod_32 h hW, Nat.add_mod,
    mod_mod_32 h hW, mod_mod_32 h hW, Nat.mul_mod, word_mod32 h hW, word_mod32 h hW,
    Nat.mul_mod (h.word y), word_mod32 h hW, word_mod32 h hW, ← Nat.add_mod]

theorem of_value_pattern0 (v : Nat) : pattern 32 (poly_t.of_value v).array0 = v % 2 ^ 32 := by
  simp only [poly_t.of_value, pattern_signed, Nat.mod_mod]

theorem of_value_pattern1 (v : Nat) :
    pattern 32 (poly_t.of_value v).array1 = (v >>> 32) % 2 ^ 32 := by
  simp only [poly_t.of_value, pattern_signed, Nat.mod_mod]

theorem combine_ok (h : Host) (hs : h.supported) (g : Globals) (hg : g.consistent h)
    (buf : Nat) (fp1 fp2 : fingerprint_t) :
    fingerprint_combine h g buf fp1 fp2 =
      .ok (g.probed h, fingerprint_combine_loop (bytes_of_value (mix_value
        (reference_mod POLY_ONE.value (FINGERPRINT_BYTE fp1 ++ FINGERPRINT_BYTE fp2))))) := by
  have hW := hs.1
  have hc := compute_mod_ok h hs g hg POLY_ONE one_valid buf
    (FINGERPRINT_BYTE fp1 ++ FINGERPRINT_BYTE fp2) [] (by simp [FINGERPRINT_BYTE])
  have hl : (((FINGERPRINT_BYTE fp1 ++ FINGERPRINT_BYTE fp2).length : Nat) : Int) = 16 := by
    simp [FINGERPRINT_BYTE]
  rw [hl, List.append_nil] at hc
  unfold fingerprint_combine
  simp only [hc, bind, Except.bind, pure, Except.pure, poly_to_bytes_eq h hW]
  congr 4
  have pA : pattern 32 FINGERPRINT_A = 0xff208489 := by decide
  have pB : pattern 32 FINGERPRINT_B = 0xf4872e10 := by decide
  have pC : pattern 32 FINGERPRINT_C = 0x402d619b := by decide
  have pD : pattern 32 FINGERPRINT_D = 0x0bf359a7 := by decide
  simp only [poly_t.value, mix_value, poly_fix_32_pattern h hW, word_plus_times h hW, POLY_HALF,
    of_value_pattern0, of_value_pattern1, pA, pB, pC, pD]

/-! shared facts on the test sentences -/

set_option maxRecDepth 100000 in
theorem good_men_zero_free : ∀ x ∈ good_men, x ≠ 0 := by decide!

set_option maxRecDepth 100000 in
theorem quick_fox_zero_free : ∀ x ∈ quick_fox, x ≠ 0 := by decide!

set_option maxRecDepth 100000 in
theorem good_men_length : good_men.length < 2 ^ 31 := by decide!

set_option maxRecDepth 100000 in
theorem quick_fox_length : quick_fox.length < 2 ^ 31 := by decide!

set_option maxRecDepth 100000 in
theorem good_men_bytes :
    bytes_of_value (reference_mod POLY_ONE.value good_men) =
      ⟨0x79, 0x62, 0xbf, 0x45, 0xa3, 0x53, 0xb2, 0x2b⟩ := by decide!

set_option maxRecDepth 100000 in
theorem quick_fox_bytes :
    bytes_of_value (reference_mod POLY_ONE.value quick_fox) =
      ⟨0x53, 0x3e, 0x7b, 0x88, 0x06, 0x19, 0xba, 0x38⟩ := by decide!

set_option maxRecDepth 100000 in
theorem combine_bytes :
    fingerprint_combine_loop (bytes_of_value (mix_value (reference_mod POLY_ONE.value
      (FINGERPRINT_BYTE ⟨0x79, 0x62, 0xbf, 0x45, 0xa3, 0x53, 0xb2, 0x2b⟩ ++
        FINGERPRINT_BYTE ⟨0x53, 0x3e, 0x7b, 0x88, 0x06, 0x19, 0xba, 0x38⟩)))) =
      ⟨0xd4, 0x18, 0x54, 0x06, 0xa7, 0x68, 0x8c, 0x35⟩ := by decide!

theorem one_bytes : bytes_of_value POLY_ONE.value = ⟨0, 0, 0, 0, 0, 0, 0, 0x80⟩ := by decide

theorem init_consistent (h : Host) (g : Globals) (hg : g.consistent h) :
    (fingerprint_init h g).consistent h := hg

theorem equal_self (fp : fingerprint_t) : fingerprint_equal fp fp = 1 := by
  have hm : ∀ l : List byte_t, memcmp l l = 0 := by
    intro l
    induction l with
    | nil => rfl
    | cons a l ih => simp [memcmp, ih]
  simp [fingerprint_equal, hm]

/-! ## Claims -/

/-- Claim C1: for every byte sequence `s` (of a length that fits `int`, the type of
`size`) and every two start addresses `a1`, `a2` of the buffer, hence every 4-byte
alignment offset, `fingerprint_from_buffer` returns the same result, and its 8 bytes are
the canonical bytes of the reference remainder: the split into leading bytes, aligned
words and trailing bytes does not change it.  The host is one the source supports and
the file-scope variables are in a state the program reaches. -/
theorem from_buffer_alignment (h : Host) (hs : h.supported) (g : Globals)
    (hg : g.consistent h) (s : List byte_t) (hlen : s.length < 2 ^ 31) (a1 a2 : Nat) :
    fingerprint_from_buffer h g ⟨a1, s⟩ s.length =
        fingerprint_from_buffer h g ⟨a2, s⟩ s.length ∧
      (fingerprint_from_buffer h g ⟨a1, s⟩ s.length).map Prod.snd =
        .ok (bytes_of_value (reference_mod POLY_ONE.value s)) := by
  have h1 := from_buffer_ok h hs g hg a1 s [] hlen
  have h2 := from_buffer_ok h hs g hg a2 s [] hlen
  rw [List.append_nil] at h1 h2
  rw [h1, h2]
  exact ⟨rfl, rfl⟩

/-- Witness of C1: a 7-byte buffer at an address that is a multiple of 4 and at the next
address, on a little-endian host of 32 bits. -/
theorem from_buffer_alignment_witness :
    fingerprint_from_buffer little32 Globals.initial ⟨4096, [1, 2, 3, 4, 5, 6, 7]⟩
        ([1, 2, 3, 4, 5, 6, 7] : List byte_t).length =
        fingerprint_from_buffer little32 Globals.initial ⟨4097, [1, 2, 3, 4, 5, 6, 7]⟩
          ([1, 2, 3, 4, 5, 6, 7] : List byte_t).length ∧
      (fingerprint_from_buffer little32 Globals.initial ⟨4096, [1, 2, 3, 4, 5, 6, 7]⟩
        ([1, 2, 3, 4, 5, 6, 7] : List byte_t).length).map Prod.snd =
        .ok (bytes_of_value (reference_mod POLY_ONE.value [1, 2, 3, 4, 5, 6, 7])) :=
  from_buffer_alignment little32 (by decide) Globals.initial (by decide)
    [1, 2, 3, 4, 5, 6, 7] (by decide) 4096 4097

/-- Claim C2: for every byte sequence `a`, every byte sequence `b` without a zero byte
(the empty one included), and all addresses of the three buffers, extending the
fingerprint of `a` by the text `b` with `fingerprint_from_chars` gives the fingerprint
that `fingerprint_from_buffer` returns for `a ++ b`; the calls succeed.  The text is `b`
followed by its terminator and any further bytes; the length of `a ++ b` fits `int`. -/
theorem from_chars_incremental (h : Host) (hs : h.supported) (g : Globals)
    (hg : g.consistent h) (a b rest : List byte_t) (hb : ∀ x ∈ b, x ≠ 0)
    (hlen : (a ++ b).length < 2 ^ 31) (p q r : Nat) :
    ((fingerprint_from_buffer h g ⟨p, a⟩ a.length).bind
        fun x => fingerprint_from_chars h x.1 ⟨q, b ++ 0 :: rest⟩ x.2).map Prod.snd =
        (fingerprint_from_buffer h g ⟨r, a ++ b⟩ (a ++ b).length).map Prod.snd ∧
      (fingerprint_from_buffer h g ⟨r, a ++ b⟩ (a ++ b).length).map Prod.snd =
        .ok (bytes_of_value (reference_mod POLY_ONE.value (a ++ b))) := by
  have hla : a.length < 2 ^ 31 := by rw [List.length_append] at hlen; omega
  have hlb : b.length < 2 ^ 31 := by rw [List.length_append] at hlen; omega
  have h1 := from_buffer_ok h hs g hg p a [] hla
  have h2 := from_buffer_ok h hs g hg r (a ++ b) [] hlen
  rw [List.append_nil] at h1 h2
  rw [h1, h2]
  refine ⟨?_, rfl⟩
  simp only [Except.bind]
  by_cases hne : b = []
  · subst hne
    rw [List.nil_append, from_chars_empty, List.append_nil]
  · rw [from_chars_ok h hs _ (probed_consistent h g hg) q b rest hb hlb hne _
      (reference_mod_lt _ _ (value_lt _)), ← reference_mod_append]
    rfl

/-- Witness of C2: `a` contains a zero byte, `b` does not; big-endian host of 64 bits. -/
theorem from_chars_incremental_witness :
    ((fingerprint_from_buffer big64 Globals.initial ⟨1, [9, 0, 7, 3, 5]⟩
          ([9, 0, 7, 3, 5] : List byte_t).length).bind
        fun x => fingerprint_from_chars big64 x.1 ⟨2, [65, 66, 67, 68, 69, 70] ++ 0 :: [1, 1]⟩
          x.2).map Prod.snd =
        (fingerprint_from_buffer big64 Globals.initial
          ⟨3, [9, 0, 7, 3, 5] ++ [65, 66, 67, 68, 69, 70]⟩
          ([9, 0, 7, 3, 5] ++ [65, 66, 67, 68, 69, 70] : List byte_t).length).map Prod.snd ∧
      (fingerprint_from_buffer big64 Globals.initial
          ⟨3, [9, 0, 7, 3, 5] ++ [65, 66, 67, 68, 69, 70]⟩
          ([9, 0, 7, 3, 5] ++ [65, 66, 67, 68, 69, 70] : List byte_t).length).map Prod.snd =
        .ok (bytes_of_value (reference_mod POLY_ONE.value
          ([9, 0, 7, 3, 5] ++ [65, 66, 67, 68, 69, 70]))) :=
  from_chars_incremental big64 (by decide) Globals.initial (by decide)
    [9, 0, 7, 3, 5] [65, 66, 67, 68, 69, 70] [1, 1] (by simp) (by decide) 1 2 3

/-- Claim C4: for every `k` in 64, 72, 80, 88 and every byte `b`, the entry `b` of table
`poly<k>` is `b(x) * x ^ k mod P`, with bit `j` of `b` the coefficient of `x ^ (7 - j)`
and `P = x ^ 64 + ` the polynomial of `poly64[128]`: one modulus fits all 1024
entries. -/
theorem tables_reduce_bytes (b : byte_t) :
    (entry poly64 b).value = times_x_pow 64 (byte_poly b) ∧
      (entry poly72 b).value = times_x_pow 72 (byte_poly b) ∧
      (entry poly80 b).value = times_x_pow 80 (byte_poly b) ∧
      (entry poly88 b).value = times_x_pow 88 (byte_poly b) :=
  ⟨poly64_spec b, poly72_spec b, poly80_spec b, poly88_spec b⟩

/-- Claim C5: for every byte sequence whose length is a multiple of 4 and every starting
remainder, `poly_extend_words_le` on a little-endian host and `poly_extend_words_be` on
a big-endian host return the same remainder, the one of the reference; and for the same
input bytes (of a length that fits `int`) `fingerprint_from_buffer` returns the same 8
bytes on both hosts, at any two addresses. -/
theorem byte_order_transparent (hl hb : Host) (hsl : hl.supported) (hll : hl.isLittle)
    (hsb : hb.supported) (hbb : hb.isBig) (p : poly_t) (ws : List byte_t)
    (hws : 4 ∣ ws.length) (gl gb : Globals) (hgl : gl.consistent hl) (hgb : gb.consistent hb)
    (s : List byte_t) (hlen : s.length < 2 ^ 31) (al ab : Nat) :
    poly_extend_words_le hl p ws ws.length = poly_extend_words_be hb p ws ws.length ∧
      poly_extend_words_le hl p ws ws.length =
        .ok (poly_t.of_value (reference_mod p.value ws)) ∧
      (fingerprint_from_buffer hl gl ⟨al, s⟩ s.length).map Prod.snd =
        (fingerprint_from_buffer hb gb ⟨ab, s⟩ s.length).map Prod.snd ∧
      (fingerprint_from_buffer hl gl ⟨al, s⟩ s.length).map Prod.snd =
        .ok (bytes_of_value (reference_mod POLY_ONE.value s)) := by
  obtain ⟨n, hn⟩ := hws
  have h1 := words_le_ok hl hsl.1 hll p ws [] n hn
  have h2 := words_be_ok hb hsb.1 hbb p ws [] n hn
  have e : ((ws.length : Nat) : Int) = 4 * (n : Int) := by rw [hn]; push_cast; rfl
  rw [List.append_nil] at h1 h2
  have h3 := from_buffer_ok hl hsl gl hgl al s [] hlen
  have h4 := from_buffer_ok hb hsb gb hgb ab s [] hlen
  rw [List.append_nil] at h3 h4
  rw [e, h1, h2, h3, h4]
  exact ⟨rfl, rfl, rfl, rfl⟩

/-- Witness of C5: two words, hosts of 32 and of 64 bits. -/
theorem byte_order_transparent_witness :
    poly_extend_words_le little32 ⟨1, 2⟩ [1, 2, 3, 4, 5, 6, 7, 8]
          ([1, 2, 3, 4, 5, 6, 7, 8] : List byte_t).length =
        poly_extend_words_be big64 ⟨1, 2⟩ [1, 2, 3, 4, 5, 6, 7, 8]
          ([1, 2, 3, 4, 5, 6, 7, 8] : List byte_t).length ∧
      poly_extend_words_le little32 ⟨1, 2⟩ [1, 2, 3, 4, 5, 6, 7, 8]
          ([1, 2, 3, 4, 5, 6, 7, 8] : List byte_t).length =
        .ok (poly_t.of_value (reference_mod (poly_t.value ⟨1, 2⟩) [1, 2, 3, 4, 5, 6, 7, 8])) ∧
      (fingerprint_from_buffer little32 Globals.initial ⟨0, [10, 20, 30, 40, 50]⟩
          ([10, 20, 30, 40, 50] : List byte_t).length).map Prod.snd =
        (fingerprint_from_buffer big64 Globals.initial ⟨2, [10, 20, 30, 40, 50]⟩
          ([10, 20, 30, 40, 50] : List byte_t).length).map Prod.snd ∧
      (fingerprint_from_buffer little32 Globals.initial ⟨0, [10, 20, 30, 40, 50]⟩
          ([10, 20, 30, 40, 50] : List byte_t).length).map Prod.snd =
        .ok (bytes_of_value (reference_mod POLY_ONE.value [10, 20, 30, 40, 50])) :=
  byte_order_transparent little32 big64 (by decide) (by decide) (by decide) (by decide)
    ⟨1, 2⟩ [1, 2, 3, 4, 5, 6, 7, 8] (by decide) Globals.initial Globals.initial (by decide)
    (by decide) [10, 20, 30, 40, 50] (by decide) 0 2

/-- Claim C6: after `fingerprint_init`, `fingerprint_from_buffer` on a buffer of length
zero and `fingerprint_from_text` on the empty string both return a fingerprint for which
`fingerprint_equal` with `fingerprint_of_empty` is not zero. -/
theorem empty_is_fingerprint_of_empty (h : Host) (hs : h.supported) (g : Globals)
    (hg : g.consistent h) (a : Nat) (mem rest : List byte_t) :
    (fingerprint_from_buffer h (fingerprint_init h g) ⟨a, mem⟩ 0).map
        (fun r => decide (fingerprint_equal r.2 r.1.fingerprint_of_empty ≠ 0)) = .ok true ∧
      (fingerprint_from_text h (fingerprint_init h g) ⟨a, 0 :: rest⟩).map
        (fun r => decide (fingerprint_equal r.2 r.1.fingerprint_of_empty ≠ 0)) = .ok true := by
  have hgi := init_consistent h g hg
  have h1 := from_buffer_ok h hs _ hgi a [] mem (by decide)
  have h2 := from_text_ok h hs _ hgi a [] rest (by simp) (by decide)
  simp only [List.nil_append, List.length_nil, Nat.cast_zero] at h1 h2
  have he : ((fingerprint_init h g).probed h).fingerprint_of_empty =
      bytes_of_value (reference_mod POLY_ONE.value []) := by
    have : ((fingerprint_init h g).probed h).fingerprint_of_empty =
        (fingerprint_init h g).fingerprint_of_empty := by
      unfold Globals.probed
      split
      · split <;> rfl
      · rfl
    rw [this]
    exact poly_to_bytes_eq h hs.1 POLY_ONE
  rw [h1, h2]
  simp only [Except.map, he, equal_self]
  exact ⟨rfl, rfl⟩

/-- Witness of C6: a big-endian host of 32 bits whose `fingerprint_of_empty` held other
bytes before `fingerprint_init`. -/
theorem empty_is_fingerprint_of_empty_witness :
    (fingerprint_from_buffer big32 (fingerprint_init big32 ⟨0, 0, 0, ⟨1, 2, 3, 4, 5, 6, 7, 8⟩⟩)
        ⟨7, [1, 2, 3]⟩ 0).map
        (fun r => decide (fingerprint_equal r.2 r.1.fingerprint_of_empty ≠ 0)) = .ok true ∧
      (fingerprint_from_text big32 (fingerprint_init big32 ⟨0, 0, 0, ⟨1, 2, 3, 4, 5, 6, 7, 8⟩⟩)
        ⟨7, 0 :: [9]⟩).map
        (fun r => decide (fingerprint_equal r.2 r.1.fingerprint_of_empty ≠ 0)) = .ok true :=
  empty_is_fingerprint_of_empty big32 (by decide) ⟨0, 0, 0, ⟨1, 2, 3, 4, 5, 6, 7, 8⟩⟩
    (by decide) 7 [1, 2, 3] [9]

/-- Claim C7: every call of `fingerprint_init` sets `fingerprint_of_empty` to the
canonical bytes of `POLY_ONE = (0, -2 ^ 31)`, which are 00 00 00 00 00 00 00 80, whatever
it held before. -/
theorem init_sets_fingerprint_of_empty (h : Host) (hW : 32 ≤ h.wordBits) (g : Globals) :
    (fingerprint_init h g).fingerprint_of_empty = ⟨0, 0, 0, 0, 0, 0, 0, 0x80⟩ ∧
      (fingerprint_init h g).fingerprint_of_empty = poly_to_bytes h POLY_ONE ∧
      POLY_ONE = ⟨0, -2 ^ 31⟩ := by
  refine ⟨?_, rfl, by decide⟩
  show poly_to_bytes h POLY_ONE = _
  rw [poly_to_bytes_eq h hW, one_bytes]

/-- Witness of C7: a second call, on globals that a first call and a probe have
written. -/
theorem init_sets_fingerprint_of_empty_witness :
    (fingerprint_init little64 ⟨1, 0, 1, ⟨9, 9, 9, 9, 9, 9, 9, 9⟩⟩).fingerprint_of_empty =
        ⟨0, 0, 0, 0, 0, 0, 0, 0x80⟩ ∧
      (fingerprint_init little64 ⟨1, 0, 1, ⟨9, 9, 9, 9, 9, 9, 9, 9⟩⟩).fingerprint_of_empty =
        poly_to_bytes little64 POLY_ONE ∧
      POLY_ONE = ⟨0, -2 ^ 31⟩ :=
  init_sets_fingerprint_of_empty little64 (by decide) ⟨1, 0, 1, ⟨9, 9, 9, 9, 9, 9, 9, 9⟩⟩

/-- Claim C8: `fingerprint_from_text` on "Now is the time for all good men to come to the
aid of their country." returns the bytes 79 62 bf 45 a3 53 b2 2b. -/
theorem good_men_fingerprint (h : Host) (hs : h.supported) (g : Globals)
    (hg : g.consistent h) (a : Nat) (rest : List byte_t) :
    (fingerprint_from_text h g ⟨a, good_men ++ 0 :: rest⟩).map Prod.snd =
      .ok ⟨0x79, 0x62, 0xbf, 0x45, 0xa3, 0x53, 0xb2, 0x2b⟩ := by
  rw [from_text_ok h hs g hg a good_men rest good_men_zero_free good_men_length, good_men_bytes]
  rfl

/-- Witness of C8: the string at an odd address on a little-endian host of 32 bits. -/
theorem good_men_fingerprint_witness :
    (fingerprint_from_text little32 Globals.initial ⟨1001, good_men ++ 0 :: []⟩).map Prod.snd =
      .ok ⟨0x79, 0x62, 0xbf, 0x45, 0xa3, 0x53, 0xb2, 0x2b⟩ :=
  good_men_fingerprint little32 (by decide) Globals.initial (by decide) 1001 []

/-- Claim C9: `fingerprint_from_text` on "The quick brown fox jumped over the lazy dog."
returns the bytes 53 3e 7b 88 06 19 ba 38. -/
theorem quick_fox_fingerprint (h : Host) (hs : h.supported) (g : Globals)
    (hg : g.consistent h) (a : Nat) (rest : List byte_t) :
    (fingerprint_from_text h g ⟨a, quick_fox ++ 0 :: rest⟩).map Prod.snd =
      .ok ⟨0x53, 0x3e, 0x7b, 0x88, 0x06, 0x19, 0xba, 0x38⟩ := by
  rw [from_text_ok h hs g hg a quick_fox rest quick_fox_zero_free quick_fox_length,
    quick_fox_bytes]
  rfl

/-- Witness of C9: the string at an address that is 2 modulo 4 on a big-endian host of
64 bits. -/
theorem quick_fox_fingerprint_witness :
    (fingerprint_from_text big64 Globals.initial ⟨1002, quick_fox ++ 0 :: []⟩).map Prod.snd =
      .ok ⟨0x53, 0x3e, 0x7b, 0x88, 0x06, 0x19, 0xba, 0x38⟩ :=
  quick_fox_fingerprint big64 (by decide) Globals.initial (by decide) 1002 []

/-- Claim C10: `fingerprint_combine` applied to the fingerprint of the first sentence and
the fingerprint of the second one, in that order and as the unit test computes them,
returns the bytes d4 18 54 06 a7 68 8c 35. -/
theorem combine_test_vector (h : Host) (hs : h.supported) (g : Globals)
    (hg : g.consistent h) (a1 a2 buf : Nat) (rest1 rest2 : List byte_t) :
    ((fingerprint_from_text h g ⟨a1, good_men ++ 0 :: rest1⟩).bind fun x2 =>
      (fingerprint_from_text h x2.1 ⟨a2, quick_fox ++ 0 :: rest2⟩).bind fun x3 =>
        fingerprint_combine h x3.1 buf x2.2 x3.2).map Prod.snd =
      .ok ⟨0xd4, 0x18, 0x54, 0x06, 0xa7, 0x68, 0x8c, 0x35⟩ := by
  have hg1 := probed_consistent h g hg
  have hg2 := probed_consistent h _ hg1
  rw [from_text_ok h hs g hg a1 good_men rest1 good_men_zero_free good_men_length,
    good_men_bytes]
  simp only [Except.bind]
  rw [from_text_ok h hs _ hg1 a2 quick_fox rest2 quick_fox_zero_free quick_fox_length,
    quick_fox_bytes]
  simp only
  rw [combine_ok h hs _ hg2 buf, combine_bytes]
  rfl

/-- Witness of C10: the unit test on a little-endian host of 64 bits. -/
theorem combine_test_vector_witness :
    ((fingerprint_from_text little64 Globals.initial ⟨8, good_men ++ 0 :: []⟩).bind fun x2 =>
      (fingerprint_from_text little64 x2.1 ⟨80, quick_fox ++ 0 :: []⟩).bind fun x3 =>
        fingerprint_combine little64 x3.1 131 x2.2 x3.2).map Prod.snd =
      .ok ⟨0xd4, 0x18, 0x54, 0x06, 0xa7, 0x68, 0x8c, 0x35⟩ :=
  combine_test_vector little64 (by decide) Globals.initial (by decide) 8 80 131 [] []

theorem combine_loop_eq (fp : fingerprint_t) : fingerprint_combine_loop fp = perm_image fp := by
  cases fp
  rfl

theorem to_byte_or_low (a b k : Nat) (hk : k + 8 ≤ 32) :
    to_byte ((a ||| b <<< 32) >>> k) = to_byte (a >>> k) := by
  apply to_byte_congr
  intro i hi
  simp only [Nat.testBit_shiftRight, Nat.testBit_or, Nat.testBit_shiftLeft]
  have : ¬ 32 ≤ k + i := by omega
  simp [this]

theorem to_byte_or_high (a b k : Nat) (ha : a < 2 ^ 32) :
    to_byte ((a ||| b <<< 32) >>> (32 + k)) = to_byte (b >>> k) := by
  apply to_byte_congr
  intro i hi
  simp only [Nat.testBit_shiftRight, Nat.testBit_or, Nat.testBit_shiftLeft]
  have h1 : 32 ≤ 32 + k + i := by omega
  have h2 : 32 + k + i - 32 = k + i := by omega
  simp [h1, h2, testBit_eq_false_of_lt ha h1]

theorem bytes_of_value_or (a b : Nat) (ha : a < 2 ^ 32) :
    bytes_of_value (a ||| b <<< 32) = canonical_bytes a b := by
  have l0 := to_byte_or_low a b 0 (by decide)
  have l8 := to_byte_or_low a b 8 (by decide)
  have l16 := to_byte_or_low a b 16 (by decide)
  have l24 := to_byte_or_low a b 24 (by decide)
  have h0 := to_byte_or_high a b 0 ha
  have h8 := to_byte_or_high a b 8 ha
  have h16 := to_byte_or_high a b 16 ha
  have h24 := to_byte_or_high a b 24 ha
  simp only [Nat.shiftRight_zero, Nat.add_zero, Nat.reduceAdd] at l0 l8 l16 l24 h0 h8 h16 h24
  simp only [bytes_of_value, canonical_bytes, l0, l8, l16, l24, h0, h8, h16, h24]

theorem combine_ok_spec (h : Host) (hs : h.supported) (g : Globals) (hg : g.consistent h)
    (buf : Nat) (fp1 fp2 : fingerprint_t) :
    fingerprint_combine h g buf fp1 fp2 =
      .ok (g.probed h, combine_of_remainder (poly_t.of_value
        (reference_mod POLY_ONE.value (FINGERPRINT_BYTE fp1 ++ FINGERPRINT_BYTE fp2)))) := by
  rw [combine_ok h hs g hg, combine_loop_eq]
  simp only [combine_of_remainder, mix_value, of_value_pattern0, of_value_pattern1]
  rw [bytes_of_value_or _ _ (Nat.mod_lt _ (by decide))]

theorem memcmp_eq_zero (l1 l2 : List byte_t) (hl : l1.length = l2.length) :
    memcmp l1 l2 = 0 ↔ l1 = l2 := by
  induction l1 generalizing l2 with
  | nil =>
    cases l2 with
    | nil => simp [memcmp]
    | cons b bs => simp at hl
  | cons a as ih =>
    cases l2 with
    | nil => simp at hl
    | cons b bs =>
      have hl2 : as.length = bs.length := by simpa using hl
      simp only [memcmp, List.cons.injEq]
      by_cases h1 : a.val < b.val
      · have : a ≠ b := fun e => by rw [e] at h1; exact lt_irrefl _ h1
        simp [h1, this]
      · by_cases h2 : a.val > b.val
        · have : a ≠ b := fun e => by rw [e] at h2; exact lt_irrefl _ h2
          simp [h1, h2, this]
        · have : a = b := Fin.ext (by omega)
          simp [h1, h2, this, ih bs hl2]

theorem poly_fix_32_eq (h : Host) (hW : 32 ≤ h.wordBits) (m : Nat) :
    poly_fix_32 h m = signed 32 (m % 2 ^ 32) := by
  rw [← poly_fix_32_normal, int_32, poly_fix_32_pattern h hW]

theorem int_32_natCast (m : Nat) : int_32 (m : Int) = signed 32 (m % 2 ^ 32) := by
  rw [int_32, pattern32_natCast]

theorem from_bytes_halves (h : Host) (hW : 32 ≤ h.wordBits) (fp : fingerprint_t) :
    poly_from_bytes h fp =
      ⟨int_32 (pack fp.byte0 fp.byte1 fp.byte2 fp.byte3 : Nat),
       int_32 (pack fp.byte4 fp.byte5 fp.byte6 fp.byte7 : Nat)⟩ := by
  simp only [poly_from_bytes, poly_fix_32_eq h hW, or_four_mod h hW, int_32_natCast,
    Nat.mod_eq_of_lt (pack_lt _ _ _ _)]

/-! ## Claims C11 to C20 -/

set_option maxRecDepth 100000 in
theorem perm_table_facts :
    fingerprint_perm.length = 256 ∧ fingerprint_perm.getD 0 0 = 55 ∧
      fingerprint_perm.getD 194 0 = 55 ∧ (255 : byte_t) ∉ fingerprint_perm := by
  decide!

/-- Claim C11, which the table does not meet: `fingerprint_perm` has 256 entries, the
entries at the indices 0 and 194 are both 55, and the value 255 occurs nowhere, so the
table is not a bijection on byte values. -/
theorem perm_repeats_55 :
    fingerprint_perm.length = 256 ∧ fingerprint_perm.getD 0 0 = 55 ∧
      fingerprint_perm.getD 194 0 = 55 ∧ (255 : byte_t) ∉ fingerprint_perm :=
  perm_table_facts

/-- Claim C12: for all fingerprints `fp1`, `fp2`, `fingerprint_combine` returns what the
spec describes: with `(lo, hi)` the remainder that `poly_compute_mod` returns from `ONE`
on the 16 bytes of `fp1` followed by `fp2`, the image under `fingerprint_perm`, byte by
byte, of the canonical bytes of `((lo * A + hi * B) mod 2 ^ 32, (lo * C + hi * D) mod
2 ^ 32)`; both calls succeed. -/
theorem combine_refines_spec (h : Host) (hs : h.supported) (g : Globals)
    (hg : g.consistent h) (buf : Nat) (fp1 fp2 : fingerprint_t) :
    (fingerprint_combine h g buf fp1 fp2).map Prod.snd =
        (poly_compute_mod h g POLY_ONE ⟨buf, FINGERPRINT_BYTE fp1 ++ FINGERPRINT_BYTE fp2⟩
          16).map (fun x => combine_of_remainder x.2) ∧
      (poly_compute_mod h g POLY_ONE ⟨buf, FINGERPRINT_BYTE fp1 ++ FINGERPRINT_BYTE fp2⟩
          16).map Prod.snd =
        .ok (poly_t.of_value
          (reference_mod POLY_ONE.value (FINGERPRINT_BYTE fp1 ++ FINGERPRINT_BYTE fp2))) := by
  have hc := compute_mod_ok h hs g hg POLY_ONE one_valid buf
    (FINGERPRINT_BYTE fp1 ++ FINGERPRINT_BYTE fp2) [] (by simp [FINGERPRINT_BYTE])
  have hl : (((FINGERPRINT_BYTE fp1 ++ FINGERPRINT_BYTE fp2).length : Nat) : Int) = 16 := by
    simp [FINGERPRINT_BYTE]
  rw [hl, List.append_nil] at hc
  rw [hc, combine_ok_spec h hs g hg]
  exact ⟨rfl, rfl⟩

/-- Witness of C12: two fingerprints on a big-endian host of 32 bits. -/
theorem combine_refines_spec_witness :
    (fingerprint_combine big32 Globals.initial 5 ⟨1, 2, 3, 4, 5, 6, 7, 8⟩
          ⟨0, 255, 0, 255, 9, 9, 9, 9⟩).map Prod.snd =
        (poly_compute_mod big32 Globals.initial POLY_ONE
          ⟨5, FINGERPRINT_BYTE ⟨1, 2, 3, 4, 5, 6, 7, 8⟩ ++
            FINGERPRINT_BYTE ⟨0, 255, 0, 255, 9, 9, 9, 9⟩⟩
          16).map (fun x => combine_of_remainder x.2) ∧
      (poly_compute_mod big32 Globals.initial POLY_ONE
          ⟨5, FINGERPRINT_BYTE ⟨1, 2, 3, 4, 5, 6, 7, 8⟩ ++
            FINGERPRINT_BYTE ⟨0, 255, 0, 255, 9, 9, 9, 9⟩⟩
          16).map Prod.snd =
        .ok (poly_t.of_value
          (reference_mod POLY_ONE.value (FINGERPRINT_BYTE ⟨1, 2, 3, 4, 5, 6, 7, 8⟩ ++
            FINGERPRINT_BYTE ⟨0, 255, 0, 255, 9, 9, 9, 9⟩))) :=
  combine_refines_spec big32 (by decide) Globals.initial (by decide) 5
    ⟨1, 2, 3, 4, 5, 6, 7, 8⟩ ⟨0, 255, 0, 255, 9, 9, 9, 9⟩

set_option maxRecDepth 100000 in
theorem combine_swapped_bytes :
    combine_of_remainder (poly_t.of_value (reference_mod POLY_ONE.value
        (FINGERPRINT_BYTE ⟨0x79, 0x62, 0xbf, 0x45, 0xa3, 0x53, 0xb2, 0x2b⟩ ++
          FINGERPRINT_BYTE ⟨0x53, 0x3e, 0x7b, 0x88, 0x06, 0x19, 0xba, 0x38⟩))) ≠
      combine_of_remainder (poly_t.of_value (reference_mod POLY_ONE.value
        (FINGERPRINT_BYTE ⟨0x53, 0x3e, 0x7b, 0x88, 0x06, 0x19, 0xba, 0x38⟩ ++
          FINGERPRINT_BYTE ⟨0x79, 0x62, 0xbf, 0x45, 0xa3, 0x53, 0xb2, 0x2b⟩))) := by
  decide!

/-- Claim C13: `fingerprint_combine` is sensitive to the order of its arguments: for the
fingerprints of the two test sentences, `x = 79 62 bf 45 a3 53 b2 2b` and
`y = 53 3e 7b 88 06 19 ba 38`, the result for `(x, y)` differs from the result for
`(y, x)`, and both calls succeed. -/
theorem combine_order_sensitive (h : Host) (hs : h.supported) (g : Globals)
    (hg : g.consistent h) (buf : Nat) :
    (fingerprint_combine h g buf ⟨0x79, 0x62, 0xbf, 0x45, 0xa3, 0x53, 0xb2, 0x2b⟩
        ⟨0x53, 0x3e, 0x7b, 0x88, 0x06, 0x19, 0xba, 0x38⟩).map Prod.snd ≠
      (fingerprint_combine h g buf ⟨0x53, 0x3e, 0x7b, 0x88, 0x06, 0x19, 0xba, 0x38⟩
        ⟨0x79, 0x62, 0xbf, 0x45, 0xa3, 0x53, 0xb2, 0x2b⟩).map Prod.snd ∧
      (fingerprint_combine h g buf ⟨0x79, 0x62, 0xbf, 0x45, 0xa3, 0x53, 0xb2, 0x2b⟩
        ⟨0x53, 0x3e, 0x7b, 0x88, 0x06, 0x19, 0xba, 0x38⟩).map Prod.snd =
        .ok ⟨0xd4, 0x18, 0x54, 0x06, 0xa7, 0x68, 0x8c, 0x35⟩ := by
  constructor
  · rw [combine_ok_spec h hs g hg, combine_ok_spec h hs g hg]
    intro he
    simp only [Except.map, Except.ok.injEq] at he
    exact combine_swapped_bytes he
  · rw [combine_ok h hs g hg, combine_bytes]
    rfl

/-- Witness of C13: the two calls on a little-endian host of 32 bits. -/
theorem combine_order_sensitive_witness :
    (fingerprint_combine little32 Globals.initial 0 ⟨0x79, 0x62, 0xbf, 0x45, 0xa3, 0x53, 0xb2, 0x2b⟩
        ⟨0x53, 0x3e, 0x7b, 0x88, 0x06, 0x19, 0xba, 0x38⟩).map Prod.snd ≠
      (fingerprint_combine little32 Globals.initial 0 ⟨0x53, 0x3e, 0x7b, 0x88, 0x06, 0x19, 0xba, 0x38⟩
        ⟨0x79, 0x62, 0xbf, 0x45, 0xa3, 0x53, 0xb2, 0x2b⟩).map Prod.snd ∧
      (fingerprint_combine little32 Globals.initial 0 ⟨0x79, 0x62, 0xbf, 0x45, 0xa3, 0x53, 0xb2, 0x2b⟩
        ⟨0x53, 0x3e, 0x7b, 0x88, 0x06, 0x19, 0xba, 0x38⟩).map Prod.snd =
        .ok ⟨0xd4, 0x18, 0x54, 0x06, 0xa7, 0x68, 0x8c, 0x35⟩ :=
  combine_order_sensitive little32 (by decide) Globals.initial (by decide) 0

/-- Claim C14: for every fingerprint `fp`, `fingerprint_from_chars` with an empty text
(a terminator first, whatever follows it) returns `fp` byte for byte and leaves the
file-scope variables as they are, on every host. -/
theorem from_chars_empty_text (h : Host) (g : Globals) (a : Nat) (rest : List byte_t)
    (fp : fingerprint_t) :
    fingerprint_from_chars h g ⟨a, 0 :: rest⟩ fp = .ok (g, fp) :=
  from_chars_empty h g a rest fp

/-- Claim C15: for every byte sequence `s` without a zero byte (of a length that fits
`int`) and every byte sequence `t`, `fingerprint_from_text` on the text
`s ++ [0] ++ t` is `fingerprint_from_buffer` on the same pointer with the length of `s`,
and is `fingerprint_from_buffer` on `s` alone at any address: the bytes at and after the
first zero byte do not influence the result. -/
theorem from_text_truncates (h : Host) (hs : h.supported) (g : Globals)
    (hg : g.consistent h) (s t : List byte_t) (hz : ∀ x ∈ s, x ≠ 0)
    (hlen : s.length < 2 ^ 31) (a a2 : Nat) :
    fingerprint_from_text h g ⟨a, s ++ 0 :: t⟩ =
        fingerprint_from_buffer h g ⟨a, s ++ 0 :: t⟩ s.length ∧
      fingerprint_from_text h g ⟨a, s ++ 0 :: t⟩ =
        fingerprint_from_buffer h g ⟨a2, s⟩ s.length ∧
      (fingerprint_from_text h g ⟨a, s ++ 0 :: t⟩).map Prod.snd =
        .ok (bytes_of_value (reference_mod POLY_ONE.value s)) := by
  have h1 := from_text_ok h hs g hg a s t hz hlen
  have h2 := from_buffer_ok h hs g hg a s (0 :: t) hlen
  have h3 := from_buffer_ok h hs g hg a2 s [] hlen
  rw [List.append_nil] at h3
  rw [h1, h2, h3]
  exact ⟨rfl, rfl, rfl⟩

/-- Witness of C15: text `AB`, a terminator, then more bytes with a second terminator. -/
theorem from_text_truncates_witness :
    fingerprint_from_text little32 Globals.initial ⟨3, [65, 66] ++ 0 :: [67, 0, 68]⟩ =
        fingerprint_from_buffer little32 Globals.initial ⟨3, [65, 66] ++ 0 :: [67, 0, 68]⟩
          ([65, 66] : List byte_t).length ∧
      fingerprint_from_text little32 Globals.initial ⟨3, [65, 66] ++ 0 :: [67, 0, 68]⟩ =
        fingerprint_from_buffer little32 Globals.initial ⟨8, [65, 66]⟩
          ([65, 66] : List byte_t).length ∧
      (fingerprint_from_text little32 Globals.initial
          ⟨3, [65, 66] ++ 0 :: [67, 0, 68]⟩).map Prod.snd =
        .ok (bytes_of_value (reference_mod POLY_ONE.value [65, 66])) :=
  from_text_truncates little32 (by decide) Globals.initial (by decide) [65, 66] [67, 0, 68]
    (by simp) (by decide) 3 8

/-- Claim C16: for every remainder `(low, high)`, on a host of any byte order,
`poly_to_bytes` writes the canonical bytes: bytes 0 to 3 are the 32-bit pattern of `low`
least significant byte first, bytes 4 to 7 that of `high`; so the little-endian number
of bytes 0 to 3 is `low` and that of bytes 4 to 7 is `high`, as 32-bit patterns. -/
theorem to_bytes_little_endian (h : Host) (hW : 32 ≤ h.wordBits) (low high : Int) :
    poly_to_bytes h ⟨low, high⟩ = canonical_bytes (pattern 32 low) (pattern 32 high) ∧
      pack (poly_to_bytes h ⟨low, high⟩).byte0 (poly_to_bytes h ⟨low, high⟩).byte1
        (poly_to_bytes h ⟨low, high⟩).byte2 (poly_to_bytes h ⟨low, high⟩).byte3 =
        pattern 32 low ∧
      pack (poly_to_bytes h ⟨low, high⟩).byte4 (poly_to_bytes h ⟨low, high⟩).byte5
        (poly_to_bytes h ⟨low, high⟩).byte6 (poly_to_bytes h ⟨low, high⟩).byte7 =
        pattern 32 high := by
  have e : poly_to_bytes h ⟨low, high⟩ = canonical_bytes (pattern 32 low) (pattern 32 high) := by
    rw [poly_to_bytes_eq h hW]
    exact bytes_of_value_or _ _ (pattern_lt 32 low)
  rw [e]
  refine ⟨rfl, ?_, ?_⟩
  · simp only [canonical_bytes]
    rw [pack_bytes_low, Nat.mod_eq_of_lt (pattern_lt 32 low)]
  · simp only [canonical_bytes]
    rw [pack_bytes_low, Nat.mod_eq_of_lt (pattern_lt 32 high)]

/-- Witness of C16: a remainder with a negative half, on a big-endian host of 64 bits
whose layout is the reverse of the canonical one. -/
theorem to_bytes_little_endian_witness :
    poly_to_bytes big64 ⟨0x12345678, -2⟩ =
        canonical_bytes (pattern 32 0x12345678) (pattern 32 (-2)) ∧
      pack (poly_to_bytes big64 ⟨0x12345678, -2⟩).byte0 (poly_to_bytes big64 ⟨0x12345678, -2⟩).byte1
        (poly_to_bytes big64 ⟨0x12345678, -2⟩).byte2 (poly_to_bytes big64 ⟨0x12345678, -2⟩).byte3 =
        pattern 32 0x12345678 ∧
      pack (poly_to_bytes big64 ⟨0x12345678, -2⟩).byte4 (poly_to_bytes big64 ⟨0x12345678, -2⟩).byte5
        (poly_to_bytes big64 ⟨0x12345678, -2⟩).byte6 (poly_to_bytes big64 ⟨0x12345678, -2⟩).byte7 =
        pattern 32 (-2) :=
  to_bytes_little_endian big64 (by decide) 0x12345678 (-2)

/-- Claim C17: for every fingerprint `fp`, `fingerprint_hash` is `lo xor hi` computed by
`word_xor`, where `lo` is the `int_32_t` whose pattern is the little-endian number of
bytes 0 to 3 and `hi` that of bytes 4 to 7; the low 32 bits of the result are the xor of
the two little-endian numbers, and on a host of 32-bit words the result is that xor. -/
theorem hash_is_xor (h : Host) (hW : 32 ≤ h.wordBits) (fp : fingerprint_t) :
    fingerprint_hash h fp =
        word_xor h (int_32 (pack fp.byte0 fp.byte1 fp.byte2 fp.byte3 : Nat))
          (int_32 (pack fp.byte4 fp.byte5 fp.byte6 fp.byte7 : Nat)) ∧
      fingerprint_hash h fp % 2 ^ 32 =
        pack fp.byte0 fp.byte1 fp.byte2 fp.byte3 ^^^ pack fp.byte4 fp.byte5 fp.byte6 fp.byte7 ∧
      (h.wordBits = 32 → fingerprint_hash h fp =
        pack fp.byte0 fp.byte1 fp.byte2 fp.byte3 ^^^
          pack fp.byte4 fp.byte5 fp.byte6 fp.byte7) := by
  have e : fingerprint_hash h fp =
      word_xor h (int_32 (pack fp.byte0 fp.byte1 fp.byte2 fp.byte3 : Nat))
        (int_32 (pack fp.byte4 fp.byte5 fp.byte6 fp.byte7 : Nat)) := by
    simp only [fingerprint_hash, from_bytes_halves h hW, POLY_HALF]
  have e2 : fingerprint_hash h fp % 2 ^ 32 =
      pack fp.byte0 fp.byte1 fp.byte2 fp.byte3 ^^^ pack fp.byte4 fp.byte5 fp.byte6 fp.byte7 := by
    rw [e, word_xor_mod32 h hW, pattern32_int_32, pattern32_int_32, pattern32_natCast,
      pattern32_natCast, Nat.mod_eq_of_lt (pack_lt _ _ _ _), Nat.mod_eq_of_lt (pack_lt _ _ _ _)]
  refine ⟨e, e2, ?_⟩
  intro h32
  rw [← e2]
  have hlt : fingerprint_hash h fp < 2 ^ 32 := by
    rw [e, word_xor, ← h32]
    exact Nat.xor_lt_two_pow (word_lt h _) (word_lt h _)
  exact (Nat.mod_eq_of_lt hlt).symm

/-- Witness of C17: a fingerprint whose low half has its top bit set, on a host of
32-bit words. -/
theorem hash_is_xor_witness :
    fingerprint_hash little32 ⟨1, 2, 3, 0x84, 5, 6, 7, 8⟩ =
        word_xor little32 (int_32 (pack 1 2 3 0x84 : Nat)) (int_32 (pack 5 6 7 8 : Nat)) ∧
      fingerprint_hash little32 ⟨1, 2, 3, 0x84, 5, 6, 7, 8⟩ % 2 ^ 32 =
        pack 1 2 3 0x84 ^^^ pack 5 6 7 8 ∧
      (little32.wordBits = 32 → fingerprint_hash little32 ⟨1, 2, 3, 0x84, 5, 6, 7, 8⟩ =
        pack 1 2 3 0x84 ^^^ pack 5 6 7 8) :=
  hash_is_xor little32 (by decide) ⟨1, 2, 3, 0x84, 5, 6, 7, 8⟩

/-- Claim C18: for all fingerprints `fp1`, `fp2`, `fingerprint_equal` is not zero if and
only if each of the 8 bytes of `fp1` equals the byte of `fp2` at the same place, and
`fingerprint_equal_f` returns the same value. -/
theorem equal_iff_bytes (fp1 fp2 : fingerprint_t) :
    (fingerprint_equal fp1 fp2 ≠ 0 ↔
      (fp1.byte0 = fp2.byte0 ∧ fp1.byte1 = fp2.byte1 ∧ fp1.byte2 = fp2.byte2 ∧
        fp1.byte3 = fp2.byte3 ∧ fp1.byte4 = fp2.byte4 ∧ fp1.byte5 = fp2.byte5 ∧
        fp1.byte6 = fp2.byte6 ∧ fp1.byte7 = fp2.byte7)) ∧
      fingerprint_equal_f fp1 fp2 = fingerprint_equal fp1 fp2 := by
  refine ⟨?_, rfl⟩
  have hm := memcmp_eq_zero (FINGERPRINT_BYTE fp1) (FINGERPRINT_BYTE fp2) rfl
  unfold fingerprint_equal
  by_cases hc : memcmp (FINGERPRINT_BYTE fp1) (FINGERPRINT_BYTE fp2) = 0
  · have := hm.mp hc
    simp only [FINGERPRINT_BYTE, List.cons.injEq, and_true] at this
    simp only [hc, if_true]
    constructor
    · intro _; exact this
    · intro _; decide
  · simp only [hc, if_false, ne_eq, not_true_eq_false, false_iff]
    intro hb
    apply hc
    apply hm.mpr
    simp only [FINGERPRINT_BYTE, List.cons.injEq, and_true]
    exact hb

theorem int_32_small_cases (n : Nat) (h0 : 0 < n) (h3 : n ≤ 3) :
    int_32 (n : Int) = 1 ∨ int_32 (n : Int) = 2 ∨ int_32 (n : Int) = 3 := by
  rw [int_32_of_small _ (by omega) (by omega)]
  omega

/-- Claim C19: on a little-endian or big-endian host, for every byte sequence (zero bytes
included, of a length that fits `int`) and every start address,
`fingerprint_from_buffer` returns a fingerprint: no assertion fails and no byte outside
the buffer is read.  The calls that `poly_compute_mod` makes to `poly_extend_bytes` have
`len` in 1, 2, 3: the call for the leading bytes, made when the address is not a multiple
of 4, and the call for the trailing bytes, made when the length left by the parts before
it is positive. -/
theorem from_buffer_total (h : Host) (hs : h.supported) (g : Globals) (hg : g.consistent h)
    (s : List byte_t) (hlen : s.length < 2 ^ 31) (a : Nat) :
    fingerprint_from_buffer h g ⟨a, s⟩ s.length =
        .ok (g.probed h, bytes_of_value (reference_mod POLY_ONE.value s)) ∧
      (mod h (h.integer (h.word a)) 4 ≠ 0 →
        (int_32 (h.integer (4 - mod h (h.integer (h.word a)) 4)) = 1 ∨
          int_32 (h.integer (4 - mod h (h.integer (h.word a)) 4)) = 2 ∨
          int_32 (h.integer (4 - mod h (h.integer (h.word a)) 4)) = 3)) ∧
      ∃ r1 p1 l1 r2 p2 l2,
        poly_compute_mod_align h (g.probed h) POLY_ONE ⟨a, s⟩ (h.integer s.length) =
          .ok (r1, p1, l1) ∧
        poly_compute_mod_bulk h (g.probed h) r1 p1 l1 = .ok (r2, p2, l2) ∧
        (l2 > 0 → (int_32 l2 = 1 ∨ int_32 l2 = 2 ∨ int_32 l2 = 3)) := by
  have hW := hs.1
  have hf := probed_flag h g hg
  refine ⟨?_, ?_, ?_⟩
  · have h1 := from_buffer_ok h hs g hg a s [] hlen
    rw [List.append_nil] at h1
    exact h1
  · intro hj
    have hr := mod_four_range h hW (h.word a)
    generalize mod h (h.integer (h.word a)) 4 = j at hj hr
    rw [integer_of_small h hW _ (by omega) (by omega),
      int_32_of_small _ (by omega) (by omega)]
    omega
  · obtain ⟨s1, s2, a1, hs12, h1⟩ := align_ok h hs (g.probed h) hf POLY_ONE one_valid a s [] hlen
    have hl2 : s2.length < 2 ^ 31 := by
      have := congrArg List.length hs12
      rw [List.length_append] at this
      omega
    obtain ⟨ws, tl, a2, hs2, htl, h2⟩ :=
      bulk_ok h hs (g.probed h) hf (poly_t.of_value (reference_mod POLY_ONE.value s1))
        (of_value_valid _) a1 s2 [] hl2
    rw [List.append_nil] at h1
    refine ⟨_, _, _, _, _, _, ?_, h2, ?_⟩
    · rw [integer_of_small h hW _ (by omega) (by omega)]
      exact h1
    · intro hpos
      exact int_32_small_cases tl.length (by omega) htl

/-- Witness of C19: 9 bytes with zero bytes among them at an address that is 3 modulo 4,
on a big-endian host of 32 bits. -/
theorem from_buffer_total_witness :
    fingerprint_from_buffer big32 Globals.initial ⟨7, [0, 1, 0, 2, 0, 3, 0, 4, 0]⟩
        ([0, 1, 0, 2, 0, 3, 0, 4, 0] : List byte_t).length =
        .ok (Globals.initial.probed big32,
          bytes_of_value (reference_mod POLY_ONE.value [0, 1, 0, 2, 0, 3, 0, 4, 0])) ∧
      (mod big32 (big32.integer (big32.word 7)) 4 ≠ 0 →
        (int_32 (big32.integer (4 - mod big32 (big32.integer (big32.word 7)) 4)) = 1 ∨
          int_32 (big32.integer (4 - mod big32 (big32.integer (big32.word 7)) 4)) = 2 ∨
          int_32 (big32.integer (4 - mod big32 (big32.integer (big32.word 7)) 4)) = 3)) ∧
      ∃ r1 p1 l1 r2 p2 l2,
        poly_compute_mod_align big32 (Globals.initial.probed big32) POLY_ONE
            ⟨7, [0, 1, 0, 2, 0, 3, 0, 4, 0]⟩
            (big32.integer ([0, 1, 0, 2, 0, 3, 0, 4, 0] : List byte_t).length) =
          .ok (r1, p1, l1) ∧
        poly_compute_mod_bulk big32 (Globals.initial.probed big32) r1 p1 l1 = .ok (r2, p2, l2) ∧
        (l2 > 0 → (int_32 l2 = 1 ∨ int_32 l2 = 2 ∨ int_32 l2 = 3)) :=
  from_buffer_total big32 (by decide) Globals.initial (by decide)
    [0, 1, 0, 2, 0, 3, 0, 4, 0] (by decide) 7

section GF2

open Polynomial

/-! ## Polynomials over GF(2) as numbers, and as polynomials of Mathlib -/

theorem bit_length_aux_bound (fuel a : Nat) (h : a ≤ fuel) : a < 2 ^ bit_length_aux fuel a := by
  induction fuel generalizing a with
  | zero =>
    have : a = 0 := by omega
    subst this
    simp [bit_length_aux]
  | succ fuel ih =>
    rw [bit_length_aux]
    by_cases h0 : a = 0
    · simp [h0]
    · rw [if_neg h0, pow_succ]
      have := ih (a / 2) (by omega)
      omega

theorem bit_length_bound (a : Nat) : a < 2 ^ bit_length a :=
  bit_length_aux_bound a a (le_refl a)

theorem testBit_bit_length (a j : Nat) (hj : bit_length a ≤ j) : a.testBit j = false :=
  Nat.testBit_lt_two_pow (lt_of_lt_of_le (bit_length_bound a) (Nat.pow_le_pow_right (by decide) hj))

theorem coeff_bit_sum (a N j : Nat) :
    (∑ i in Finset.range N, if a.testBit i then (X : (ZMod 2)[X]) ^ i else 0).coeff j =
      if j < N ∧ a.testBit j then 1 else 0 := by
  rw [finset_sum_coeff]
  have e : ∀ i, (if a.testBit i then (X : (ZMod 2)[X]) ^ i else 0).coeff j =
      if j = i then (if a.testBit j then (1 : ZMod 2) else 0) else 0 := by
    intro i
    by_cases hji : j = i
    · subst hji
      by_cases hb : a.testBit j <;> simp [hb]
    · by_cases hb : a.testBit i <;> simp [hb, hji, coeff_X_pow]
  simp only [e, Finset.sum_ite_eq, Finset.mem_range]
  by_cases hN : j < N <;> simp [hN]

theorem gf2_rep_exists :
    ∃ φ : Nat → (ZMod 2)[X], ∀ a j, (φ a).coeff j = if a.testBit j then 1 else 0 := by
  refine ⟨fun a => ∑ i in Finset.range (bit_length a),
    if a.testBit i then (X : (ZMod 2)[X]) ^ i else 0, fun a j => ?_⟩
  rw [coeff_bit_sum]
  by_cases hj : j < bit_length a
  · simp [hj]
  · simp [hj, testBit_bit_length a j (by omega)]

theorem gf2_rep_sum (φ : Nat → (ZMod 2)[X])
    (hφ : ∀ a j, (φ a).coeff j = if a.testBit j then 1 else 0) (a : Nat) :
    ∑ i in Finset.range (bit_length a), (if a.testBit i then (X : (ZMod 2)[X]) ^ i else 0) =
      φ a := by
  ext j
  rw [coeff_bit_sum, hφ]
  by_cases hj : j < bit_length a
  · simp [hj]
  · simp [hj, testBit_bit_length a j (by omega)]

theorem gf2_rep_xor (φ : Nat → (ZMod 2)[X])
    (hφ : ∀ a j, (φ a).coeff j = if a.testBit j then 1 else 0) (a b : Nat) :
    φ (a ^^^ b) = φ a + φ b := by
  ext j
  rw [coeff_add, hφ, hφ, hφ, Nat.testBit_xor]
  cases a.testBit j <;> cases b.testBit j <;> decide

theorem gf2_rep_shift (φ : Nat → (ZMod 2)[X])
    (hφ : ∀ a j, (φ a).coeff j = if a.testBit j then 1 else 0) (a k : Nat) :
    φ (a <<< k) = φ a * X ^ k := by
  ext j
  rw [coeff_mul_X_pow', hφ, hφ, Nat.testBit_shiftLeft]
  by_cases hk : k ≤ j <;> simp [hk]

theorem gf2_rep_zero (φ : Nat → (ZMod 2)[X])
    (hφ : ∀ a j, (φ a).coeff j = if a.testBit j then 1 else 0) : φ 0 = 0 := by
  ext j
  rw [hφ]
  simp

theorem gf2_rep_injective (φ : Nat → (ZMod 2)[X])
    (hφ : ∀ a j, (φ a).coeff j = if a.testBit j then 1 else 0) (a b : Nat) (e : φ a = φ b) :
    a = b := by
  apply Nat.eq_of_testBit_eq
  intro j
  have h := congrArg (fun p => p.coeff j) e
  simp only [hφ] at h
  cases ha : a.testBit j <;> cases hb : b.testBit j <;> simp [ha, hb] at h ⊢

theorem gf2_rep_mul (φ : Nat → (ZMod 2)[X])
    (hφ : ∀ a j, (φ a).coeff j = if a.testBit j then 1 else 0) (a b : Nat) :
    φ (gf2_mul a b) = φ a * φ b := by
  have key : ∀ N : Nat,
      φ ((List.range N).foldl (fun acc i => if a.testBit i then acc ^^^ (b <<< i) else acc) 0) =
        (∑ i in Finset.range N, if a.testBit i then (X : (ZMod 2)[X]) ^ i else 0) * φ b := by
    intro N
    induction N with
    | zero => simp [gf2_rep_zero φ hφ]
    | succ N ih =>
      rw [List.range_succ, List.foldl_append, Finset.sum_range_succ, add_mul]
      simp only [List.foldl]
      by_cases hb : a.testBit N
      · simp only [hb, if_true]
        rw [gf2_rep_xor φ hφ, gf2_rep_shift φ hφ, ih, mul_comm (φ b)]
      · simp only [hb, if_false, Bool.false_eq_true]
        rw [ih]
        simp
  unfold gf2_mul
  rw [key, gf2_rep_sum φ hφ]

theorem field_pow_card (f : (ZMod 2)[X]) (hf : Irreducible f) (a : AdjoinRoot f) :
    a ^ 2 ^ f.natDegree = a := by
  haveI : Fact (Irreducible f) := ⟨hf⟩
  have hne : f ≠ 0 := hf.ne_zero
  haveI : Module.Finite (ZMod 2) (AdjoinRoot f) := (AdjoinRoot.powerBasis hne).finite
  haveI : Finite (AdjoinRoot f) := Module.finite_of_finite (ZMod 2)
  haveI : Fintype (AdjoinRoot f) := Fintype.ofFinite _
  have hcard : Fintype.card (AdjoinRoot f) = 2 ^ f.natDegree := by
    have h1 := card_eq_pow_finrank (K := ZMod 2) (V := AdjoinRoot f)
    rw [ZMod.card, (AdjoinRoot.powerBasis hne).finrank, AdjoinRoot.powerBasis_dim] at h1
    exact h1
  have h2 := FiniteField.pow_card a
  rwa [hcard] at h2

theorem sq_fixed_of_coprime {M : Type} [Monoid M] (a : M) (d n : Nat)
    (hd : a ^ 2 ^ d = a) (hn : a ^ 2 ^ n = a) (hc : Nat.Coprime d n) : a ^ 2 = a := by
  have it : ∀ k : Nat, (fun x : M => x ^ 2)^[k] a = a ^ 2 ^ k := by
    intro k
    induction k with
    | zero => simp
    | succ k ih => rw [Function.iterate_succ_apply', ih, ← pow_mul, ← pow_succ]
  have pd : Function.IsPeriodicPt (fun x : M => x ^ 2) d a := by
    show (fun x : M => x ^ 2)^[d] a = a
    rw [it, hd]
  have pn : Function.IsPeriodicPt (fun x : M => x ^ 2) n a := by
    show (fun x : M => x ^ 2)^[n] a = a
    rw [it, hn]
  have pg := pd.gcd pn
  rw [show d.gcd n = 1 from hc] at pg
  have := it 1
  rw [show (fun x : M => x ^ 2)^[1] a = a from pg] at this
  simpa using this.symm

theorem gf2_rep_one (φ : Nat → (ZMod 2)[X])
    (hφ : ∀ a j, (φ a).coeff j = if a.testBit j then 1 else 0) : φ 1 = 1 := by
  ext j
  rw [hφ, coeff_one]
  by_cases hj : j = 0
  · subst hj
    simp
  · have : Nat.testBit 1 j = false := by
      cases hb : Nat.testBit 1 j
      · rfl
      · exact absurd (Nat.testBit_one_eq_true_iff_self_eq_zero.mp hb) hj
    simp [this, hj]

theorem gf2_mod_aux_congr (φ : Nat → (ZMod 2)[X])
    (hφ : ∀ a j, (φ a).coeff j = if a.testBit j then 1 else 0) (f : (ZMod 2)[X]) (m : Nat)
    (hm : f ∣ φ m) (d k a : Nat) :
    AdjoinRoot.mk f (φ (gf2_mod_aux d k a m)) = AdjoinRoot.mk f (φ a) := by
  induction k generalizing a with
  | zero => rfl
  | succ k ih =>
    rw [gf2_mod_aux, ih]
    split
    · rw [gf2_rep_xor φ hφ, gf2_rep_shift φ hφ, map_add, map_mul,
        AdjoinRoot.mk_eq_zero.mpr hm, zero_mul, add_zero]
    · rfl

theorem gf2_frobenius_congr (φ : Nat → (ZMod 2)[X])
    (hφ : ∀ a j, (φ a).coeff j = if a.testBit j then 1 else 0) (f : (ZMod 2)[X]) (m : Nat)
    (hm : f ∣ φ m) (k r : Nat) :
    AdjoinRoot.mk f (φ (gf2_frobenius m k r)) = (AdjoinRoot.mk f (φ r)) ^ 2 ^ k := by
  induction k generalizing r with
  | zero => simp [gf2_frobenius]
  | succ k ih =>
    rw [gf2_frobenius, ih, gf2_mod, gf2_mod_aux_congr φ hφ f m hm, gf2_rep_mul φ hφ, map_mul,
      ← pow_two, ← pow_mul, ← pow_succ']

set_option maxRecDepth 100000 in
theorem cofactor_facts :
    modulus_cofactor = 0x35a04eec0024d3b3 ∧ gf2_frobenius modulus_cofactor 61 2 = 2 ∧
      gf2_mul 698090025647200439 6 ^^^ modulus_cofactor = 1 ∧
      bit_length modulus_cofactor = 62 ∧ gf2_mul 8 modulus_cofactor = modulus := by
  decide!

theorem no_proper_factor (φ : Nat → (ZMod 2)[X])
    (hφ : ∀ a j, (φ a).coeff j = if a.testBit j then 1 else 0) (f : (ZMod 2)[X])
    (hf : Irreducible f) (hdvd : f ∣ φ modulus_cofactor) (hdeg : f.natDegree < 61) : False := by
  haveI : Fact (Irreducible f) := ⟨hf⟩
  have hpos : 0 < f.natDegree := Irreducible.natDegree_pos hf
  have hfacts := cofactor_facts
  have h61 : AdjoinRoot.mk f (φ 2) ^ 2 ^ 61 = AdjoinRoot.mk f (φ 2) := by
    rw [← gf2_frobenius_congr φ hφ f modulus_cofactor hdvd, hfacts.2.1]
  have hd := field_pow_card f hf (AdjoinRoot.mk f (φ 2))
  have hc : Nat.Coprime f.natDegree 61 := by
    apply Nat.Coprime.symm
    rw [Nat.Prime.coprime_iff_not_dvd (by norm_num)]
    intro hdv
    have := Nat.le_of_dvd hpos hdv
    omega
  have hsq := sq_fixed_of_coprime _ _ _ hd h61 hc
  have h4 : AdjoinRoot.mk f (φ 4) = AdjoinRoot.mk f (φ 2) := by
    rw [show (4 : Nat) = gf2_mul 2 2 from by decide, gf2_rep_mul φ hφ, map_mul, ← pow_two, hsq]
  have h6 : AdjoinRoot.mk f (φ 6) = 0 := by
    rw [show (6 : Nat) = 4 ^^^ 2 from by decide, gf2_rep_xor φ hφ, map_add, h4, ← map_add,
      ← gf2_rep_xor φ hφ, Nat.xor_self, gf2_rep_zero φ hφ, map_zero]
  have hb : AdjoinRoot.mk f (φ (gf2_mul 698090025647200439 6 ^^^ modulus_cofactor)) =
      AdjoinRoot.mk f (φ 1) := by
    rw [hfacts.2.2.1]
  rw [gf2_rep_xor φ hφ, gf2_rep_mul φ hφ, map_add, map_mul, AdjoinRoot.mk_eq_zero.mpr hdvd,
    add_zero, h6, mul_zero, gf2_rep_one φ hφ, map_one] at hb
  exact zero_ne_one hb

theorem cofactor_irreducible : gf2_irreducible modulus_cofactor := by
  have hfacts := cofactor_facts
  refine ⟨by rw [hfacts.1]; decide, fun a b hab => ?_⟩
  obtain ⟨φ, hφ⟩ := gf2_rep_exists
  have hP : φ a * φ b = φ modulus_cofactor := by rw [← gf2_rep_mul φ hφ, hab]
  have hP0 : φ modulus_cofactor ≠ 0 := by
    intro h0
    have := gf2_rep_injective φ hφ _ _ (h0.trans (gf2_rep_zero φ hφ).symm)
    rw [hfacts.1] at this
    exact absurd this (by decide)
  have hA0 : φ a ≠ 0 := fun h0 => hP0 (by rw [← hP, h0, zero_mul])
  have hB0 : φ b ≠ 0 := fun h0 => hP0 (by rw [← hP, h0, mul_zero])
  have hdegP : (φ modulus_cofactor).natDegree ≤ 61 := by
    rw [natDegree_le_iff_coeff_eq_zero]
    intro N hN
    rw [hφ, testBit_bit_length _ _ (by rw [hfacts.2.2.2.1]; omega)]
    simp
  have hsum : (φ a).natDegree + (φ b).natDegree ≤ 61 := by
    rw [← natDegree_mul hA0 hB0, hP]
    exact hdegP
  have const : ∀ c : Nat, φ c ≠ 0 → (φ c).natDegree = 0 → c = 1 := by
    intro c hc0 hdeg
    apply gf2_rep_injective φ hφ
    rw [gf2_rep_one φ hφ, eq_C_of_natDegree_eq_zero hdeg, hφ]
    by_cases hb : c.testBit 0
    · simp [hb]
    · exfalso
      apply hc0
      rw [eq_C_of_natDegree_eq_zero hdeg, hφ]
      simp [hb]
  have small : ∀ c : Nat, φ c ≠ 0 → φ c ∣ φ modulus_cofactor → 0 < (φ c).natDegree →
      (φ c).natDegree < 61 → False := by
    intro c hc0 hdv hpos hlt
    have hnu : ¬ IsUnit (φ c) := fun hu => by
      have := natDegree_eq_zero_of_isUnit hu
      omega
    obtain ⟨f, hf, hfc⟩ := WfDvdMonoid.exists_irreducible_factor hnu hc0
    exact no_proper_factor φ hφ f hf (dvd_trans hfc hdv)
      (lt_of_le_of_lt (natDegree_le_of_dvd hfc hc0) hlt)
  by_cases hda : (φ a).natDegree = 0
  · exact Or.inl (const a hA0 hda)
  · by_cases hdb : (φ b).natDegree = 0
    · exact Or.inr (const b hB0 hdb)
    · exfalso
      exact small a hA0 ⟨φ b, hP.symm⟩ (by omega) (by omega)

end GF2

set_option maxRecDepth 100000 in
theorem modulus_facts :
    gf2_degree modulus = 64 ∧ gf2_mul 8 (modulus >>> 3) = modulus ∧
      gf2_degree (modulus >>> 3) = 61 ∧ 1 < modulus := by
  decide!

/-- Claim C20 as it is written fails: the modulus `P = x ^ 64 + ` the polynomial of
`poly64[128] = (116277429, 431580288)` is the product of `x ^ 3` and a polynomial of
degree 61, so it is not irreducible over GF(2). -/
theorem modulus_not_irreducible : ¬ gf2_irreducible modulus := by
  intro hirr
  have hf := modulus_facts
  rcases hirr.2 8 (modulus >>> 3) hf.2.1 with h8 | hq
  · exact absurd h8 (by decide)
  · have := hf.2.2.1
    rw [hq] at this
    exact absurd this (by decide)

/-- Claim C20, amended: the modulus `P = x ^ 64 + ` the polynomial of `poly64[128]` has
degree 64, its 64 lower coefficients are those that `poly64[128] = (116277429,
431580288)` encodes, and it is `x ^ 3` times the polynomial `Q = 0x35a04eec0024d3b3` (bit
`i` of the number is the coefficient of `x ^ i`), which has degree 61 and is irreducible
over GF(2). -/
theorem modulus_factors :
    (entry poly64 128 = ⟨116277429, 431580288⟩ ∧ modulus = 2 ^ 64 ||| poly_of_value P_low) ∧
      gf2_degree modulus = 64 ∧ gf2_mul 8 (modulus >>> 3) = modulus ∧
      gf2_degree (modulus >>> 3) = 61 ∧ modulus >>> 3 = 0x35a04eec0024d3b3 ∧
      gf2_irreducible (modulus >>> 3) := by
  have hf := modulus_facts
  exact ⟨⟨by decide, rfl⟩, hf.1, hf.2.1, hf.2.2.1, cofactor_facts.1, cofactor_irreducible⟩

/-! ## The word reducer as a fold -/

theorem of_value_halves (a b : Nat) (ha : a < 2 ^ 32) (hb : b < 2 ^ 32) :
    poly_t.of_value (a ||| b <<< 32) = poly_t.of_halves (a, b) := by
  have h := of_value_state (a : Int) (b : Int)
  simp only [state_value, pattern32_natCast, Nat.mod_eq_of_lt ha, Nat.mod_eq_of_lt hb] at h
  rw [h]
  simp only [POLY_FORM, int_32, poly_t.of_halves, pattern32_natCast, Nat.mod_eq_of_lt ha,
    Nat.mod_eq_of_lt hb]

theorem spec_word_step_lt (s : Nat × Nat) (w : Nat) (h2 : s.2 < 2 ^ 32) (hw : w < 2 ^ 32) :
    (spec_word_step s w).1 < 2 ^ 32 ∧ (spec_word_step s w).2 < 2 ^ 32 := by
  simp only [spec_word_step, entry_low, entry_high]
  exact ⟨Nat.xor_lt_two_pow (Nat.xor_lt_two_pow (Nat.xor_lt_two_pow (Nat.xor_lt_two_pow h2
      (pattern_lt _ _)) (pattern_lt _ _)) (pattern_lt _ _)) (pattern_lt _ _),
    Nat.xor_lt_two_pow (Nat.xor_lt_two_pow (Nat.xor_lt_two_pow (Nat.xor_lt_two_pow hw
      (pattern_lt _ _)) (pattern_lt _ _)) (pattern_lt _ _)) (pattern_lt _ _)⟩

theorem spec_word_step_value (s : Nat × Nat) (a b c d : byte_t) (h1 : s.1 < 2 ^ 32)
    (h2 : s.2 < 2 ^ 32) :
    (spec_word_step s (pack a b c d)).1 ||| (spec_word_step s (pack a b c d)).2 <<< 32 =
      reference_mod (s.1 ||| s.2 <<< 32) [a, b, c, d] := by
  rw [reference_mod_four, ← word_step_value s.1 s.2 (pack a b c d) h1 h2]
  simp only [spec_word_step, entry_low, entry_high, Nat.xor_assoc]

theorem spec_fold_value (k : Nat) (ws : List byte_t) (hws : ws.length = 4 * k)
    (s : Nat × Nat) (h1 : s.1 < 2 ^ 32) (h2 : s.2 < 2 ^ 32) :
    ((le_words ws).foldl spec_word_step s).1 < 2 ^ 32 ∧
      ((le_words ws).foldl spec_word_step s).2 < 2 ^ 32 ∧
      ((le_words ws).foldl spec_word_step s).1 |||
          ((le_words ws).foldl spec_word_step s).2 <<< 32 =
        reference_mod (s.1 ||| s.2 <<< 32) ws := by
  induction k generalizing ws s with
  | zero =>
    have : ws = [] := List.length_eq_zero.mp (by omega)
    subst this
    exact ⟨h1, h2, rfl⟩
  | succ k ih =>
    match ws, hws with
    | a :: b :: c :: d :: ws1, hws =>
      have hl : ws1.length = 4 * k := by
        simp only [List.length_cons] at hws
        omega
      have hlt := spec_word_step_lt s (pack a b c d) h2 (pack_lt a b c d)
      have hv := spec_word_step_value s a b c d h1 h2
      obtain ⟨r1, r2, r3⟩ := ih ws1 hl (spec_word_step s (pack a b c d)) hlt.1 hlt.2
      simp only [le_words, List.foldl]
      refine ⟨r1, r2, ?_⟩
      rw [r3, hv, show a :: b :: c :: d :: ws1 = [a, b, c, d] ++ ws1 from rfl,
        reference_mod_append]
    | [], hws => simp at hws
    | [_], hws => simp at hws; omega
    | [_, _], hws => simp at hws; omega
    | [_, _, _], hws => simp at hws; omega

theorem words_le_nonpositive (h : Host) (hW : 32 ≤ h.wordBits) (p : poly_t)
    (src : List byte_t) (len : Int) (hlen : len ≤ 0) :
    poly_extend_words_le h p src len =
      .ok (poly_t.of_halves (pattern 32 p.array0, pattern 32 p.array1)) := by
  unfold poly_extend_words_le
  have h0 : len.toNat = 0 := Int.toNat_eq_zero.mpr hlen
  have hn : ¬ len > 0 := by omega
  rw [h0]
  simp only [poly_extend_words_le_loop, hn, if_false, Except.map, POLY_FORM, POLY_HALF,
    int_32, poly_t.of_halves, pattern32_integer h hW]

theorem of_halves_of_valid (p : poly_t) (hp : p.valid) :
    poly_t.of_halves (pattern 32 p.array0, pattern 32 p.array1) = p := by
  obtain ⟨h0, h1⟩ := hp
  unfold int_32 at h0 h1
  simp only [poly_t.of_halves, h0, h1]

theorem words_le_fold (h : Host) (hW : 32 ≤ h.wordBits) (hL : h.isLittle) (p : poly_t)
    (ws rest : List byte_t) (k : Nat) (hws : ws.length = 4 * k) :
    poly_extend_words_le h p (ws ++ rest) (4 * (k : Int)) =
      .ok (poly_t.of_halves ((le_words ws).foldl spec_word_step
        (pattern 32 p.array0, pattern 32 p.array1))) := by
  rw [words_le_ok h hW hL p ws rest k hws]
  obtain ⟨r1, r2, r3⟩ := spec_fold_value k ws hws (pattern 32 p.array0, pattern 32 p.array1)
    (pattern_lt _ _) (pattern_lt _ _)
  rw [← of_value_halves _ _ r1 r2, r3]
  rfl

theorem spec_step_reference (s : Nat × Nat) (a b c d : byte_t) (h1 : s.1 < 2 ^ 32)
    (h2 : s.2 < 2 ^ 32) :
    poly_t.of_halves ((le_words [a, b, c, d]).foldl spec_word_step s) =
      poly_t.of_value (times_x_pow 32 (s.1 ||| s.2 <<< 32) ^^^ (pack a b c d <<< 32)) := by
  have hlt := spec_word_step_lt s (pack a b c d) h2 (pack_lt a b c d)
  simp only [le_words, List.foldl]
  rw [← of_value_halves _ _ hlt.1 hlt.2, spec_word_step_value s a b c d h1 h2,
    reference_mod_four]

theorem extend_bytes_fold (h : Host) (hs : h.supported) (g : Globals)
    (hg : g.poly_little_endian ≠ 0 ↔ h.isLittle) (t : poly_t) (bs rest : List byte_t)
    (h1 : 1 ≤ bs.length) (h3 : bs.length ≤ 3) :
    poly_extend_bytes h g t (bs ++ rest) bs.length =
      .ok (poly_t.of_halves
        ((le_words (carried_bytes (pattern 32 t.array1) (8 * bs.length) (4 - bs.length)
            ++ bs)).foldl spec_word_step
          ((pattern 32 t.array0 <<< (32 - 8 * bs.length)) % 2 ^ 32,
           ((pattern 32 t.array0 >>> (8 * bs.length)) ^^^
              (pattern 32 t.array1 <<< (32 - 8 * bs.length))) % 2 ^ 32))) := by
  have hlo : pattern 32 t.array0 < 2 ^ 32 := pattern_lt _ _
  have hhi : pattern 32 t.array1 < 2 ^ 32 := pattern_lt _ _
  match bs, h1, h3 with
  | [c0], _, _ =>
    have e := extend_bytes_one h hs g hg t c0 rest
    simp only [List.singleton_append, List.length_singleton, Nat.cast_one] at e ⊢
    rw [e]
    simp only [carried_bytes, List.range, List.range.loop, List.map, List.cons_append,
      List.nil_append, Nat.mul_zero, Nat.mul_one, Nat.shiftRight_zero, Nat.reduceMul,
      Nat.reduceSub]
    rw [spec_step_reference _ _ _ _ _ (Nat.mod_lt _ (by decide)) (Nat.mod_lt _ (by decide))]
    simp only [xor_mod_two_pow]
    rw [extend_one_value _ _ hlo hhi]
    rfl
  | [c0, c1], _, _ =>
    have e := extend_bytes_two h hs g hg t c0 c1 rest
    simp only [List.cons_append, List.nil_append, List.length_cons, List.length_nil,
      Nat.reduceAdd, Nat.cast_ofNat] at e ⊢
    rw [e]
    simp only [carried_bytes, List.range, List.range.loop, List.map, List.cons_append,
      List.nil_append, Nat.mul_zero, Nat.mul_one, Nat.shiftRight_zero, Nat.reduceMul,
      Nat.reduceSub]
    rw [spec_step_reference _ _ _ _ _ (Nat.mod_lt _ (by decide)) (Nat.mod_lt _ (by decide))]
    simp only [xor_mod_two_pow]
    rw [extend_two_value _ _ hlo hhi]
    rfl
  | [c0, c1, c2], _, _ =>
    have e := extend_bytes_three h hs g hg t c0 c1 c2 rest
    simp only [List.cons_append, List.nil_append, List.length_cons, List.length_nil,
      Nat.reduceAdd, Nat.cast_ofNat] at e ⊢
    rw [e]
    simp only [carried_bytes, List.range, List.range.loop, List.map, List.cons_append,
      List.nil_append, Nat.mul_zero, Nat.mul_one, Nat.shiftRight_zero, Nat.reduceMul,
      Nat.reduceSub]
    rw [spec_step_reference _ _ _ _ _ (Nat.mod_lt _ (by decide)) (Nat.mod_lt _ (by decide))]
    simp only [xor_mod_two_pow]
    rw [extend_three_value _ _ hlo hhi]
    rfl
  | [], h1, _ => simp at h1
  | _ :: _ :: _ :: _ :: _, _, h3 => simp at h3

/-! ## The length check of `poly_extend_bytes` -/

theorem extend_bytes_bad_length (h : Host) (g : Globals) (t : poly_t) (addr : List byte_t)
    (len : Int) (h1 : len ≠ 1) (h2 : len ≠ 2) (h3 : len ≠ 3) :
    poly_extend_bytes h g t addr len = .error Fault.assertion := by
  unfold poly_extend_bytes poly_extend_bytes_tmp
  simp only [h1, h2, h3, if_false]

theorem words_le_four_ok (h : Host) (p : poly_t) (a b c d : byte_t) :
    ∃ r, poly_extend_words_le h p [a, b, c, d] 4 = .ok r := by
  have e : (4 : Int).toNat = 3 + 1 := rfl
  have e3 : (3 : Nat) = 2 + 1 := rfl
  simp only [poly_extend_words_le, e, poly_extend_words_le_loop,
    show (4 : Int) > 0 from by decide, if_true, show (4 : Int) - 4 = 0 from rfl]
  simp only [e3, poly_extend_words_le_loop, show ¬ ((0 : Int) > 0) from by decide, if_false,
    Except.map]
  exact ⟨_, rfl⟩

theorem words_be_four_ok (h : Host) (p : poly_t) (a b c d : byte_t) :
    ∃ r, poly_extend_words_be h p [a, b, c, d] 4 = .ok r := by
  have e : (4 : Int).toNat = 3 + 1 := rfl
  have e3 : (3 : Nat) = 2 + 1 := rfl
  simp only [poly_extend_words_be, e, poly_extend_words_be_loop,
    show (4 : Int) > 0 from by decide, if_true, show (4 : Int) - 4 = 0 from rfl]
  simp only [e3, poly_extend_words_be_loop, show ¬ ((0 : Int) > 0) from by decide, if_false,
    Except.map]
  exact ⟨_, rfl⟩

theorem extend_bytes_tail (h : Host) (g : Globals) (p : poly_t) (a b c d : byte_t) :
    ∃ r, (if g.poly_little_endian ≠ 0 then poly_extend_words_le h p [a, b, c, d] 4
      else poly_extend_words_be h p [a, b, c, d] 4) = .ok r := by
  by_cases hl : g.poly_little_endian ≠ 0
  · rw [if_pos hl]; exact words_le_four_ok h p a b c d
  · rw [if_neg hl]; exact words_be_four_ok h p a b c d

theorem extend_bytes_good_length (h : Host) (g : Globals) (t : poly_t) (addr : List byte_t)
    (len : Int) (hl : len = 1 ∨ len = 2 ∨ len = 3) (ha : len ≤ addr.length) :
    ∃ r, poly_extend_bytes h g t addr len = .ok r := by
  unfold poly_extend_bytes poly_extend_bytes_tmp
  rcases hl with rfl | rfl | rfl
  · match addr, ha with
    | c0 :: rest, _ =>
      simp only [if_true, read_byte, List.get?, bind, Except.bind, pure, Except.pure]
      exact extend_bytes_tail h g _ _ _ _ _
    | [], ha => simp at ha
  · match addr, ha with
    | c0 :: c1 :: rest, _ =>
      simp only [show ¬ ((2 : Int) = 1) from by decide, if_false, if_true, read_byte,
        List.get?, bind, Except.bind, pure, Except.pure]
      exact extend_bytes_tail h g _ _ _ _ _
    | [], ha => simp at ha
    | [_], ha => simp at ha
  · match addr, ha with
    | c0 :: c1 :: c2 :: rest, _ =>
      simp only [show ¬ ((3 : Int) = 1) from by decide, show ¬ ((3 : Int) = 2) from by decide,
        if_false, if_true, read_byte, List.get?, bind, Except.bind, pure, Except.pure]
      exact extend_bytes_tail h g _ _ _ _ _
    | [], ha => simp at ha
    | [_], ha => simp at ha
    | [_, _], ha => simp at ha

/-! ## The probe of the byte order, by layout -/

theorem sig_byte_probe (s : Fin 4) :
    ((sig_byte 0x12345678 s).val = 0x78 ↔ s = 0) ∧ ((sig_byte 0x12345678 s).val = 0x56 ↔ s = 1) ∧
      ((sig_byte 0x12345678 s).val = 0x34 ↔ s = 2) ∧
      ((sig_byte 0x12345678 s).val = 0x12 ↔ s = 3) := by
  revert s
  decide

theorem layout_little (h : Host) :
    int_bytes_t.of_w h 0x12345678 = ⟨0x78, 0x56, 0x34, 0x12⟩ ↔ h.isLittle := by
  have k0 := sig_byte_probe h.sig0
  have k1 := sig_byte_probe h.sig1
  have k2 := sig_byte_probe h.sig2
  have k3 := sig_byte_probe h.sig3
  simp only [int_bytes_t.of_w, int_bytes_t.mk.injEq, Fin.ext_iff, Host.isLittle] at *
  exact and_congr k0.1 (and_congr k1.2.1 (and_congr k2.2.2.1 k3.2.2.2))

theorem layout_big (h : Host) :
    int_bytes_t.of_w h 0x12345678 = ⟨0x12, 0x34, 0x56, 0x78⟩ ↔ h.isBig := by
  have k0 := sig_byte_probe h.sig0
  have k1 := sig_byte_probe h.sig1
  have k2 := sig_byte_probe h.sig2
  have k3 := sig_byte_probe h.sig3
  simp only [int_bytes_t.of_w, int_bytes_t.mk.injEq, Fin.ext_iff, Host.isBig] at *
  exact and_congr k0.2.2.2 (and_congr k1.2.2.1 (and_congr k2.2.1 k3.1))

theorem find_byte_order_other (h : Host) (hW : 32 ≤ h.wordBits) (hL : ¬ h.isLittle)
    (hB : ¬ h.isBig) (g : Globals) :
    poly_find_byte_order h g = .error Fault.assertion := by
  have k0 := sig_byte_probe h.sig0
  have k1 := sig_byte_probe h.sig1
  have k2 := sig_byte_probe h.sig2
  have k3 := sig_byte_probe h.sig3
  have hw : h.word 0x12345678 = 0x12345678 := word_of_small h hW 0x12345678 (by decide)
  have t0 : (0 : Int).toNat = 0 := rfl
  have t8 : (8 : Int).toNat = 8 := rfl
  have t16 : (16 : Int).toNat = 16 := rfl
  have t24 : (24 : Int).toNat = 24 := rfl
  have c1 : ¬ ((0x12345678 >>> 0) % 2 ^ 8 = (sig_byte 0x12345678 h.sig0).val ∧
      (0x12345678 >>> 8) % 2 ^ 8 = (sig_byte 0x12345678 h.sig1).val ∧
      (0x12345678 >>> 16) % 2 ^ 8 = (sig_byte 0x12345678 h.sig2).val ∧
      (0x12345678 >>> 24) % 2 ^ 8 = (sig_byte 0x12345678 h.sig3).val) := by
    rintro ⟨a, b, c, d⟩
    exact hL ⟨k0.1.mp a.symm, k1.2.1.mp b.symm, k2.2.2.1.mp c.symm, k3.2.2.2.mp d.symm⟩
  have c2 : ¬ ((0x12345678 >>> 0) % 2 ^ 8 = (sig_byte 0x12345678 h.sig3).val ∧
      (0x12345678 >>> 8) % 2 ^ 8 = (sig_byte 0x12345678 h.sig2).val ∧
      (0x12345678 >>> 16) % 2 ^ 8 = (sig_byte 0x12345678 h.sig1).val ∧
      (0x12345678 >>> 24) % 2 ^ 8 = (sig_byte 0x12345678 h.sig0).val) := by
    rintro ⟨a, b, c, d⟩
    exact hB ⟨k0.2.2.2.mp d.symm, k1.2.2.1.mp c.symm, k2.2.1.mp b.symm, k3.1.mp a.symm⟩
  unfold poly_find_byte_order
  simp only [word_extract_eight h hW, hw, int_bytes_t.of_w, t0, t8, t16, t24]
  rw [if_neg c1, if_neg c2]

/-! ## The round trip through the canonical bytes -/

theorem bytes_of_from_bytes (h : Host) (hW : 32 ≤ h.wordBits) (b : fingerprint_t) :
    bytes_of_value (poly_from_bytes h b).value = b := by
  rw [from_bytes_value h hW, bytes_of_value_or _ _ (pack_lt _ _ _ _)]
  simp only [canonical_bytes, to_byte_pack0, to_byte_pack1, to_byte_pack2, to_byte_pack3]

theorem to_bytes_from_bytes (h : Host) (hW : 32 ≤ h.wordBits) (b : fingerprint_t) :
    poly_to_bytes h (poly_from_bytes h b) = b := by
  rw [poly_to_bytes_eq h hW, bytes_of_from_bytes h hW]

theorem from_bytes_to_bytes (h : Host) (hW : 32 ≤ h.wordBits) (t : poly_t) (ht : t.valid) :
    poly_from_bytes h (poly_to_bytes h t) = t := by
  rw [poly_to_bytes_eq h hW, from_bytes_of_value h hW _ (value_lt t), of_value_of_valid t ht]

/-! ## Linearity of the tables -/

set_option maxRecDepth 100000 in
theorem tables_valid :
    (∀ b : byte_t, (entry poly64 b).valid) ∧ (∀ b : byte_t, (entry poly72 b).valid) ∧
      (∀ b : byte_t, (entry poly80 b).valid) ∧ (∀ b : byte_t, (entry poly88 b).valid) := by
  decide!

theorem byte_poly_xor (a b : byte_t) :
    byte_poly (to_byte (a.val ^^^ b.val)) = byte_poly a ^^^ byte_poly b := by
  have hlt : a.val ^^^ b.val < 256 :=
    Nat.xor_lt_two_pow (show a.val < 2 ^ 8 from a.isLt) (show b.val < 2 ^ 8 from b.isLt)
  simp only [byte_poly, to_byte]
  rw [Nat.mod_eq_of_lt hlt, shiftLeft_xor]

theorem xor_halves (a0 a1 b0 b1 : Nat) (ha : a0 < 2 ^ 32) (hb : b0 < 2 ^ 32) :
    (a0 ||| a1 <<< 32) ^^^ (b0 ||| b1 <<< 32) = (a0 ^^^ b0) ||| ((a1 ^^^ b1) <<< 32) := by
  apply Nat.eq_of_testBit_eq
  intro i
  simp only [Nat.testBit_or, Nat.testBit_xor, Nat.testBit_shiftLeft]
  by_cases h32 : 32 ≤ i
  · simp [testBit_eq_false_of_lt ha h32, testBit_eq_false_of_lt hb h32, h32]
  · simp [h32]

theorem linear_of_spec (T : List poly_t) (K : Nat)
    (hspec : ∀ b : byte_t, (entry T b).value = times_x_pow K (byte_poly b))
    (hvalid : ∀ b : byte_t, (entry T b).valid) (a b : byte_t) :
    entry T (to_byte (a.val ^^^ b.val)) =
      poly_t.of_halves (entry_low T a ^^^ entry_low T b, entry_high T a ^^^ entry_high T b) := by
  have hv : (entry T (to_byte (a.val ^^^ b.val))).value =
      (entry T a).value ^^^ (entry T b).value := by
    rw [hspec, hspec, hspec, byte_poly_xor, times_x_pow_xor]
  rw [← of_value_of_valid _ (hvalid _), hv]
  simp only [poly_t.value, entry_low, entry_high]
  rw [xor_halves _ _ _ _ (pattern_lt _ _) (pattern_lt _ _),
    of_value_halves _ _ (Nat.xor_lt_two_pow (pattern_lt _ _) (pattern_lt _ _))
      (Nat.xor_lt_two_pow (pattern_lt _ _) (pattern_lt _ _))]

theorem tables_zero :
    entry poly64 0 = ⟨0, 0⟩ ∧ entry poly72 0 = ⟨0, 0⟩ ∧ entry poly80 0 = ⟨0, 0⟩ ∧
      entry poly88 0 = ⟨0, 0⟩ := by
  decide

/-! ## Byte by byte -/

theorem byte_by_byte_ok (h : Host) (hs : h.supported) (g : Globals)
    (hg : g.poly_little_endian ≠ 0 ↔ h.isLittle) (bs rest : List byte_t) (p : poly_t)
    (hp : p.valid) :
    extend_byte_by_byte h g p (bs ++ rest) bs.length =
      .ok (poly_t.of_value (reference_mod p.value bs)) := by
  induction bs generalizing p with
  | nil =>
    simp only [List.nil_append, List.length_nil, extend_byte_by_byte]
    rw [show reference_mod p.value [] = p.value from rfl, of_value_of_valid p hp]
  | cons b bs ih =>
    simp only [List.cons_append, List.length_cons, extend_byte_by_byte,
      extend_bytes_one h hs g hg p b (bs ++ rest), Except.bind, List.drop_succ_cons,
      List.drop_zero]
    rw [ih _ (of_value_valid _), value_reference,
      show b :: bs = [b] ++ bs from rfl, reference_mod_append]

/-! ## Texts in two fragments -/

theorem from_bytes_bytes_value (h : Host) (hW : 32 ≤ h.wordBits) (v : Nat) (hv : v < 2 ^ 64) :
    (poly_from_bytes h (bytes_of_value v)).value = v := by
  rw [from_bytes_of_value h hW v hv, value_of_value v hv]

set_option maxRecDepth 100000 in
theorem align_high_address :
    little32.integer (little32.word ((2147483649 : Nat) : Int)) = -2147483647 ∧
      mod little32 (-2147483647) 4 = 3 ∧
      (poly_compute_mod_align little32 (Globals.initial.probed little32) POLY_ONE
          ⟨2147483649, [1, 2, 3, 4, 5]⟩ 5).map (fun r => (r.2.1.addr, r.2.2)) =
        .ok (2147483650, 4) ∧
      2147483650 % 4 = 2 := by
  decide!

theorem le_words_length (k : Nat) (ws : List byte_t) (hws : ws.length = 4 * k) :
    (le_words ws).length = k := by
  induction k generalizing ws with
  | zero =>
    have : ws = [] := List.length_eq_zero.mp (by omega)
    subst this
    rfl
  | succ k ih =>
    match ws, hws with
    | a :: b :: c :: d :: ws1, hws =>
      have hl : ws1.length = 4 * k := by
        simp only [List.length_cons] at hws
        omega
      simp only [le_words, List.length_cons, ih ws1 hl]
    | [], hws => simp at hws
    | [_], hws => simp at hws; omega
    | [_, _], hws => simp at hws; omega
    | [_, _, _], hws => simp at hws; omega

theorem byte_by_byte_cons (h : Host) (hs : h.supported) (g : Globals)
    (hg : g.poly_little_endian ≠ 0 ↔ h.isLittle) (b : byte_t) (bs rest : List byte_t)
    (p : poly_t) :
    extend_byte_by_byte h g p (b :: bs ++ rest) (bs.length + 1) =
      .ok (poly_t.of_value (reference_mod p.value (b :: bs))) := by
  simp only [List.cons_append, extend_byte_by_byte,
    extend_bytes_one h hs g hg p b (bs ++ rest), Except.bind, List.drop_succ_cons,
    List.drop_zero]
  rw [byte_by_byte_ok h hs g hg bs rest _ (of_value_valid _), value_reference,
    show b :: bs = [b] ++ bs from rfl, reference_mod_append]

/-! ## Claims C21 to C30 -/

/-- Claim C21: on a little-endian host with words of at least 32 bits, for every
remainder `p` and every buffer `ws` of `4 * k` bytes (whatever follows it in memory),
`poly_extend_words_le` returns the remainder whose halves are the fold of
`spec_word_step` over the `k` little-endian words of `ws`, started at the 32-bit patterns
of the halves of `p`; for `len ≤ 0` it returns the halves of `p` themselves, which is `p`
when the halves of `p` are 32-bit signed values. -/
theorem words_le_is_fold (h : Host) (hW : 32 ≤ h.wordBits) (hL : h.isLittle) (p : poly_t)
    (ws rest : List byte_t) (k : Nat) (hws : ws.length = 4 * k) (src : List byte_t)
    (len : Int) (hlen : len ≤ 0) :
    poly_extend_words_le h p (ws ++ rest) (4 * (k : Int)) =
        .ok (poly_t.of_halves ((le_words ws).foldl spec_word_step
          (pattern 32 p.array0, pattern 32 p.array1))) ∧
      (le_words ws).length = k ∧
      poly_extend_words_le h p src len =
        .ok (poly_t.of_halves (pattern 32 p.array0, pattern 32 p.array1)) ∧
      (p.valid → poly_extend_words_le h p src len = .ok p) := by
  refine ⟨words_le_fold h hW hL p ws rest k hws, le_words_length k ws hws,
    words_le_nonpositive h hW p src len hlen, fun hp => ?_⟩
  rw [words_le_nonpositive h hW p src len hlen, of_halves_of_valid p hp]

theorem words_le_is_fold_witness :
    poly_extend_words_le little32 ⟨7, -9⟩ ([1, 2, 3, 4, 5, 6, 7, 8] ++ [9])
          (4 * ((2 : Nat) : Int)) =
        .ok (poly_t.of_halves ((le_words [1, 2, 3, 4, 5, 6, 7, 8]).foldl spec_word_step
          (pattern 32 (poly_t.array0 ⟨7, -9⟩), pattern 32 (poly_t.array1 ⟨7, -9⟩)))) ∧
      (le_words [1, 2, 3, 4, 5, 6, 7, 8]).length = 2 ∧
      poly_extend_words_le little32 ⟨7, -9⟩ [1, 2, 3] (-1) =
        .ok (poly_t.of_halves
          (pattern 32 (poly_t.array0 ⟨7, -9⟩), pattern 32 (poly_t.array1 ⟨7, -9⟩))) ∧
      (poly_t.valid ⟨7, -9⟩ → poly_extend_words_le little32 ⟨7, -9⟩ [1, 2, 3] (-1) =
        .ok ⟨7, -9⟩) :=
  words_le_is_fold little32 (by decide) (by decide) ⟨7, -9⟩ [1, 2, 3, 4, 5, 6, 7, 8] [9] 2
    (by decide) [1, 2, 3] (-1) (by decide)

/-- Claim C22: on a supported host whose `poly_little_endian` flag agrees with it, for
`len` in 1, 2, 3 (the length of `bs`), `n = 8 * len`, `x = 32 - n` and every remainder
`(low, high)`, `poly_extend_bytes` returns one `spec_word_step` applied to the remainder
`((low << x) mod 2 ^ 32, ((low >> n) xor (high << x)) mod 2 ^ 32)` and the word of the
4-byte group made of the `4 - len` least significant bytes of `high >> n`, least
significant first, followed by the `len` input bytes. -/
theorem extend_bytes_is_word_step (h : Host) (hs : h.supported) (g : Globals)
    (hg : g.poly_little_endian ≠ 0 ↔ h.isLittle) (t : poly_t) (bs rest : List byte_t)
    (h1 : 1 ≤ bs.length) (h3 : bs.length ≤ 3) :
    poly_extend_bytes h g t (bs ++ rest) bs.length =
        .ok (poly_t.of_halves
          ((le_words (carried_bytes (pattern 32 t.array1) (8 * bs.length) (4 - bs.length)
              ++ bs)).foldl spec_word_step
            ((pattern 32 t.array0 <<< (32 - 8 * bs.length)) % 2 ^ 32,
             ((pattern 32 t.array0 >>> (8 * bs.length)) ^^^
                (pattern 32 t.array1 <<< (32 - 8 * bs.length))) % 2 ^ 32))) ∧
      (le_words (carried_bytes (pattern 32 t.array1) (8 * bs.length) (4 - bs.length)
        ++ bs)).length = 1 := by
  refine ⟨extend_bytes_fold h hs g hg t bs rest h1 h3, ?_⟩
  apply le_words_length 1
  simp only [carried_bytes, List.length_append, List.length_map, List.length_range]
  omega

theorem extend_bytes_is_word_step_witness :
    poly_extend_bytes big32 (Globals.initial.probed big32) ⟨-3, 11⟩ ([200, 100] ++ [5, 6])
          (([200, 100] : List byte_t).length) =
        .ok (poly_t.of_halves
          ((le_words (carried_bytes (pattern 32 (poly_t.array1 ⟨-3, 11⟩))
              (8 * ([200, 100] : List byte_t).length) (4 - ([200, 100] : List byte_t).length)
              ++ [200, 100])).foldl spec_word_step
            ((pattern 32 (poly_t.array0 ⟨-3, 11⟩) <<<
                (32 - 8 * ([200, 100] : List byte_t).length)) % 2 ^ 32,
             ((pattern 32 (poly_t.array0 ⟨-3, 11⟩) >>> (8 * ([200, 100] : List byte_t).length)) ^^^
                (pattern 32 (poly_t.array1 ⟨-3, 11⟩) <<<
                  (32 - 8 * ([200, 100] : List byte_t).length))) % 2 ^ 32))) ∧
      (le_words (carried_bytes (pattern 32 (poly_t.array1 ⟨-3, 11⟩))
        (8 * ([200, 100] : List byte_t).length) (4 - ([200, 100] : List byte_t).length)
        ++ [200, 100])).length = 1 :=
  extend_bytes_is_word_step big32 (by decide) (Globals.initial.probed big32) (by decide)
    ⟨-3, 11⟩ [200, 100] [5, 6] (by decide) (by decide)

/-- Claim C23: `poly_extend_bytes` fails its assertion for every `len` other than 1, 2
and 3, 0 and 4 included, on every host, state, remainder and buffer; for `len` in 1, 2, 3
and a buffer of at least `len` bytes it returns a remainder. -/
theorem extend_bytes_length_check (h : Host) (g : Globals) (t : poly_t)
    (addr : List byte_t) (len : Int) :
    (len ≠ 1 → len ≠ 2 → len ≠ 3 → poly_extend_bytes h g t addr len = .error Fault.assertion) ∧
      poly_extend_bytes h g t addr 0 = .error Fault.assertion ∧
      poly_extend_bytes h g t addr 4 = .error Fault.assertion ∧
      ((len = 1 ∨ len = 2 ∨ len = 3) → len ≤ addr.length →
        ∃ r, poly_extend_bytes h g t addr len = .ok r) :=
  ⟨extend_bytes_bad_length h g t addr len,
   extend_bytes_bad_length h g t addr 0 (by decide) (by decide) (by decide),
   extend_bytes_bad_length h g t addr 4 (by decide) (by decide) (by decide),
   extend_bytes_good_length h g t addr len⟩

theorem extend_bytes_length_check_witness :
    poly_extend_bytes little64 Globals.initial ⟨1, 2⟩ [7, 8, 9] (-5) = .error Fault.assertion ∧
      ∃ r, poly_extend_bytes little64 Globals.initial ⟨1, 2⟩ [7, 8, 9] 3 = .ok r :=
  ⟨(extend_bytes_length_check little64 Globals.initial ⟨1, 2⟩ [7, 8, 9] (-5)).1
      (by decide) (by decide) (by decide),
   (extend_bytes_length_check little64 Globals.initial ⟨1, 2⟩ [7, 8, 9] 3).2.2.2
      (Or.inr (Or.inr rfl)) (by decide)⟩

/-- Claim C24, which the code does not meet: on the 32-bit little-endian host the address
`0x80000001` is `-2147483647` as an `integer_t`, `mod` of it and 4 is 3, so
`poly_compute_mod` consumes `j = 1` leading byte of a buffer of 5 bytes and the word
reducer starts at `0x80000002`, which is not a multiple of 4. -/
theorem align_misses_high_address :
    little32.integer (little32.word ((2147483649 : Nat) : Int)) = -2147483647 ∧
      mod little32 (-2147483647) 4 = 3 ∧
      (poly_compute_mod_align little32 (Globals.initial.probed little32) POLY_ONE
          ⟨2147483649, [1, 2, 3, 4, 5]⟩ 5).map (fun r => (r.2.1.addr, r.2.2)) =
        .ok (2147483650, 4) ∧
      2147483650 % 4 = 2 :=
  align_high_address

/-- Claim C25, which the code does not meet: `mod (-3, 4)` returns 3 where the Modula-3
`MOD` is 1, and `mod (3, -4)` returns -3 where the Modula-3 `MOD` is -1; 3 is not
congruent to -3 modulo 4. -/
theorem mod_is_not_modula3 :
    mod little32 (-3) 4 = 3 ∧ mod little64 (-3) 4 = 3 ∧ spec_mod (-3) 4 = 1 ∧
      mod little32 3 (-4) = -3 ∧ mod little64 3 (-4) = -3 ∧ spec_mod 3 (-4) = -1 ∧
      ¬ (4 : Int) ∣ 3 - -3 := by
  decide

/-- Claim C26: on a host with words of at least 32 bits, `poly_find_byte_order` sets
`poly_little_endian = 1` and leaves `poly_big_endian` as it was (0 at program start) when
the host lays `0x12345678` out as 78 56 34 12, sets `poly_big_endian = 1` and leaves
`poly_little_endian` as it was for the layout 12 34 56 78, and fails its assertion for
every other layout. -/
theorem find_byte_order_by_layout (h : Host) (hW : 32 ≤ h.wordBits) (g : Globals) :
    (int_bytes_t.of_w h 0x12345678 = ⟨0x78, 0x56, 0x34, 0x12⟩ →
        poly_find_byte_order h g =
          .ok { g with poly_little_endian := 1, poly_init_done := 1 }) ∧
      (int_bytes_t.of_w h 0x12345678 = ⟨0x12, 0x34, 0x56, 0x78⟩ →
        poly_find_byte_order h g = .ok { g with poly_big_endian := 1, poly_init_done := 1 }) ∧
      (int_bytes_t.of_w h 0x12345678 ≠ ⟨0x78, 0x56, 0x34, 0x12⟩ →
        int_bytes_t.of_w h 0x12345678 ≠ ⟨0x12, 0x34, 0x56, 0x78⟩ →
        poly_find_byte_order h g = .error Fault.assertion) :=
  ⟨fun e => find_byte_order_little h hW ((layout_little h).mp e) g,
   fun e => find_byte_order_big h hW ((layout_big h).mp e) g,
   fun e1 e2 => find_byte_order_other h hW (fun hL => e1 ((layout_little h).mpr hL))
     (fun hB => e2 ((layout_big h).mpr hB)) g⟩

theorem find_byte_order_by_layout_witness :
    poly_find_byte_order little32 Globals.initial =
        .ok { Globals.initial with poly_little_endian := 1, poly_init_done := 1 } ∧
      poly_find_byte_order big64 Globals.initial =
        .ok { Globals.initial with poly_big_endian := 1, poly_init_done := 1 } ∧
      poly_find_byte_order ⟨32, 1, 0, 3, 2⟩ Globals.initial = .error Fault.assertion :=
  ⟨(find_byte_order_by_layout little32 (by decide) Globals.initial).1 (by decide),
   (find_byte_order_by_layout big64 (by decide) Globals.initial).2.1 (by decide),
   (find_byte_order_by_layout ⟨32, 1, 0, 3, 2⟩ (by decide) Globals.initial).2.2
     (by decide) (by decide)⟩

/-- Claim C27: on a host with words of at least 32 bits, `poly_to_bytes (poly_from_bytes
b) = b` for every 8-byte array `b`, and `poly_from_bytes (poly_to_bytes t) = t` for every
remainder `t` whose two halves are 32-bit signed values. -/
theorem bytes_round_trip (h : Host) (hW : 32 ≤ h.wordBits) (b : fingerprint_t) (t : poly_t)
    (ht : t.valid) :
    poly_to_bytes h (poly_from_bytes h b) = b ∧ poly_from_bytes h (poly_to_bytes h t) = t :=
  ⟨to_bytes_from_bytes h hW b, from_bytes_to_bytes h hW t ht⟩

theorem bytes_round_trip_witness :
    poly_to_bytes big64 (poly_from_bytes big64 ⟨1, 2, 3, 4, 5, 6, 7, 200⟩) =
        ⟨1, 2, 3, 4, 5, 6, 7, 200⟩ ∧
      poly_from_bytes big64 (poly_to_bytes big64 ⟨-5, 7⟩) = ⟨-5, 7⟩ :=
  bytes_round_trip big64 (by decide) ⟨1, 2, 3, 4, 5, 6, 7, 200⟩ ⟨-5, 7⟩ (by decide)

/-- Claim C28: each of the tables `poly64`, `poly72`, `poly80`, `poly88` is linear over
GF(2) in its index: for all bytes `a` and `b` both halves of the entry at `a xor b` are
the xor of the halves of the entries at `a` and at `b`; so the entry at 0 is `(0, 0)`. -/
theorem tables_linear :
    table_linear poly64 ∧ table_linear poly72 ∧ table_linear poly80 ∧ table_linear poly88 ∧
      entry poly64 0 = ⟨0, 0⟩ ∧ entry poly72 0 = ⟨0, 0⟩ ∧ entry poly80 0 = ⟨0, 0⟩ ∧
      entry poly88 0 = ⟨0, 0⟩ :=
  ⟨linear_of_spec poly64 64 poly64_spec tables_valid.1,
   linear_of_spec poly72 72 poly72_spec tables_valid.2.1,
   linear_of_spec poly80 80 poly80_spec tables_valid.2.2.1,
   linear_of_spec poly88 88 poly88_spec tables_valid.2.2.2,
   tables_zero⟩

/-- Claim C29: on a supported host whose `poly_little_endian` flag agrees with it, for
every remainder `p` and bytes `b0 .. b3`, `poly_extend_bytes` on the first 2 or 3 bytes
equals 2 or 3 successive single-byte calls, one step of the word reducer of the host on
the word `b0 b1 b2 b3` equals four successive single-byte calls, and these calls return
a remainder. -/
theorem granularities_agree (h : Host) (hs : h.supported) (g : Globals)
    (hg : g.poly_little_endian ≠ 0 ↔ h.isLittle) (p : poly_t) (b0 b1 b2 b3 : byte_t)
    (rest : List byte_t) :
    poly_extend_bytes h g p (b0 :: b1 :: b2 :: b3 :: rest) 2 =
        extend_byte_by_byte h g p (b0 :: b1 :: b2 :: b3 :: rest) 2 ∧
      poly_extend_bytes h g p (b0 :: b1 :: b2 :: b3 :: rest) 3 =
        extend_byte_by_byte h g p (b0 :: b1 :: b2 :: b3 :: rest) 3 ∧
      (h.isLittle → poly_extend_words_le h p (b0 :: b1 :: b2 :: b3 :: rest) 4 =
        extend_byte_by_byte h g p (b0 :: b1 :: b2 :: b3 :: rest) 4) ∧
      (h.isBig → poly_extend_words_be h p (b0 :: b1 :: b2 :: b3 :: rest) 4 =
        extend_byte_by_byte h g p (b0 :: b1 :: b2 :: b3 :: rest) 4) ∧
      (∃ r2 r3 r4, extend_byte_by_byte h g p (b0 :: b1 :: b2 :: b3 :: rest) 2 = .ok r2 ∧
        extend_byte_by_byte h g p (b0 :: b1 :: b2 :: b3 :: rest) 3 = .ok r3 ∧
        extend_byte_by_byte h g p (b0 :: b1 :: b2 :: b3 :: rest) 4 = .ok r4) := by
  have e2 := byte_by_byte_cons h hs g hg b0 [b1] (b2 :: b3 :: rest) p
  have e3 := byte_by_byte_cons h hs g hg b0 [b1, b2] (b3 :: rest) p
  have e4 := byte_by_byte_cons h hs g hg b0 [b1, b2, b3] rest p
  have w2 := extend_bytes_two h hs g hg p b0 b1 (b2 :: b3 :: rest)
  have w3 := extend_bytes_three h hs g hg p b0 b1 b2 (b3 :: rest)
  have wl := fun hL => words_le_ok h hs.1 hL p [b0, b1, b2, b3] rest 1 rfl
  have wb := fun hB => words_be_ok h hs.1 hB p [b0, b1, b2, b3] rest 1 rfl
  simp only [List.cons_append, List.nil_append, List.length_cons, List.length_nil,
    Nat.reduceAdd, Nat.cast_one, mul_one] at e2 e3 e4 wl wb
  exact ⟨w2.trans e2.symm, w3.trans e3.symm, fun hL => (wl hL).trans e4.symm,
    fun hB => (wb hB).trans e4.symm, _, _, _, e2, e3, e4⟩

theorem granularities_agree_witness :
    poly_extend_bytes little32 (Globals.initial.probed little32) ⟨3, -4⟩
          (1 :: 2 :: 3 :: 4 :: [5]) 2 =
        extend_byte_by_byte little32 (Globals.initial.probed little32) ⟨3, -4⟩
          (1 :: 2 :: 3 :: 4 :: [5]) 2 ∧
      poly_extend_bytes little32 (Globals.initial.probed little32) ⟨3, -4⟩
          (1 :: 2 :: 3 :: 4 :: [5]) 3 =
        extend_byte_by_byte little32 (Globals.initial.probed little32) ⟨3, -4⟩
          (1 :: 2 :: 3 :: 4 :: [5]) 3 ∧
      (little32.isLittle → poly_extend_words_le little32 ⟨3, -4⟩ (1 :: 2 :: 3 :: 4 :: [5]) 4 =
        extend_byte_by_byte little32 (Globals.initial.probed little32) ⟨3, -4⟩
          (1 :: 2 :: 3 :: 4 :: [5]) 4) ∧
      (little32.isBig → poly_extend_words_be little32 ⟨3, -4⟩ (1 :: 2 :: 3 :: 4 :: [5]) 4 =
        extend_byte_by_byte little32 (Globals.initial.probed little32) ⟨3, -4⟩
          (1 :: 2 :: 3 :: 4 :: [5]) 4) ∧
      (∃ r2 r3 r4,
        extend_byte_by_byte little32 (Globals.initial.probed little32) ⟨3, -4⟩
          (1 :: 2 :: 3 :: 4 :: [5]) 2 = .ok r2 ∧
        extend_byte_by_byte little32 (Globals.initial.probed little32) ⟨3, -4⟩
          (1 :: 2 :: 3 :: 4 :: [5]) 3 = .ok r3 ∧
        extend_byte_by_byte little32 (Globals.initial.probed little32) ⟨3, -4⟩
          (1 :: 2 :: 3 :: 4 :: [5]) 4 = .ok r4) :=
  granularities_agree little32 (by decide) (Globals.initial.probed little32) (by decide)
    ⟨3, -4⟩ 1 2 3 4 [5]

theorem times_x_even (s : Nat) (h : s % 2 = 0) : times_x s = s / 2 := by
  unfold times_x
  have : ¬ s % 2 = 1 := by omega
  rw [if_neg this, Nat.xor_zero, Nat.shiftRight_eq_div_pow, pow_one]

theorem times_x_pow_even (k v : Nat) (h : v % 2 ^ k = 0) : times_x_pow k v = v / 2 ^ k := by
  induction k generalizing v with
  | zero => simp [times_x_pow]
  | succ k ih =>
    obtain ⟨c, rfl⟩ := Nat.dvd_of_mod_eq_zero h
    have e : 2 ^ (k + 1) * c = 2 * (2 ^ k * c) := by ring
    have h2 : (2 ^ (k + 1) * c) % 2 = 0 := by rw [e]; omega
    have hd : 2 ^ (k + 1) * c / 2 = 2 ^ k * c := by rw [e]; omega
    rw [times_x_pow, times_x_even _ h2, hd, ih _ (Nat.mul_mod_right _ _),
      Nat.mul_div_cancel_left _ (by positivity), Nat.mul_div_cancel_left _ (by positivity)]

theorem xor_shift_add (x a i : Nat) (hx : x < 2 ^ i) : x ^^^ (a <<< i) = 2 ^ i * a + x := by
  apply Nat.eq_of_testBit_eq
  intro j
  rw [Nat.testBit_mul_pow_two_add a hx j, Nat.testBit_xor, Nat.testBit_shiftLeft]
  by_cases hj : j < i
  · have : ¬ j ≥ i := by omega
    simp [hj, this]
  · have h1 : j ≥ i := by omega
    simp [hj, h1, testBit_eq_false_of_lt hx h1]

theorem push_plain (v : Nat) (b : byte_t) (hv : v % 256 = 0) (hlt : v < 2 ^ 64) :
    push_byte v b = v / 256 + b.val * 2 ^ 56 := by
  have h8 : v % 2 ^ 8 = 0 := hv
  rw [push_byte_eq, times_x_pow_even 8 v h8, xor_shift_add _ _ 56 (by omega)]
  norm_num
  omega

theorem le_number_lt (s : List byte_t) : le_number s < 256 ^ s.length := by
  induction s with
  | nil => simp [le_number]
  | cons b s ih =>
    have hb := b.isLt
    simp only [le_number, List.length_cons, pow_succ]
    omega

theorem le_number_injective (s t : List byte_t) (hl : s.length = t.length)
    (e : le_number s = le_number t) : s = t := by
  induction s generalizing t with
  | nil =>
    cases t with
    | nil => rfl
    | cons _ _ => simp at hl
  | cons a s ih =>
    cases t with
    | nil => simp at hl
    | cons c t =>
      have ha := a.isLt
      have hc := c.isLt
      simp only [le_number] at e
      simp only [List.length_cons, Nat.add_right_cancel_iff] at hl
      have h1 : a.val = c.val := by omega
      have h2 : le_number s = le_number t := by omega
      rw [Fin.ext h1, ih t hl h2]

theorem push_step_arith (v b n N : Nat) (hn : n ≤ 7) (hv : v % 2 ^ (8 * (n + 1)) = 0)
    (hb : b < 256) (hlt : v < 2 ^ 64) :
    v % 256 = 0 ∧ v / 256 + b * 2 ^ 56 < 2 ^ 64 ∧ (v / 256 + b * 2 ^ 56) % 2 ^ (8 * n) = 0 ∧
      (v / 256 + b * 2 ^ 56) / 2 ^ (8 * n) + 2 ^ (64 - 8 * n) * N =
        v / 2 ^ (8 * (n + 1)) + 2 ^ (64 - 8 * (n + 1)) * (b + 256 * N) := by
  interval_cases n <;>
    simp only [Nat.reduceMul, Nat.reducePow, Nat.reduceAdd, Nat.reduceSub] at hv hlt ⊢ <;>
    omega

theorem reference_plain (s : List byte_t) (v : Nat) (hs : s.length ≤ 8) (hlt : v < 2 ^ 64)
    (hv : v % 2 ^ (8 * s.length) = 0) :
    reference_mod v s = v / 2 ^ (8 * s.length) + 2 ^ (64 - 8 * s.length) * le_number s := by
  induction s generalizing v with
  | nil => simp [reference_mod, le_number]
  | cons b s ih =>
    simp only [List.length_cons] at hs hv ⊢
    obtain ⟨h1, h2, h3, h4⟩ := push_step_arith v b.val s.length (le_number s) (by omega) hv
      b.isLt hlt
    have e : reference_mod v (b :: s) = reference_mod (push_byte v b) s := rfl
    rw [e, push_plain v b h1 hlt, ih _ (by omega) h2 h3, h4]
    rfl

theorem short_injective (s t : List byte_t) (hs : s.length ≤ 7) (ht : t.length ≤ 7)
    (e : reference_mod (2 ^ 63) s = reference_mod (2 ^ 63) t) : s = t := by
  have hmod : ∀ n, n ≤ 7 → 2 ^ 63 % 2 ^ (8 * n) = 0 := by
    intro n hn
    interval_cases n <;> norm_num
  rw [reference_plain s _ (by omega) (by norm_num) (hmod _ hs),
    reference_plain t _ (by omega) (by norm_num) (hmod _ ht)] at e
  have hNs := le_number_lt s
  have hNt := le_number_lt t
  suffices hh : s.length = t.length ∧ le_number s = le_number t from
    le_number_injective s t hh.1 hh.2
  generalize le_number s = N at e hNs ⊢
  generalize le_number t = M at e hNt ⊢
  generalize s.length = n at e hNs hs ⊢
  generalize t.length = m at e hNt ht ⊢
  interval_cases n <;> interval_cases m <;>
    simp only [Nat.reduceMul, Nat.reducePow, Nat.reduceAdd, Nat.reduceSub, Nat.reduceDiv]
      at e hNs hNt ⊢ <;>
    constructor <;> first | trivial | omega

/-! ## Halves of a 64-bit number -/

theorem or_eq_add (a b : Nat) (ha : a < 2 ^ 32) : a ||| b <<< 32 = 2 ^ 32 * b + a := by
  rw [Nat.mul_add_lt_is_or ha b, Nat.shiftLeft_eq, Nat.or_comm, Nat.mul_comm]

theorem low_or (a b : Nat) (ha : a < 2 ^ 32) : (a ||| b <<< 32) % 2 ^ 32 = a := by
  rw [or_eq_add a b ha]
  omega

theorem high_or (a b : Nat) (ha : a < 2 ^ 32) : (a ||| b <<< 32) >>> 32 = b := by
  rw [or_eq_add a b ha, Nat.shiftRight_eq_div_pow]
  omega

theorem halves_join (v : Nat) (hv : v < 2 ^ 64) :
    v % 2 ^ 32 ||| ((v >>> 32) % 2 ^ 32) <<< 32 = v := by
  rw [or_eq_add _ _ (Nat.mod_lt _ (by decide)), Nat.shiftRight_eq_div_pow]
  omega

theorem bytes_of_value_injective (v w : Nat) (hv : v < 2 ^ 64) (hw : w < 2 ^ 64)
    (e : bytes_of_value v = bytes_of_value w) : v = w := by
  have h1 := from_bytes_bytes_value little32 (by decide) v hv
  have h2 := from_bytes_bytes_value little32 (by decide) w hw
  rw [← h1, e, h2]

/-! ## The mixing transform and its inverse -/

theorem unmix_mix (v : Nat) (hv : v < 2 ^ 64) : unmix_value (mix_value v) = v := by
  have hl : v % 2 ^ 32 < 2 ^ 32 := Nat.mod_lt _ (by decide)
  have hh : (v >>> 32) % 2 ^ 32 < 2 ^ 32 := Nat.mod_lt _ (by decide)
  have e := halves_join v hv
  unfold unmix_value mix_value
  rw [low_or _ _ (Nat.mod_lt _ (by decide)), high_or _ _ (Nat.mod_lt _ (by decide))]
  generalize v % 2 ^ 32 = lo at hl e ⊢
  generalize (v >>> 32) % 2 ^ 32 = hi at hh e ⊢
  have a0 : ((lo * 0xff208489 + hi * 0xf4872e10) % 2 ^ 32 * 0xa85e5689 +
      (lo * 0x402d619b + hi * 0x0bf359a7) % 2 ^ 32 % 2 ^ 32 * 0xbec98910) % 2 ^ 32 = lo := by
    omega
  have a1 : ((lo * 0xff208489 + hi * 0xf4872e10) % 2 ^ 32 * 0xbd16a52b +
      (lo * 0x402d619b + hi * 0x0bf359a7) % 2 ^ 32 % 2 ^ 32 * 0x2b50fa47) % 2 ^ 32 = hi := by
    omega
  rw [a0, a1, e]

theorem mix_unmix (m : Nat) (hm : m < 2 ^ 64) : mix_value (unmix_value m) = m := by
  have hl : m % 2 ^ 32 < 2 ^ 32 := Nat.mod_lt _ (by decide)
  have hh : (m >>> 32) % 2 ^ 32 < 2 ^ 32 := Nat.mod_lt _ (by decide)
  have e := halves_join m hm
  unfold unmix_value mix_value
  rw [low_or _ _ (Nat.mod_lt _ (by decide)), high_or _ _ (Nat.mod_lt _ (by decide))]
  generalize m % 2 ^ 32 = lo at hl e ⊢
  generalize (m >>> 32) % 2 ^ 32 = hi at hh e ⊢
  have a0 : ((lo * 0xa85e5689 + hi * 0xbec98910) % 2 ^ 32 * 0xff208489 +
      (lo * 0xbd16a52b + hi * 0x2b50fa47) % 2 ^ 32 % 2 ^ 32 * 0xf4872e10) % 2 ^ 32 = lo := by
    omega
  have a1 : ((lo * 0xa85e5689 + hi * 0xbec98910) % 2 ^ 32 * 0x402d619b +
      (lo * 0xbd16a52b + hi * 0x2b50fa47) % 2 ^ 32 % 2 ^ 32 * 0x0bf359a7) % 2 ^ 32 = hi := by
    omega
  rw [a0, a1, e]

theorem mix_value_lt (v : Nat) : mix_value v < 2 ^ 64 := by
  unfold mix_value
  rw [or_eq_add _ _ (Nat.mod_lt _ (by decide))]
  omega

theorem unmix_value_lt (v : Nat) : unmix_value v < 2 ^ 64 := by
  unfold unmix_value
  rw [or_eq_add _ _ (Nat.mod_lt _ (by decide))]
  omega

theorem mix_valid (h : Host) (p : poly_t) : (fingerprint_mix h p).valid :=
  ⟨poly_fix_32_normal h _, poly_fix_32_normal h _⟩

theorem mix_value_eq (h : Host) (hW : 32 ≤ h.wordBits) (p : poly_t) :
    (fingerprint_mix h p).value = mix_value p.value := by
  have pA : pattern 32 FINGERPRINT_A = 0xff208489 := by decide
  have pB : pattern 32 FINGERPRINT_B = 0xf4872e10 := by decide
  have pC : pattern 32 FINGERPRINT_C = 0x402d619b := by decide
  have pD : pattern 32 FINGERPRINT_D = 0x0bf359a7 := by decide
  simp only [fingerprint_mix, poly_t.value, mix_value, poly_fix_32_pattern h hW,
    word_plus_times h hW, POLY_HALF, pA, pB, pC, pD, low_or _ _ (pattern_lt 32 p.array0),
    high_or _ _ (pattern_lt 32 p.array0), Nat.mod_eq_of_lt (pattern_lt 32 p.array1)]

theorem mix_eq_of_value (h : Host) (hW : 32 ≤ h.wordBits) (p : poly_t) :
    fingerprint_mix h p = poly_t.of_value (mix_value p.value) := by
  rw [← mix_value_eq h hW, of_value_of_valid _ (mix_valid h p)]

theorem mix_injective (h : Host) (hW : 32 ≤ h.wordBits) (p q : poly_t) (hp : p.valid)
    (hq : q.valid) (e : fingerprint_mix h p = fingerprint_mix h q) : p = q := by
  have ev : mix_value p.value = mix_value q.value := by
    rw [← mix_value_eq h hW, ← mix_value_eq h hW, e]
  have e2 : p.value = q.value := by
    rw [← unmix_mix p.value (value_lt p), ev, unmix_mix q.value (value_lt q)]
  rw [← of_value_of_valid p hp, e2, of_value_of_valid q hq]

theorem mix_surjective (h : Host) (hW : 32 ≤ h.wordBits) (m : poly_t) (hm : m.valid) :
    (poly_t.of_value (unmix_value m.value)).valid ∧
      fingerprint_mix h (poly_t.of_value (unmix_value m.value)) = m := by
  refine ⟨of_value_valid _, ?_⟩
  rw [mix_eq_of_value h hW, value_of_value _ (unmix_value_lt _), mix_unmix _ (value_lt m),
    of_value_of_valid m hm]

/-! ## The sign-extended bottom 32 bits -/

theorem poly_fix_32_spec (h : Host) (hW : 32 ≤ h.wordBits) (x : Nat) :
    -2 ^ 31 ≤ poly_fix_32 h x ∧ poly_fix_32 h x < 2 ^ 31 ∧
      (2 ^ 32 : Int) ∣ poly_fix_32 h x - (x : Int) ∧
      ∀ w : Int, -2 ^ 31 ≤ w → w < 2 ^ 31 → (2 ^ 32 : Int) ∣ w - (x : Int) →
        w = poly_fix_32 h x := by
  rw [poly_fix_32_eq h hW]
  unfold signed
  simp only [Nat.reduceSub, Nat.reducePow, Nat.mod_mod]
  norm_num
  split <;> refine ⟨?_, ?_, ?_, ?_⟩ <;> (try intro w hw1 hw2 hw3) <;> omega

/-! ## The reference is affine over GF(2) -/

theorem to_byte_xor_val (x y : byte_t) : (to_byte (x.val ^^^ y.val)).val = x.val ^^^ y.val := by
  have hlt : x.val ^^^ y.val < 256 :=
    Nat.xor_lt_two_pow (show x.val < 2 ^ 8 from x.isLt) (show y.val < 2 ^ 8 from y.isLt)
  simp only [to_byte]
  exact Nat.mod_eq_of_lt hlt

theorem push_byte_xor_bytes (u v : Nat) (x y : byte_t) :
    push_byte (u ^^^ v) (to_byte (x.val ^^^ y.val)) = push_byte u x ^^^ push_byte v y := by
  rw [push_byte_eq, push_byte_eq, push_byte_eq, to_byte_xor_val, times_x_pow_xor, shiftLeft_xor]
  apply Nat.eq_of_testBit_eq
  intro i
  simp only [Nat.testBit_xor]
  cases (times_x_pow 8 u).testBit i <;> cases (times_x_pow 8 v).testBit i <;>
    cases (x.val <<< 56).testBit i <;> cases (y.val <<< 56).testBit i <;> rfl

theorem reference_xor (a b : List byte_t) (hl : a.length = b.length) (u v : Nat) :
    reference_mod (u ^^^ v) (xor_bytes a b) = reference_mod u a ^^^ reference_mod v b := by
  induction a generalizing b u v with
  | nil =>
    cases b with
    | nil => rfl
    | cons _ _ => simp at hl
  | cons x a ih =>
    cases b with
    | nil => simp at hl
    | cons y b =>
      simp only [List.length_cons, Nat.add_right_cancel_iff] at hl
      have e1 : reference_mod (u ^^^ v) (xor_bytes (x :: a) (y :: b)) =
          reference_mod (push_byte (u ^^^ v) (to_byte (x.val ^^^ y.val))) (xor_bytes a b) := rfl
      rw [e1, push_byte_xor_bytes, ih b hl]
      rfl

theorem xor_bytes_length (a b : List byte_t) (hl : a.length = b.length) :
    (xor_bytes a b).length = a.length := by
  simp [xor_bytes, List.length_zipWith, hl]

theorem reference_affine (a b c : List byte_t) (hab : a.length = b.length)
    (hac : a.length = c.length) (v : Nat) :
    reference_mod v (xor_bytes (xor_bytes a b) c) =
      reference_mod v a ^^^ reference_mod v b ^^^ reference_mod v c := by
  have hv : v = (v ^^^ v) ^^^ v := by simp
  have hl : (xor_bytes a b).length = c.length := by rw [xor_bytes_length a b hab, hac]
  conv_lhs => rw [hv]
  rw [reference_xor _ c hl, reference_xor a b hab]

theorem to_byte_xor (x y : Nat) :
    to_byte (x ^^^ y) = to_byte ((to_byte x).val ^^^ (to_byte y).val) := by
  apply Fin.ext
  show (x ^^^ y) % 2 ^ 8 = (x % 2 ^ 8 ^^^ y % 2 ^ 8) % 2 ^ 8
  rw [xor_mod_two_pow, xor_mod_two_pow, Nat.mod_mod, Nat.mod_mod]

theorem bytes_of_value_xor (x y : Nat) :
    bytes_of_value (x ^^^ y) = fingerprint_xor (bytes_of_value x) (bytes_of_value y) := by
  simp only [bytes_of_value, fingerprint_xor, shiftRight_xor, ← to_byte_xor]

/-! ## Negative sizes -/

theorem from_buffer_nonpositive (h : Host) (hs : h.supported) (g : Globals) (buffer : Ptr)
    (size : Int) (h0 : size ≤ 0) (h1 : -2147483648 ≤ size) :
    fingerprint_from_buffer h g buffer size = .ok (g.probed h, poly_to_bytes h POLY_ONE) := by
  have hi : h.integer size = size := integer_of_small h hs.1 size h1 (by omega)
  have n4 : ¬ size ≥ 4 := by omega
  have n0 : ¬ size > 0 := by omega
  have na : ¬ (size ≥ 4 ∧ mod h (h.integer (h.word buffer.addr)) 4 ≠ 0) := fun c => n4 c.1
  have ea : poly_compute_mod_align h (g.probed h) POLY_ONE buffer size =
      .ok (POLY_ONE, buffer, size) := by
    unfold poly_compute_mod_align
    simp only
    rw [if_neg na]
    rfl
  have eb : poly_compute_mod_bulk h (g.probed h) POLY_ONE buffer size =
      .ok (POLY_ONE, buffer, size) := by
    unfold poly_compute_mod_bulk
    rw [if_neg n4]
    rfl
  have ec : poly_compute_mod_finish h (g.probed h) POLY_ONE buffer size = .ok POLY_ONE := by
    unfold poly_compute_mod_finish
    rw [if_neg n0]
    rfl
  unfold fingerprint_from_buffer poly_compute_mod
  rw [probe_ok h hs g, hi]
  simp only [bind, Except.bind, ea, eb, ec, pure, Except.pure]

/-! ## An input of 8 bytes with the zero fingerprint -/

set_option maxRecDepth 100000 in
theorem zero_fingerprint_facts :
    FINGERPRINT_BYTE (bytes_of_value (entry poly64 128).value) =
        [0xb5, 0x40, 0xee, 0x06, 0x80, 0x64, 0xb9, 0x19] ∧
      bytes_of_value (reference_mod POLY_ONE.value
        [0xb5, 0x40, 0xee, 0x06, 0x80, 0x64, 0xb9, 0x19]) = fingerprint_zero := by
  decide!

/-! ## Claims C31 to C36 -/

/-- Claim C31: on a supported host with consistent globals, for any two distinct byte
sequences of at most 7 bytes each (differing in length or in content), at any addresses
and whatever follows them in memory, `fingerprint_from_buffer` returns two fingerprints
that differ. -/
theorem from_buffer_injective_short (h : Host) (hs : h.supported) (g : Globals)
    (hg : g.consistent h) (s t : List byte_t) (hs7 : s.length ≤ 7) (ht7 : t.length ≤ 7)
    (hne : s ≠ t) (a1 a2 : Nat) (r1 r2 : List byte_t) :
    ∃ f1 f2, fingerprint_from_buffer h g ⟨a1, s ++ r1⟩ s.length = .ok (g.probed h, f1) ∧
      fingerprint_from_buffer h g ⟨a2, t ++ r2⟩ t.length = .ok (g.probed h, f2) ∧ f1 ≠ f2 := by
  refine ⟨_, _, from_buffer_ok h hs g hg a1 s r1 (by omega),
    from_buffer_ok h hs g hg a2 t r2 (by omega), ?_⟩
  intro e
  have one : POLY_ONE.value = 2 ^ 63 := by decide
  have ev := bytes_of_value_injective _ _ (reference_mod_lt _ s (value_lt _))
    (reference_mod_lt _ t (value_lt _)) e
  rw [one] at ev
  exact hne (short_injective s t hs7 ht7 ev)

theorem from_buffer_injective_short_witness :
    ∃ f1 f2,
      fingerprint_from_buffer little32 Globals.initial ⟨1, [0, 0, 1] ++ [9]⟩
          ([0, 0, 1] : List byte_t).length = .ok (Globals.initial.probed little32, f1) ∧
        fingerprint_from_buffer little32 Globals.initial ⟨8, [0, 0, 1, 0] ++ []⟩
          ([0, 0, 1, 0] : List byte_t).length = .ok (Globals.initial.probed little32, f2) ∧
        f1 ≠ f2 :=
  from_buffer_injective_short little32 (by decide) Globals.initial (by decide) [0, 0, 1]
    [0, 0, 1, 0] (by decide) (by decide) (by decide) 1 8 [9] []

/-- Claim C32: the canonical encoding of `poly64[128]` is the 8 bytes b5 40 ee 06 80 64
b9 19, and on a supported host with consistent globals `fingerprint_from_buffer` of
these 8 bytes, at any address, is the all-zero fingerprint `fingerprint_zero`. -/
theorem zero_fingerprint_input (h : Host) (hs : h.supported) (g : Globals)
    (hg : g.consistent h) (a : Nat) (rest : List byte_t) :
    FINGERPRINT_BYTE (poly_to_bytes h (entry poly64 128)) =
        [0xb5, 0x40, 0xee, 0x06, 0x80, 0x64, 0xb9, 0x19] ∧
      fingerprint_from_buffer h g
          ⟨a, FINGERPRINT_BYTE (poly_to_bytes h (entry poly64 128)) ++ rest⟩ 8 =
        .ok (g.probed h, fingerprint_zero) := by
  have hf := zero_fingerprint_facts
  rw [poly_to_bytes_eq h hs.1, hf.1]
  refine ⟨rfl, ?_⟩
  have e := from_buffer_ok h hs g hg a [0xb5, 0x40, 0xee, 0x06, 0x80, 0x64, 0xb9, 0x19] rest
    (by decide)
  rw [hf.2] at e
  exact e

theorem zero_fingerprint_input_witness :
    FINGERPRINT_BYTE (poly_to_bytes big32 (entry poly64 128)) =
        [0xb5, 0x40, 0xee, 0x06, 0x80, 0x64, 0xb9, 0x19] ∧
      fingerprint_from_buffer big32 Globals.initial
          ⟨6, FINGERPRINT_BYTE (poly_to_bytes big32 (entry poly64 128)) ++ [1, 2]⟩ 8 =
        .ok (Globals.initial.probed big32, fingerprint_zero) :=
  zero_fingerprint_input big32 (by decide) Globals.initial (by decide) 6 [1, 2]

/-- Claim C33: on a supported host with consistent globals, for all byte sequences `a`,
`b`, `c` of the same length, at any addresses, the four calls of
`fingerprint_from_buffer` on `a`, `b`, `c` and the bytewise `a xor b xor c` return
fingerprints, and the bytewise xor of the first three is the fourth. -/
theorem from_buffer_affine (h : Host) (hs : h.supported) (g : Globals) (hg : g.consistent h)
    (a b c : List byte_t) (hab : a.length = b.length) (hac : a.length = c.length)
    (hlen : a.length < 2 ^ 31) (pa pb pc pabc : Nat) (ra rb rc rabc : List byte_t) :
    ∃ fa fb fc fabc,
      fingerprint_from_buffer h g ⟨pa, a ++ ra⟩ a.length = .ok (g.probed h, fa) ∧
      fingerprint_from_buffer h g ⟨pb, b ++ rb⟩ b.length = .ok (g.probed h, fb) ∧
      fingerprint_from_buffer h g ⟨pc, c ++ rc⟩ c.length = .ok (g.probed h, fc) ∧
      fingerprint_from_buffer h g ⟨pabc, xor_bytes (xor_bytes a b) c ++ rabc⟩
          (xor_bytes (xor_bytes a b) c).length = .ok (g.probed h, fabc) ∧
      fingerprint_xor (fingerprint_xor fa fb) fc = fabc := by
  have hl : (xor_bytes (xor_bytes a b) c).length = a.length := by
    rw [xor_bytes_length _ c (by rw [xor_bytes_length a b hab, hac]), xor_bytes_length a b hab]
  refine ⟨_, _, _, _, from_buffer_ok h hs g hg pa a ra hlen,
    from_buffer_ok h hs g hg pb b rb (by omega), from_buffer_ok h hs g hg pc c rc (by omega),
    from_buffer_ok h hs g hg pabc _ rabc (by omega), ?_⟩
  rw [reference_affine a b c hab hac, bytes_of_value_xor, bytes_of_value_xor]

theorem from_buffer_affine_witness :
    ∃ fa fb fc fabc,
      fingerprint_from_buffer little64 Globals.initial ⟨0, [1, 2, 3, 4, 5] ++ []⟩
          ([1, 2, 3, 4, 5] : List byte_t).length = .ok (Globals.initial.probed little64, fa) ∧
      fingerprint_from_buffer little64 Globals.initial ⟨1, [9, 8, 7, 6, 5] ++ [1]⟩
          ([9, 8, 7, 6, 5] : List byte_t).length = .ok (Globals.initial.probed little64, fb) ∧
      fingerprint_from_buffer little64 Globals.initial ⟨2, [0, 255, 0, 255, 0] ++ []⟩
          ([0, 255, 0, 255, 0] : List byte_t).length =
        .ok (Globals.initial.probed little64, fc) ∧
      fingerprint_from_buffer little64 Globals.initial
          ⟨3, xor_bytes (xor_bytes [1, 2, 3, 4, 5] [9, 8, 7, 6, 5]) [0, 255, 0, 255, 0] ++ []⟩
          (xor_bytes (xor_bytes [1, 2, 3, 4, 5] [9, 8, 7, 6, 5]) [0, 255, 0, 255, 0]).length =
        .ok (Globals.initial.probed little64, fabc) ∧
      fingerprint_xor (fingerprint_xor fa fb) fc = fabc :=
  from_buffer_affine little64 (by decide) Globals.initial (by decide) [1, 2, 3, 4, 5]
    [9, 8, 7, 6, 5] [0, 255, 0, 255, 0] (by decide) (by decide) (by decide) 0 1 2 3 [] [1] [] []

/-- Claim C34: on a host with words of at least 32 bits, the mixing assignment of
`fingerprint_combine` takes the halves `(lo, hi)` to `((lo * A + hi * B) mod 2 ^ 32, (lo *
C + hi * D) mod 2 ^ 32)` with `A = 0xff208489`, `B = 0xf4872e10`, `C = 0x402d619b`, `D =
0x0bf359a7`, and it is a bijection on the remainders whose halves are 32-bit values:
distinct remainders give distinct mixed pairs, and every pair is the image of one. -/
theorem mix_is_bijection (h : Host) (hW : 32 ≤ h.wordBits) :
    (∀ g buf fp1 fp2, fingerprint_combine h g buf fp1 fp2 =
        (poly_compute_mod h g POLY_ONE
          ⟨buf, FINGERPRINT_BYTE fp1 ++ FINGERPRINT_BYTE fp2⟩ 16).bind
          fun r => .ok (r.1, fingerprint_combine_loop (poly_to_bytes h (fingerprint_mix h r.2)))) ∧
      (∀ p : poly_t,
        pattern 32 (fingerprint_mix h p).array0 =
            (pattern 32 p.array0 * 0xff208489 + pattern 32 p.array1 * 0xf4872e10) % 2 ^ 32 ∧
          pattern 32 (fingerprint_mix h p).array1 =
            (pattern 32 p.array0 * 0x402d619b + pattern 32 p.array1 * 0x0bf359a7) % 2 ^ 32 ∧
          (fingerprint_mix h p).valid) ∧
      (∀ p q : poly_t, p.valid → q.valid → fingerprint_mix h p = fingerprint_mix h q → p = q) ∧
      (∀ m : poly_t, m.valid → ∃ p : poly_t, p.valid ∧ fingerprint_mix h p = m) := by
  have pA : pattern 32 FINGERPRINT_A = 0xff208489 := by decide
  have pB : pattern 32 FINGERPRINT_B = 0xf4872e10 := by decide
  have pC : pattern 32 FINGERPRINT_C = 0x402d619b := by decide
  have pD : pattern 32 FINGERPRINT_D = 0x0bf359a7 := by decide
  refine ⟨fun _ _ _ _ => rfl, fun p => ⟨?_, ?_, mix_valid h p⟩, mix_injective h hW,
    fun m hm => ⟨_, mix_surjective h hW m hm⟩⟩
  · simp only [fingerprint_mix, poly_fix_32_pattern h hW, word_plus_times h hW, POLY_HALF,
      pA, pB]
  · simp only [fingerprint_mix, poly_fix_32_pattern h hW, word_plus_times h hW, POLY_HALF,
      pC, pD]

theorem mix_is_bijection_witness :
    (∀ g buf fp1 fp2, fingerprint_combine little64 g buf fp1 fp2 =
        (poly_compute_mod little64 g POLY_ONE
          ⟨buf, FINGERPRINT_BYTE fp1 ++ FINGERPRINT_BYTE fp2⟩ 16).bind
          fun r => .ok (r.1,
            fingerprint_combine_loop (poly_to_bytes little64 (fingerprint_mix little64 r.2)))) ∧
      (∀ p : poly_t,
        pattern 32 (fingerprint_mix little64 p).array0 =
            (pattern 32 p.array0 * 0xff208489 + pattern 32 p.array1 * 0xf4872e10) % 2 ^ 32 ∧
          pattern 32 (fingerprint_mix little64 p).array1 =
            (pattern 32 p.array0 * 0x402d619b + pattern 32 p.array1 * 0x0bf359a7) % 2 ^ 32 ∧
          (fingerprint_mix little64 p).valid) ∧
      (∀ p q : poly_t, p.valid → q.valid →
        fingerprint_mix little64 p = fingerprint_mix little64 q → p = q) ∧
      (∀ m : poly_t, m.valid → ∃ p : poly_t, p.valid ∧ fingerprint_mix little64 p = m) :=
  mix_is_bijection little64 (by decide)

/-- Claim C35: on a supported host, for every negative size (a value of `int`) and every
buffer pointer, also one with no readable byte behind it, `fingerprint_from_buffer`
returns the canonical encoding of `POLY_ONE`, the bytes 00 00 00 00 00 00 00 80, which
is what it returns for the empty input (size 0). -/
theorem from_buffer_negative_size (h : Host) (hs : h.supported) (g : Globals)
    (buffer : Ptr) (size : Int) (h0 : size < 0) (h1 : -2147483648 ≤ size) :
    fingerprint_from_buffer h g buffer size =
        .ok (g.probed h, ⟨0, 0, 0, 0, 0, 0, 0, 0x80⟩) ∧
      fingerprint_from_buffer h g ⟨buffer.addr, []⟩ size =
        .ok (g.probed h, ⟨0, 0, 0, 0, 0, 0, 0, 0x80⟩) ∧
      fingerprint_from_buffer h g buffer 0 = .ok (g.probed h, ⟨0, 0, 0, 0, 0, 0, 0, 0x80⟩) ∧
      poly_to_bytes h POLY_ONE = ⟨0, 0, 0, 0, 0, 0, 0, 0x80⟩ := by
  have e : poly_to_bytes h POLY_ONE = ⟨0, 0, 0, 0, 0, 0, 0, 0x80⟩ := by
    rw [poly_to_bytes_eq h hs.1, one_bytes]
  rw [← e]
  exact ⟨from_buffer_nonpositive h hs g buffer size (by omega) h1,
    from_buffer_nonpositive h hs g _ size (by omega) h1,
    from_buffer_nonpositive h hs g buffer 0 (by omega) (by omega), rfl⟩

theorem from_buffer_negative_size_witness :
    fingerprint_from_buffer big64 Globals.initial ⟨12, [1, 2, 3]⟩ (-7) =
        .ok (Globals.initial.probed big64, ⟨0, 0, 0, 0, 0, 0, 0, 0x80⟩) ∧
      fingerprint_from_buffer big64 Globals.initial ⟨Ptr.addr ⟨12, [1, 2, 3]⟩, []⟩ (-7) =
        .ok (Globals.initial.probed big64, ⟨0, 0, 0, 0, 0, 0, 0, 0x80⟩) ∧
      fingerprint_from_buffer big64 Globals.initial ⟨12, [1, 2, 3]⟩ 0 =
        .ok (Globals.initial.probed big64, ⟨0, 0, 0, 0, 0, 0, 0, 0x80⟩) ∧
      poly_to_bytes big64 POLY_ONE = ⟨0, 0, 0, 0, 0, 0, 0, 0x80⟩ :=
  from_buffer_negative_size big64 (by decide) Globals.initial ⟨12, [1, 2, 3]⟩ (-7) (by decide)
    (by decide)

/-- Claim C36: on a host with words of at least 32 bits, for every word value `x` (every
natural number, read as a word),
`poly_fix_32 x` is the sign-extended bottom 32 bits of `x`: it lies in `-2 ^ 31 ≤ v < 2 ^
31`, it is congruent to `x` modulo `2 ^ 32`, and it is the only such value. -/
theorem poly_fix_32_sign_extends (h : Host) (hW : 32 ≤ h.wordBits) (x : Nat) :
    -2 ^ 31 ≤ poly_fix_32 h x ∧ poly_fix_32 h x < 2 ^ 31 ∧
      (2 ^ 32 : Int) ∣ poly_fix_32 h x - (x : Int) ∧
      ∀ w : Int, -2 ^ 31 ≤ w → w < 2 ^ 31 → (2 ^ 32 : Int) ∣ w - (x : Int) →
        w = poly_fix_32 h x :=
  poly_fix_32_spec h hW x

theorem poly_fix_32_sign_extends_witness :
    -2 ^ 31 ≤ poly_fix_32 little64 0x1234567880000001 ∧
      poly_fix_32 little64 0x1234567880000001 < 2 ^ 31 ∧
      (2 ^ 32 : Int) ∣ poly_fix_32 little64 0x1234567880000001 -
        ((0x1234567880000001 : Nat) : Int) ∧
      ∀ w : Int, -2 ^ 31 ≤ w → w < 2 ^ 31 →
        (2 ^ 32 : Int) ∣ w - ((0x1234567880000001 : Nat) : Int) →
        w = poly_fix_32 little64 0x1234567880000001 :=
  poly_fix_32_sign_extends little64 (by decide) 0x1234567880000001

end Rabin64
